import Mathlib

/-!
# swamp-unpack: the package decoder of `src/lib/unpack.c`

A shallow embedding of the decoder and the properties of it that the
specification states.

Conventions of the embedding.

* The input buffer is a list of octets (`Fin 256`), the cursor is the record
  `octet_stream` of `swamp_unpack.h`; `octet_count` is the length of the list.
* A decoder that leaves through the deliberate write to the null pointer
  (`char* p = 0; *p = -1;`) returns `fault.end_of_stream`; one that leaves through
  `SWAMP_ERROR` returns `fault.bind_error`.  A decoder that returns normally returns
  `Except.ok` with the new cursor and the parts of the memory it has written.
* The constant table is the array `table[512]` of the record `unpack_constants`.  No
  decoder tests the next index against the 512 slots.  A store at index 512 falls on
  the storage of the field `index`, which follows the array in the record; the
  embedding records it (`unpack_constants.clobbered`).  A store past that, or through
  the overwritten index, returns `fault.wild_store`.
* Values of the constant table are the constructors of `swamp_value`.  Functions are
  objects on a heap (`List swamp_func`, the address of an object is its place in the
  list), so that the in-place definition of a declared function and references to it
  from the table, the entry point and the constants of other functions are all kept.
* The diagnostics printed under `verbose_flag` are not part of the embedding.
* `size_t` and `int` arithmetic on positions and table indices is done in `Nat`; the
  narrowing conversions of the source (`uint8_t` loop counters, `uint16_t
  declarationRef`, `int32_t` results) are explicit.
-/

namespace SwampUnpack

/-! ## The cursor and the primitive reads -/

/-- An octet of the input buffer (`uint8_t`). -/
abbrev octet := Fin 256

/-- The cursor of `swamp_unpack.h`: the buffer and the position in it. -/
structure octet_stream where
  octets : List octet
  position : Nat
deriving DecidableEq

/-- The field `octet_count`: the number of octets of the buffer. -/
def octet_stream.octet_count (s : octet_stream) : Nat := s.octets.length

/-- The ways a decoder leaves without returning to its caller. -/
inductive fault where
  /-- the write through the null pointer, `char* p = 0; *p = -1;` -/
  | end_of_stream
  /-- the abort of `SWAMP_ERROR` in `read_external_functions` -/
  | bind_error
  /-- a table slot, or memory past the 512 slots of the table, used as `swamp_func*`
  that holds no function object -/
  | wild_function
  /-- a store `repo->table[repo->index++] = value` that falls outside the record
  `unpack_constants`, or through an `index` whose storage a store has overwritten -/
  | wild_store
  /-- the iteration bound of the embedding of a loop was used up -/
  | fuel
deriving DecidableEq

/-- The function `octet_stream_init`. -/
def octet_stream_init (octets : List octet) : octet_stream :=
  { octets := octets, position := 0 }

/-- The octet `s->octets[k]` as a number. -/
def octet_stream.octet_at (s : octet_stream) (k : Nat) : Nat := (s.octets.getD k 0).val

/-- The function `read_uint8` (lines 33-41). -/
def read_uint8 (s : octet_stream) : Except fault (Nat × octet_stream) :=
  if s.position ≥ s.octet_count then .error .end_of_stream
  else .ok (s.octet_at s.position, { s with position := s.position + 1 })

/-- The conversion of a `uint32_t` to `int32_t` (two's complement). -/
def to_int32 (t : Nat) : Int :=
  if t % 2 ^ 32 < 2 ^ 31 then ((t % 2 ^ 32 : Nat) : Int) else ((t % 2 ^ 32 : Nat) : Int) - 2 ^ 32

/-- The function `read_int32` (lines 43-55). -/
def read_int32 (s : octet_stream) : Except fault (Int × octet_stream) :=
  if s.position + 4 ≥ s.octet_count then .error .end_of_stream
  else
    match read_uint8 s with
    | .error e => .error e
    | .ok (h0, s1) =>
      match read_uint8 s1 with
      | .error e => .error e
      | .ok (h1, s2) =>
        match read_uint8 s2 with
        | .error e => .error e
        | .ok (h2, s3) =>
          match read_uint8 s3 with
          | .error e => .error e
          | .ok (h3, s4) =>
            .ok (to_int32 (((h0 <<< 24) ||| (h1 <<< 16) ||| (h2 <<< 8) ||| h3) % 2 ^ 32), s4)

/-- The function `read_uint32` (lines 57-69); its return type is `int32_t`. -/
def read_uint32 (s : octet_stream) : Except fault (Int × octet_stream) :=
  if s.position + 4 ≥ s.octet_count then .error .end_of_stream
  else
    match read_uint8 s with
    | .error e => .error e
    | .ok (h0, s1) =>
      match read_uint8 s1 with
      | .error e => .error e
      | .ok (h1, s2) =>
        match read_uint8 s2 with
        | .error e => .error e
        | .ok (h2, s3) =>
          match read_uint8 s3 with
          | .error e => .error e
          | .ok (h3, s4) =>
            .ok (to_int32 (((h0 <<< 24) ||| (h1 <<< 16) ||| (h2 <<< 8) ||| h3) % 2 ^ 32), s4)

/-- The function `read_uint16` (lines 71-81); its return type is `int32_t`. -/
def read_uint16 (s : octet_stream) : Except fault (Int × octet_stream) :=
  if s.position + 4 ≥ s.octet_count then .error .end_of_stream
  else
    match read_uint8 s with
    | .error e => .error e
    | .ok (h2, s1) =>
      match read_uint8 s1 with
      | .error e => .error e
      | .ok (h3, s2) =>
        .ok (to_int32 (((h2 <<< 8) ||| h3) % 2 ^ 32), s2)

/-- The function `read_string` (lines 83-97).  The result is the content of `buf`
before its terminator: the `len` octets copied from the buffer. -/
def read_string (s : octet_stream) : Except fault (List Nat × octet_stream) :=
  match read_uint8 s with
  | .error e => .error e
  | .ok (len, s1) =>
    if s1.position + len ≥ s1.octet_count then .error .end_of_stream
    else
      .ok (((s1.octets.drop s1.position).take len).map Fin.val,
           { s1 with position := s1.position + len })

/-- The text a `char*` denotes: the octets of a buffer before the first zero octet.
`read_string` ends `buf` with a zero octet, and `strcmp`, `strlen` and the string
copies of the source stop at the first one. -/
def c_string (buf : List Nat) : List Nat := buf.takeWhile (fun b => b != 0)

/-- The function `read_count` (lines 99-102). -/
def read_count (s : octet_stream) : Except fault (Nat × octet_stream) := read_uint8 s

/-- The function `read_dword_count` (lines 104-107): the `int32_t` of `read_uint32`
converted to `uint32_t`. -/
def read_dword_count (s : octet_stream) : Except fault (Nat × octet_stream) :=
  match read_uint32 s with
  | .error e => .error e
  | .ok (v, s1) => .ok ((v % 2 ^ 32).toNat, s1)

/-! ## Values, function objects and the constant table -/

/-- A value of the constant table (`swamp_value`).  A function value is the address of
a `swamp_func` object on the heap. -/
inductive swamp_value where
  | boolean (truth : Bool)
  | integer (value : Int)
  | string (text : List Nat)
  | external_function (fn : Option Nat) (param_count : Nat) (name : List Nat)
  | function (address : Nat)
deriving DecidableEq

/-- The body that `swamp_allocator_set_function` attaches to a function object. -/
structure func_body where
  parameter_count : Nat
  variable_count : Nat
  constant_parameter_count : Nat
  opcodes : List Nat
  opcode_count : Nat
  constants : List swamp_value
  constant_count : Nat
deriving DecidableEq

/-- The function object `swamp_func`.  After `calloc` and the assignments of lines
327-331 it holds a name and a type index and no body (the Declared state of the
specification); with a body it is in the Defined state. -/
structure swamp_func where
  debug_name : List Nat
  typeIndex : Nat
  body : Option func_body
deriving DecidableEq

/-- Modelled from the spec: `swamp_allocator_alloc_boolean` of swamp-runtime, which
constructs an owned Boolean value. -/
def swamp_allocator_alloc_boolean (truth : Nat) : swamp_value := .boolean (truth != 0)

/-- Modelled from the spec: `swamp_allocator_alloc_integer` of swamp-runtime, which
constructs an owned Integer value. -/
def swamp_allocator_alloc_integer (value : Int) : swamp_value := .integer value

/-- Modelled from the spec: `swamp_allocator_alloc_string` of swamp-runtime, which
constructs an owned String value from a `char*`. -/
def swamp_allocator_alloc_string (buf : List Nat) : swamp_value := .string (c_string buf)

/-- Modelled from the spec: `swamp_allocator_alloc_external_function` of swamp-runtime,
which constructs an ExternalFunction value from the bound implementation (or null), the
parameter count and the name. -/
def swamp_allocator_alloc_external_function (fn : Option Nat) (param_count : Nat)
    (name : List Nat) : swamp_value :=
  .external_function fn param_count (c_string name)

/-- Modelled from the spec: `swamp_allocator_set_function` of swamp-runtime, which
defines a function object in place: it attaches parameter count, variable count, opcode
bytes and the collected constants, and keeps the identity of the object. -/
def swamp_allocator_set_function (f : swamp_func) (opcodes : List Nat) (opcode_count : Nat)
    (constant_parameter_count param_count variable_count : Nat)
    (constants : List swamp_value) (constant_count : Nat) (debug_name : List Nat) : swamp_func :=
  { f with
    debug_name := debug_name
    body := some
      { parameter_count := param_count
        variable_count := variable_count
        constant_parameter_count := constant_parameter_count
        opcodes := opcodes
        opcode_count := opcode_count
        constants := constants
        constant_count := constant_count } }

/-- The function `duplicate_string` (lines 179-198): a copy of the text of a `char*`. -/
def duplicate_string (source : List Nat) : List Nat := c_string source

/-- The record `unpack_constants` of `swamp_unpack.h` (lines 37-42):
`table[512]; int index; resource_names[512]; int resource_name_index;`.

The arrays `table` and `resource_names` have the 512 slots of `Fin 512`; a slot that
was never written holds whatever the function gives there.  In the record the array is followed by `index`, so
`table[512]` is the storage of `index`: the store `table[512] = value` overwrites
`index` with bits of the pointer to `value`.  The field `clobbered` is `some value` once
that store has been made; the field `index` of the embedding then keeps the number 512,
which is no longer what the C field holds.  The array `resource_names` is written at
the `uint8_t` counter of the loop of `read_resource_names` only, a slot of the array
whatever its value. -/
structure unpack_constants where
  table : Fin 512 → swamp_value
  index : Nat
  clobbered : Option swamp_value
  resource_names : Fin 512 → List Nat
  resource_name_index : Nat

/-- The function `unpack_constants_init` (lines 21-24): the assignment `self->index = 0`
gives the storage of `index` a count again. -/
def unpack_constants_init (self : unpack_constants) : unpack_constants :=
  { self with index := 0, clobbered := none }

/-- The value `repo->table[k]` for a slot number `k` that is not known to be below 512:
`none` when `k` is outside the array. -/
def unpack_constants.slot (repo : unpack_constants) (k : Nat) : Option swamp_value :=
  if h : k < 512 then some (repo.table ⟨k, h⟩) else none

/-- The text `repo->resource_names[k]` for a slot number `k` that is not known to be below
512: `none` when `k` is outside the array. -/
def unpack_constants.resource_name (repo : unpack_constants) (k : Nat) : Option (List Nat) :=
  if h : k < 512 then some (repo.resource_names ⟨k, h⟩) else none

/-- The value `repo->table[index]` for a `uint8_t index`. -/
def unpack_constants.constant_at (repo : unpack_constants) (index : Nat) : swamp_value :=
  repo.table ⟨index % 256, by omega⟩

/-- The statement `repo->table[repo->index++] = value`; the source has no test of
`index` against the 512 slots.  Below 512 the store fills the slot `index`.  At 512 it
falls on the storage of `index` itself (`clobbered`).  A store at a later index, or
through a clobbered `index`, is a wild store: the decoder does not go on from it. -/
def unpack_constants.push (repo : unpack_constants) (value : swamp_value) :
    Except fault unpack_constants :=
  match repo.clobbered with
  | some _ => .error .wild_store
  | none =>
    if h : repo.index < 512 then
      .ok { repo with
            table := Function.update repo.table ⟨repo.index, h⟩ value
            index := repo.index + 1 }
    else if repo.index = 512 then .ok { repo with clobbered := some value }
    else .error .wild_store

/-- The fields of the record `swamp_unpack` that the decoders read or write.  The
pointers `allocator` and `table` and the callback `bind_fn` are passed to the decoders
of the embedding directly. -/
structure swamp_unpack where
  entry : Option Nat
  ignore_external_function_bind_errors : Bool
  offset_function_declarations : Nat
  function_declaration_count : Nat
deriving DecidableEq

/-- The memory a load works on: the session record, the constant table `self->table`
and the function objects allocated so far. -/
structure unpack_state where
  self : swamp_unpack
  repo : unpack_constants
  heap : List swamp_func

/-- A four-octet tag of the container framing (`RaffTag`). -/
abbrev RaffTag := List octet

/-- The collaborators of the decoder that are not part of this repository: the
container framing of the raff library, the deserializer of swamp-typeinfo and the
callback `bind_fn`.  Each framing function is given the octets from the position of
the cursor to the end of the buffer and returns its `int` result together with the
values it stores through its out-parameters. -/
structure collaborators where
  raffReadAndVerifyHeader : List octet → Int
  raffReadChunkHeader : List octet → Int × RaffTag × RaffTag × Nat
  raffReadMarker : List octet → Int × RaffTag
  swtiDeserialize : List octet → Int → Int
  bind_fn : List Nat → Option Nat

/-! ## The section decoders -/

/-- The loop of `read_booleans` (lines 117-123) with `n` iterations to go. -/
def read_booleans_loop : Nat → octet_stream → unpack_constants →
    Except fault (octet_stream × unpack_constants)
  | 0, s, repo => .ok (s, repo)
  | n + 1, s, repo =>
    match read_uint8 s with
    | .error e => .error e
    | .ok (b, s1) =>
      match repo.push (swamp_allocator_alloc_boolean (if b != 0 then 1 else 0)) with
      | .error e => .error e
      | .ok repo1 => read_booleans_loop n s1 repo1

/-- The function `read_booleans` (lines 109-124). -/
def read_booleans (s : octet_stream) (repo : unpack_constants) :
    Except fault (octet_stream × unpack_constants) :=
  match read_count s with
  | .error e => .error e
  | .ok (count, s1) => read_booleans_loop count s1 repo

/-- The loop of `read_integers` (lines 134-140) with `n` iterations to go. -/
def read_integers_loop : Nat → octet_stream → unpack_constants →
    Except fault (octet_stream × unpack_constants)
  | 0, s, repo => .ok (s, repo)
  | n + 1, s, repo =>
    match read_int32 s with
    | .error e => .error e
    | .ok (b, s1) =>
      match repo.push (swamp_allocator_alloc_integer b) with
      | .error e => .error e
      | .ok repo1 => read_integers_loop n s1 repo1

/-- The function `read_integers` (lines 126-141). -/
def read_integers (s : octet_stream) (repo : unpack_constants) :
    Except fault (octet_stream × unpack_constants) :=
  match read_count s with
  | .error e => .error e
  | .ok (count, s1) => read_integers_loop count s1 repo

/-- The loop of `read_strings` (lines 150-157) with `n` iterations to go. -/
def read_strings_loop : Nat → octet_stream → unpack_constants →
    Except fault (octet_stream × unpack_constants)
  | 0, s, repo => .ok (s, repo)
  | n + 1, s, repo =>
    match read_string s with
    | .error e => .error e
    | .ok (buf, s1) =>
      match repo.push (swamp_allocator_alloc_string buf) with
      | .error e => .error e
      | .ok repo1 => read_strings_loop n s1 repo1

/-- The function `read_strings` (lines 143-158). -/
def read_strings (s : octet_stream) (repo : unpack_constants) :
    Except fault (octet_stream × unpack_constants) :=
  match read_count s with
  | .error e => .error e
  | .ok (count, s1) => read_strings_loop count s1 repo

/-- The loop of `read_resource_names` (lines 167-176) with `n` iterations to go and
loop counter `i`. -/
def read_resource_names_loop : Nat → Nat → octet_stream → unpack_constants →
    Except fault (octet_stream × unpack_constants)
  | 0, _, s, repo => .ok (s, repo)
  | n + 1, i, s, repo =>
    match read_string s with
    | .error e => .error e
    | .ok (buf, s1) =>
      match unpack_constants.push
          { repo with
            resource_names :=
              Function.update repo.resource_names ⟨i % 256, by omega⟩ (c_string buf)
            resource_name_index := i + 1 }
          (swamp_allocator_alloc_integer i) with
      | .error e => .error e
      | .ok repo1 => read_resource_names_loop n (i + 1) s1 repo1

/-- The function `read_resource_names` (lines 160-177). -/
def read_resource_names (s : octet_stream) (repo : unpack_constants) :
    Except fault (octet_stream × unpack_constants) :=
  match read_count s with
  | .error e => .error e
  | .ok (count, s1) => read_resource_names_loop count 0 s1 repo

/-- The function `read_type_ref` (lines 252-255). -/
def read_type_ref (s : octet_stream) : Except fault (Nat × octet_stream) := read_uint8 s

/-- The loop of `read_external_functions` (lines 265-287) with `n` iterations to go. -/
def read_external_functions_loop (c : collaborators) (self : swamp_unpack) :
    Nat → octet_stream → unpack_constants → Except fault (octet_stream × unpack_constants)
  | 0, s, repo => .ok (s, repo)
  | n + 1, s, repo =>
    match read_uint8 s with
    | .error e => .error e
    | .ok (param_count, s1) =>
      match read_string s1 with
      | .error e => .error e
      | .ok (name, s2) =>
        match read_type_ref s2 with
        | .error e => .error e
        | .ok (_, s3) =>
          if c.bind_fn (c_string name) = none ∧ self.ignore_external_function_bind_errors = false then
            .error .bind_error
          else
            match repo.push
                (swamp_allocator_alloc_external_function (c.bind_fn (c_string name))
                  param_count name) with
            | .error e => .error e
            | .ok repo1 => read_external_functions_loop c self n s3 repo1

/-- The function `read_external_functions` (lines 257-288). -/
def read_external_functions (c : collaborators) (self : swamp_unpack) (s : octet_stream)
    (repo : unpack_constants) : Except fault (octet_stream × unpack_constants) :=
  match read_count s with
  | .error e => .error e
  | .ok (count, s1) => read_external_functions_loop c self count s1 repo

/-- The text "main" that `read_function_declarations` compares names with. -/
def main_name : List Nat := [109, 97, 105, 110]

/-- The loop of `read_function_declarations` (lines 300-339).  The counter `i` is a
`uint8_t` compared with the `uint32_t` count, so it wraps at 256; the first argument
bounds the number of iterations of the embedding. -/
def read_function_declarations_loop (count : Nat) :
    Nat → Nat → octet_stream → swamp_unpack → unpack_constants → List swamp_func →
    Except fault (octet_stream × swamp_unpack × unpack_constants × List swamp_func)
  | 0, _, _, _, _, _ => .error .fuel
  | fuel + 1, i, s, self, repo, heap =>
    if i < count then
      match read_uint8 s with
      | .error e => .error e
      | .ok (_, s1) =>
        match read_string s1 with
        | .error e => .error e
        | .ok (name, s2) =>
          match read_type_ref s2 with
          | .error e => .error e
          | .ok (typeRef, s3) =>
            match repo.push (.function heap.length) with
            | .error e => .error e
            | .ok repo1 =>
              read_function_declarations_loop count fuel ((i + 1) % 256) s3
                (if c_string name = main_name then { self with entry := some heap.length }
                 else self)
                repo1
                (heap ++
                  [{ debug_name := duplicate_string name, typeIndex := typeRef, body := none }])
    else .ok (s, self, repo, heap)

/-- The function `read_function_declarations` (lines 290-341).  Every iteration of its
loop that does not fault takes at least three octets, so `octet_count + 1` iterations
are never used up. -/
def read_function_declarations (self : swamp_unpack) (s : octet_stream)
    (repo : unpack_constants) (heap : List swamp_func) :
    Except fault (octet_stream × swamp_unpack × unpack_constants × List swamp_func) :=
  match read_dword_count s with
  | .error e => .error e
  | .ok (count, s1) =>
    match read_function_declarations_loop count (s1.octet_count + 1) 0 s1
        { self with offset_function_declarations := repo.index } repo heap with
    | .error e => .error e
    | .ok (s2, self2, repo2, heap2) =>
      .ok (s2, { self2 with function_declaration_count := count }, repo2, heap2)

/-- The loop of lines 229-236 of `read_functions` with `n` iterations to go: the
constants collected so far are `constants`.  The index read is a `uint8_t`, a slot of the
array whatever its value. -/
def read_function_constants (repo : unpack_constants) :
    Nat → octet_stream → List swamp_value → Except fault (List swamp_value × octet_stream)
  | 0, s, constants => .ok (constants, s)
  | n + 1, s, constants =>
    match read_uint8 s with
    | .error e => .error e
    | .ok (index, s1) =>
      read_function_constants repo n s1 (constants ++ [repo.constant_at index])

/-- The body of the loop of `read_functions` (lines 213-248) for loop counter `i`.  The
`uint16_t declarationRef` is `offset_function_declarations + i`; the value
`repo->table[declarationRef]` is used as the function object to define, and the
embedding goes on only when the reference is one of the 512 slots and the slot holds the
address of a function object. -/
def read_functions_entry (self : swamp_unpack) (repo : unpack_constants) (i : Nat)
    (s : octet_stream) (heap : List swamp_func) : Except fault (octet_stream × List swamp_func) :=
  match read_uint8 s with
  | .error e => .error e
  | .ok (param_count, s1) =>
    match read_uint8 s1 with
    | .error e => .error e
    | .ok (variable_count, s2) =>
      match read_uint8 s2 with
      | .error e => .error e
      | .ok (_, s3) =>
        match read_uint8 s3 with
        | .error e => .error e
        | .ok (constant_count, s4) =>
          match read_function_constants repo constant_count s4 [] with
          | .error e => .error e
          | .ok (constants, s5) =>
            match read_uint16 s5 with
            | .error e => .error e
            | .ok (v, s6) =>
              match repo.slot ((self.offset_function_declarations + i) % 65536) with
              | some (.function address) =>
                match heap[address]? with
                | some f =>
                  .ok ({ s6 with position := s6.position + (v % 65536).toNat },
                       heap.set address
                         (swamp_allocator_set_function f
                           (((s6.octets.drop s6.position).take (v % 65536).toNat).map Fin.val)
                           (v % 65536).toNat 0 param_count variable_count constants
                           constant_count f.debug_name))
                | none => .error .wild_function
              | _ => .error .wild_function

/-- The loop of `read_functions` (lines 212-249) with `n` iterations to go and loop
counter `i`. -/
def read_functions_loop (self : swamp_unpack) (repo : unpack_constants) :
    Nat → Nat → octet_stream → List swamp_func → Except fault (octet_stream × List swamp_func)
  | 0, _, s, heap => .ok (s, heap)
  | n + 1, i, s, heap =>
    match read_functions_entry self repo i s heap with
    | .error e => .error e
    | .ok (s1, heap1) => read_functions_loop self repo n (i + 1) s1 heap1

/-- The function `read_functions` (lines 200-250). -/
def read_functions (self : swamp_unpack) (s : octet_stream) (repo : unpack_constants)
    (heap : List swamp_func) : Except fault (octet_stream × List swamp_func) :=
  match read_dword_count s with
  | .error e => .error e
  | .ok (count, s1) =>
    if count ≠ self.function_declaration_count then .ok (s1, heap)
    else read_functions_loop self repo count 0 s1 heap

/-! ## Framing, the code chunk and the load -/

/-- The function `readAndVerifyRaffHeader` (lines 343-355). -/
def readAndVerifyRaffHeader (c : collaborators) (s : octet_stream) : Int × octet_stream :=
  if c.raffReadAndVerifyHeader (s.octets.drop s.position) < 9 then (-1, s)
  else
    (0, { s with
          position := s.position + (c.raffReadAndVerifyHeader (s.octets.drop s.position)).toNat })

/-- The function `readAndVerifyRaffChunkHeader` (lines 357-381).  The result is the
`uint32_t` chunk size returned as `int`, or the error of the framing, or -2 or -3. -/
def readAndVerifyRaffChunkHeader (c : collaborators) (s : octet_stream) (icon name : RaffTag) :
    Int × octet_stream :=
  if (c.raffReadChunkHeader (s.octets.drop s.position)).1 < 0 then
    ((c.raffReadChunkHeader (s.octets.drop s.position)).1, s)
  else if icon ≠ (c.raffReadChunkHeader (s.octets.drop s.position)).2.1 then (-2, s)
  else if name ≠ (c.raffReadChunkHeader (s.octets.drop s.position)).2.2.1 then (-3, s)
  else
    (to_int32 (c.raffReadChunkHeader (s.octets.drop s.position)).2.2.2,
     { s with
       position := s.position + (c.raffReadChunkHeader (s.octets.drop s.position)).1.toNat })

/-- The function `readRaffMarker` (lines 383-399): its result, the tag it has stored
and the cursor. -/
def readRaffMarker (c : collaborators) (s : octet_stream) : Int × RaffTag × octet_stream :=
  if (c.raffReadMarker (s.octets.drop s.position)).1 < 0 then
    ((c.raffReadMarker (s.octets.drop s.position)).1,
     (c.raffReadMarker (s.octets.drop s.position)).2, s)
  else
    ((c.raffReadMarker (s.octets.drop s.position)).1,
     (c.raffReadMarker (s.octets.drop s.position)).2,
     { s with position := s.position + (c.raffReadMarker (s.octets.drop s.position)).1.toNat })

/-- The function `verifyMarker` (lines 401-412); the result of `readRaffMarker` is not
looked at. -/
def verifyMarker (c : collaborators) (s : octet_stream) (expectedMarker : RaffTag) :
    Int × octet_stream :=
  if (readRaffMarker c s).2.1 ≠ expectedMarker then (-1, (readRaffMarker c s).2.2)
  else (0, (readRaffMarker c s).2.2)

/-- The function `readTypeInformation` (lines 414-433). -/
def readTypeInformation (c : collaborators) (s : octet_stream) : Int × octet_stream :=
  let r := readAndVerifyRaffChunkHeader c s [0xF0, 0x9F, 0x93, 0x9C] [115, 116, 105, 48]
  if r.1 ≤ 0 then r
  else if c.swtiDeserialize (r.2.octets.drop r.2.position) r.1 < 0 then
    (c.swtiDeserialize (r.2.octets.drop r.2.position) r.1, r.2)
  else (0, { r.2 with position := r.2.position + r.1.toNat })

/-- The marker of the external-function section. -/
def externalMarker : RaffTag := [0xF0, 0x9F, 0x91, 0xBE]
/-- The marker of the function-declaration section. -/
def functionDeclarationMarker : RaffTag := [0xF0, 0x9F, 0x9B, 0x82]
/-- The marker of the boolean section. -/
def booleanMarker : RaffTag := [0xF0, 0x9F, 0x90, 0x9C]
/-- The marker of the integer section. -/
def integerMarker : RaffTag := [0xF0, 0x9F, 0x94, 0xA2]
/-- The marker of the string section. -/
def stringMarker : RaffTag := [0xF0, 0x9F, 0x8E, 0xBB]
/-- The marker of the resource-name section. -/
def resourceNameMarker : RaffTag := [0xF0, 0x9F, 0x8C, 0xB3]
/-- The marker of the function-body section. -/
def functionMarker : RaffTag := [0xF0, 0x9F, 0x90, 0x8A]

/-- The function `readCode` (lines 435-496): the `int` it returns, the cursor and the
memory, or the fault of a section decoder. -/
def readCode (c : collaborators) (s : octet_stream) (st : unpack_state) :
    Except fault (Int × octet_stream × unpack_state) :=
  let r0 := readAndVerifyRaffChunkHeader c s [0xF0, 0x9F, 0x92, 0xBB] [115, 99, 100, 48]
  if r0.1 ≤ 0 then .ok (r0.1, r0.2, st)
  else
    let m1 := verifyMarker c r0.2 externalMarker
    if m1.1 ≠ 0 then .ok (m1.1, m1.2, st)
    else
      match read_external_functions c st.self m1.2 st.repo with
      | .error e => .error e
      | .ok (s1, repo1) =>
        let m2 := verifyMarker c s1 functionDeclarationMarker
        if m2.1 ≠ 0 then .ok (m2.1, m2.2, { st with repo := repo1 })
        else
          match read_function_declarations st.self m2.2 repo1 st.heap with
          | .error e => .error e
          | .ok (s2, self2, repo2, heap2) =>
            let m3 := verifyMarker c s2 booleanMarker
            if m3.1 ≠ 0 then .ok (m3.1, m3.2, { self := self2, repo := repo2, heap := heap2 })
            else
              match read_booleans m3.2 repo2 with
              | .error e => .error e
              | .ok (s3, repo3) =>
                let m4 := verifyMarker c s3 integerMarker
                if m4.1 ≠ 0 then .ok (m4.1, m4.2, { self := self2, repo := repo3, heap := heap2 })
                else
                  match read_integers m4.2 repo3 with
                  | .error e => .error e
                  | .ok (s4, repo4) =>
                    let m5 := verifyMarker c s4 stringMarker
                    if m5.1 ≠ 0 then
                      .ok (m5.1, m5.2, { self := self2, repo := repo4, heap := heap2 })
                    else
                      match read_strings m5.2 repo4 with
                      | .error e => .error e
                      | .ok (s5, repo5) =>
                        let m6 := verifyMarker c s5 resourceNameMarker
                        if m6.1 ≠ 0 then
                          .ok (m6.1, m6.2, { self := self2, repo := repo5, heap := heap2 })
                        else
                          match read_resource_names m6.2 repo5 with
                          | .error e => .error e
                          | .ok (s6, repo6) =>
                            let m7 := verifyMarker c s6 functionMarker
                            if m7.1 ≠ 0 then
                              .ok (m7.1, m7.2, { self := self2, repo := repo6, heap := heap2 })
                            else
                              match read_functions self2 m7.2 repo6 heap2 with
                              | .error e => .error e
                              | .ok (s7, heap7) =>
                                .ok (0, s7, { self := self2, repo := repo6, heap := heap7 })

/-- The function `swamp_unpack_octet_stream` (lines 498-524). -/
def swamp_unpack_octet_stream (c : collaborators) (s : octet_stream) (st : unpack_state) :
    Except fault (Int × octet_stream × unpack_state) :=
  let r0 := readAndVerifyRaffHeader c s
  if r0.1 ≠ 0 then .ok (r0.1, r0.2, st)
  else
    let r1 := readAndVerifyRaffChunkHeader c r0.2 [0xF0, 0x9F, 0x93, 0xA6] [115, 112, 107, 51]
    if r1.1 < 0 then .ok (r1.1, r1.2, st)
    else
      let r2 := readTypeInformation c r1.2
      if r2.1 < 0 then .ok (r2.1, r2.2, st)
      else
        match readCode c r2.2 st with
        | .error e => .error e
        | .ok (errorCode, s3, st3) =>
          if errorCode ≠ 0 then .ok (errorCode, s3, st3) else .ok (0, s3, st3)

/-- The function `swamp_unpack_init` (lines 560-569) on the fields of the embedding:
`entry` is cleared and the leniency flag is reset; the declaration window is not
assigned. -/
def swamp_unpack_init (self : swamp_unpack) : swamp_unpack :=
  { self with entry := none, ignore_external_function_bind_errors := false }

/-- The function `swamp_unpack_entry_point` (lines 581-584). -/
def swamp_unpack_entry_point (self : swamp_unpack) : Option Nat := self.entry

/-- Modelled from the spec: the framing of the raff library and the other
collaborators, for the evaluation of the decoder on concrete buffers.  A chunk header
is icon[4], name[4] and a big-endian `u32` size (twelve octets), a marker is four
octets; either is refused with -1 when the buffer holds fewer octets.  The file header
is the nine-octet signature of the framing.  The type-information deserializer accepts
a chunk whose octets are all in the buffer, and `bind_fn` resolves the one name "core". -/
def spec_framing : collaborators where
  raffReadAndVerifyHeader data :=
    if data.length < 9 then -1
    else if data.take 9 = [0xF0, 0x9F, 0xA6, 0x8A, 82, 65, 70, 70, 10] then 9 else -2
  raffReadChunkHeader data :=
    if data.length < 12 then (-1, [], [], 0)
    else
      (12, data.take 4, (data.drop 4).take 4,
       (data.getD 8 0).val * 2 ^ 24 + (data.getD 9 0).val * 2 ^ 16 + (data.getD 10 0).val * 2 ^ 8
         + (data.getD 11 0).val)
  raffReadMarker data := if data.length < 4 then (-1, []) else (4, data.take 4)
  swtiDeserialize data size := if (data.length : Int) < size then -1 else 0
  bind_fn name := if name = [99, 111, 114, 101] then some 1 else none

/-! ## Notions used to state the properties -/

/-- The variant of a value of the constant table. -/
inductive value_kind where
  | boolean | integer | string | external_function | function
deriving DecidableEq

/-- The variant a value belongs to. -/
def swamp_value.kind : swamp_value → value_kind
  | .boolean _ => .boolean
  | .integer _ => .integer
  | .string _ => .string
  | .external_function _ _ _ => .external_function
  | .function _ => .function

/-- The table `repo1` is the table `repo` with `n` values appended, the `j`-th of which
satisfies `P j`: the next index has grown by `n` and the slots below the old next index
are as they were. -/
def table_appended (P : Nat → swamp_value → Prop) (n : Nat) (repo repo1 : unpack_constants) :
    Prop :=
  repo1.index = repo.index + n ∧
  (∀ k, k < repo.index → repo1.slot k = repo.slot k) ∧
  (∀ j, j < n → ∃ v, repo1.slot (repo.index + j) = some v ∧ P j v)

/-- The table `b` keeps what the table `a` holds: its next index is not below that of
`a` and the slots below the next index of `a` have the values they have in `a`. -/
def table_extends (a b : unpack_constants) : Prop :=
  a.index ≤ b.index ∧ ∀ k, k < a.index → b.slot k = a.slot k

/-- What one store `repo->table[repo->index++] = v` that the decoder goes on from does:
the index was not overwritten before, and either the store is inside the array or it is
the store at slot 512, on the storage of `index`. -/
def table_store (v : swamp_value) (repo repoA : unpack_constants) : Prop :=
  repo.clobbered = none ∧
  ((repo.index < 512 ∧ repoA.clobbered = none ∧ repoA.index = repo.index + 1 ∧
      repoA.slot repo.index = some v ∧ ∀ k, k ≠ repo.index → repoA.slot k = repo.slot k) ∨
   (repo.index = 512 ∧ repoA.clobbered = some v ∧ repoA.index = 512 ∧
      ∀ k, repoA.slot k = repo.slot k))

/-- What a run of `n` stores that the decoder goes on from does to the table, the `j`-th
stored value satisfying `P j`.  The table keeps what it held.  When the index is not
overwritten at the end, it was not before, and all `n` values are in the table.  When
there was room for `n` values, the index is not overwritten.  Every stored value whose
slot is inside the array is in that slot.  On a table whose index was overwritten
before, the run has stored nothing. -/
structure table_stored (P : Nat → swamp_value → Prop) (n : Nat)
    (repo repo1 : unpack_constants) : Prop where
  keeps : table_extends repo repo1
  index_le : repo1.index ≤ repo.index + n
  within : repo.index ≤ 512 → repo1.index ≤ 512
  appended : repo1.clobbered = none → repo.clobbered = none ∧ table_appended P n repo repo1
  room : repo.clobbered = none → repo.index + n ≤ 512 → repo1.clobbered = none
  in_slot : ∀ j, j < n → repo.index + j < 512 →
    ∃ v, repo1.slot (repo.index + j) = some v ∧ P j v
  nothing : repo.clobbered ≠ none → n = 0 ∧ repo1 = repo

/-- The cursors and memories between the steps of a `readCode` that decodes all seven
sections: `s_x` is the cursor after the marker of section `x` (where its count is
read) and `e_x` the cursor after its last entry. -/
structure code_trace where
  s_external : octet_stream
  e_external : octet_stream
  repo1 : unpack_constants
  s_declaration : octet_stream
  e_declaration : octet_stream
  self2 : swamp_unpack
  repo2 : unpack_constants
  heap2 : List swamp_func
  s_boolean : octet_stream
  e_boolean : octet_stream
  repo3 : unpack_constants
  s_integer : octet_stream
  e_integer : octet_stream
  repo4 : unpack_constants
  s_string : octet_stream
  e_string : octet_stream
  repo5 : unpack_constants
  s_resource : octet_stream
  e_resource : octet_stream
  repo6 : unpack_constants
  s_function : octet_stream

/-- The trace `t` is the run of `readCode c s st` through all seven sections, ending
with cursor `s7` and memory `st7`: the chunk header announces a non-empty chunk, each
marker is verified where the previous section ended and each decoder returns. -/
def code_trace.valid (t : code_trace) (c : collaborators) (s : octet_stream) (st : unpack_state)
    (s7 : octet_stream) (st7 : unpack_state) : Prop :=
  0 < (readAndVerifyRaffChunkHeader c s [0xF0, 0x9F, 0x92, 0xBB] [115, 99, 100, 48]).1 ∧
  verifyMarker c (readAndVerifyRaffChunkHeader c s [0xF0, 0x9F, 0x92, 0xBB] [115, 99, 100, 48]).2
    externalMarker = (0, t.s_external) ∧
  read_external_functions c st.self t.s_external st.repo = .ok (t.e_external, t.repo1) ∧
  verifyMarker c t.e_external functionDeclarationMarker = (0, t.s_declaration) ∧
  read_function_declarations st.self t.s_declaration t.repo1 st.heap
    = .ok (t.e_declaration, t.self2, t.repo2, t.heap2) ∧
  verifyMarker c t.e_declaration booleanMarker = (0, t.s_boolean) ∧
  read_booleans t.s_boolean t.repo2 = .ok (t.e_boolean, t.repo3) ∧
  verifyMarker c t.e_boolean integerMarker = (0, t.s_integer) ∧
  read_integers t.s_integer t.repo3 = .ok (t.e_integer, t.repo4) ∧
  verifyMarker c t.e_integer stringMarker = (0, t.s_string) ∧
  read_strings t.s_string t.repo4 = .ok (t.e_string, t.repo5) ∧
  verifyMarker c t.e_string resourceNameMarker = (0, t.s_resource) ∧
  read_resource_names t.s_resource t.repo5 = .ok (t.e_resource, t.repo6) ∧
  verifyMarker c t.e_resource functionMarker = (0, t.s_function) ∧
  ∃ heap7, read_functions t.self2 t.s_function t.repo6 t.heap2 = .ok (s7, heap7) ∧
    st7 = { self := t.self2, repo := t.repo6, heap := heap7 }

/-- The entry point after a run of declarations: the last of the new functions that is
named "main", or the old entry point when there is none. -/
def entry_after (entry : Option Nat) (base : Nat) (news : List swamp_func) (entry1 : Option Nat) :
    Prop :=
  (entry1 = entry ∧ ∀ f, f ∈ news → f.debug_name ≠ main_name) ∨
  ∃ k f, news[k]? = some f ∧ f.debug_name = main_name ∧ entry1 = some (base + k) ∧
    ∀ j g, k < j → news[j]? = some g → g.debug_name ≠ main_name


/-- The body that the function-body entry at the cursor `s` describes: parameter count,
variable count, (unused) temporary count and constant count, one octet each; the
constant indices, one octet each, looked up in the table; the two-octet opcode length
and the raw opcode octets after it. -/
def wire_body (repo : unpack_constants) (s : octet_stream) : func_body :=
  { parameter_count := s.octet_at s.position
    variable_count := s.octet_at (s.position + 1)
    constant_parameter_count := 0
    opcodes :=
      ((s.octets.drop (s.position + 6 + s.octet_at (s.position + 3))).take
        (s.octet_at (s.position + 4 + s.octet_at (s.position + 3)) * 256
          + s.octet_at (s.position + 5 + s.octet_at (s.position + 3)))).map Fin.val
    opcode_count :=
      s.octet_at (s.position + 4 + s.octet_at (s.position + 3)) * 256
        + s.octet_at (s.position + 5 + s.octet_at (s.position + 3))
    constants :=
      (List.range (s.octet_at (s.position + 3))).map
        (fun j => repo.constant_at (s.octet_at (s.position + 4 + j)))
    constant_count := s.octet_at (s.position + 3) }

/-- The position after the function-body entry at the cursor `s`. -/
def wire_body_end (s : octet_stream) : Nat :=
  s.position + 6 + s.octet_at (s.position + 3)
    + (s.octet_at (s.position + 4 + s.octet_at (s.position + 3)) * 256
        + s.octet_at (s.position + 5 + s.octet_at (s.position + 3)))

/-- The cursor at the `k`-th function-body entry when the first one is at `s`: each
entry ends where `wire_body_end` says. -/
def body_cursor : Nat → octet_stream → octet_stream
  | 0, s => s
  | k + 1, s => body_cursor k { s with position := wire_body_end s }

/-- The run of `readCode c s st` that ends at the chunk header: the header announces a
chunk of size zero, and `readCode` returns 0 with the memory as it was. -/
def code_chunk_empty (c : collaborators) (s : octet_stream) (st : unpack_state)
    (s7 : octet_stream) (st7 : unpack_state) : Prop :=
  (readAndVerifyRaffChunkHeader c s [0xF0, 0x9F, 0x92, 0xBB] [115, 99, 100, 48]).1 = 0 ∧
  s7 = (readAndVerifyRaffChunkHeader c s [0xF0, 0x9F, 0x92, 0xBB] [115, 99, 100, 48]).2 ∧
  st7 = st

/-! ## Concrete sessions and buffers -/

/-- A session as `main` of `example/main.c` sets it up: `swamp_unpack_init` on the
session record, next index 0 in the table, no function object allocated. -/
def fresh_state : unpack_state :=
  { self := swamp_unpack_init
      { entry := none, ignore_external_function_bind_errors := false,
        offset_function_declarations := 0, function_declaration_count := 0 }
    repo := unpack_constants_init
      { table := fun _ => .integer 0, index := 0, clobbered := none,
        resource_names := fun _ => [], resource_name_index := 0 }
    heap := [] }

/-- The header of a code chunk of the given size (below 256). -/
def code_chunk_header (size : octet) : List octet :=
  [0xF0, 0x9F, 0x92, 0xBB, 115, 99, 100, 48, 0, 0, 0, size]

/-- The octets of a package before its code chunk: the file header, the header of the
outer "spk3" chunk and an empty type-information chunk "sti0". -/
def package_head : List octet :=
  [0xF0, 0x9F, 0xA6, 0x8A, 82, 65, 70, 70, 10,
   0xF0, 0x9F, 0x93, 0xA6, 115, 112, 107, 51, 0, 0, 0, 100,
   0xF0, 0x9F, 0x93, 0x9C, 115, 116, 105, 48, 0, 0, 0, 0]

/-- The six data sections of the literal scenario of the specification: no external
function, the one declaration (param_count 0, name "main", type_ref 0), no boolean,
integer, string or resource name. -/
def main_only_sections : List octet :=
  externalMarker ++ [0]
    ++ functionDeclarationMarker ++ [0, 0, 0, 1, 0, 4, 109, 97, 105, 110, 0]
    ++ booleanMarker ++ [0] ++ integerMarker ++ [0] ++ stringMarker ++ [0]
    ++ resourceNameMarker ++ [0]

/-- The code chunk of the literal scenario: the body section has count 1 and the entry
(param_count 0, variable_count 0, temp_count 0, constant_count 0, opcode_count 0), and
the buffer ends right after the two octets of the opcode length. -/
def scenario_chunk : List octet :=
  code_chunk_header 50 ++ main_only_sections ++ functionMarker ++ [0, 0, 0, 1, 0, 0, 0, 0, 0, 0]

/-- A code chunk that declares one function and whose body section starts with the
count 2. -/
def mismatch_chunk : List octet :=
  code_chunk_header 54 ++ main_only_sections
    ++ functionMarker ++ [0, 0, 0, 2, 0, 0, 0, 0, 0, 4, 1, 2, 3, 4]

/-- A code chunk with one function whose body has the four opcode octets 1, 2, 3, 4. -/
def opcode_chunk : List octet :=
  code_chunk_header 54 ++ main_only_sections
    ++ functionMarker ++ [0, 0, 0, 1, 0, 0, 0, 0, 0, 4, 1, 2, 3, 4]

/-- A code chunk with entries in every section: the external function "core"; the
declarations "main" and "f"; a boolean, an integer, a string and two resource names; the
body of "main" with the constant indices 2 (the function "f", declared after it) and 4
and three opcode octets, and the body of "f" with three opcode octets. -/
def sample_chunk : List octet :=
  code_chunk_header 90
    ++ externalMarker ++ [1, 2, 4, 99, 111, 114, 101, 7]
    ++ functionDeclarationMarker ++ [0, 0, 0, 2, 0, 4, 109, 97, 105, 110, 1, 1, 1, 102, 2]
    ++ booleanMarker ++ [1, 1]
    ++ integerMarker ++ [1, 0, 0, 0, 42]
    ++ stringMarker ++ [1, 2, 104, 105]
    ++ resourceNameMarker ++ [2, 1, 97, 1, 98]
    ++ functionMarker
    ++ [0, 0, 0, 2, 0, 1, 0, 2, 2, 4, 0, 3, 1, 2, 3, 1, 1, 0, 0, 0, 3, 9, 9, 9]

/-- The cursor a returned load or `readCode` leaves (`d` when it faulted). -/
def result_cursor (r : Except fault (Int × octet_stream × unpack_state)) (d : octet_stream) :
    octet_stream :=
  match r with
  | .ok v => v.2.1
  | .error _ => d

/-- The memory a returned load or `readCode` leaves (`d` when it faulted). -/
def result_state (r : Except fault (Int × octet_stream × unpack_state)) (d : unpack_state) :
    unpack_state :=
  match r with
  | .ok v => v.2.2
  | .error _ => d

/-- The `int` a load or `readCode` returns, or its fault. -/
def result_code (r : Except fault (Int × octet_stream × unpack_state)) : Except fault Int :=
  match r with
  | .ok v => .ok v.1
  | .error e => .error e

/-- The function object that the function-declaration entry at the cursor `s`
describes: one octet of parameter count, the length-prefixed name, one octet of type
reference; the object is Declared (it has no body). -/
def wire_declaration (s : octet_stream) : swamp_func :=
  { debug_name :=
      c_string (((s.octets.drop (s.position + 2)).take (s.octet_at (s.position + 1))).map Fin.val)
    typeIndex := s.octet_at (s.position + 2 + s.octet_at (s.position + 1))
    body := none }

/-- The position after the function-declaration entry at the cursor `s`. -/
def wire_declaration_end (s : octet_stream) : Nat :=
  s.position + 3 + s.octet_at (s.position + 1)

/-- The cursor at the `k`-th function-declaration entry when the first one is at `s`. -/
def declaration_cursor : Nat → octet_stream → octet_stream
  | 0, s => s
  | k + 1, s => declaration_cursor k { s with position := wire_declaration_end s }

/-- The run of `readCode` on `sample_chunk` in a fresh session. -/
def sample_decode : Except fault (Int × octet_stream × unpack_state) :=
  readCode spec_framing { octets := sample_chunk, position := 0 } fresh_state

/-- The octets of a length-prefixed string on the wire: the length octet and the
octets of the string. -/
def encode_name (name : List octet) : List octet := Fin.ofNat name.length :: name

/-- The octets of a run of length-prefixed strings on the wire. -/
def encode_names : List (List octet) → List octet
  | [] => []
  | name :: names => encode_name name ++ encode_names names

/-- The result of reading the header of the code chunk, as `readCode` does first. -/
def code_header (c : collaborators) (s : octet_stream) : Int × octet_stream :=
  readAndVerifyRaffChunkHeader c s [0xF0, 0x9F, 0x92, 0xBB] [115, 99, 100, 48]

/-- The number of further stores `repo->table[repo->index++] = value` that the decoder
goes on from: those into the free slots of the array and the one at slot 512. -/
def unpack_constants.room (repo : unpack_constants) : Nat :=
  match repo.clobbered with
  | none => 513 - repo.index
  | some _ => 0

/-- The fault of a decoder, if it did not return. -/
def fault_of {α : Type} (r : Except fault α) : Option fault :=
  match r with
  | .ok _ => none
  | .error e => some e

/-- A code chunk whose first marker is the marker of the boolean section. -/
def wrong_first_marker_chunk : List octet :=
  code_chunk_header 50 ++ booleanMarker ++ [0] ++ functionDeclarationMarker ++ [0, 0, 0, 0, 0]

/-- A code chunk whose header announces the size 0, followed by octets that are no
section of a code chunk. -/
def empty_code_chunk : List octet :=
  code_chunk_header 0 ++ [1, 2, 3, 4, 5]

/-- A code chunk that fills one table slot (the declaration of "main") and whose body
lists the constant index 200. -/
def wild_index_chunk : List octet :=
  code_chunk_header 54 ++ main_only_sections
    ++ functionMarker ++ [0, 0, 0, 1, 0, 0, 0, 1, 200, 0, 3, 1, 2, 3]

/-- A declaration section on the wire with the count `n` (below 65536) and `n` entries
(param_count 0, empty name, type_ref 0), followed by five more octets. -/
def declaration_section (n : Nat) : List octet :=
  [0, 0, Fin.ofNat (n / 256), Fin.ofNat (n % 256)]
    ++ (List.replicate n [0, 0, 0]).flatten ++ [0, 0, 0, 0, 0]

/-- A declaration section on the wire with the count 256 and 516 entries (param_count 0,
empty name, type_ref 0), followed by two more octets: after the four octets of the count
every octet is 0. -/
def long_declaration_section : List octet :=
  [0, 0, 1, 0] ++ List.replicate 1550 0

/-- A code chunk whose section counts are 0, 0, 255, 0, 255 and 3: 255 booleans, 255
empty strings and 3 resource names with empty names, 513 entries in all; it declares no
function and has no body. -/
def overflow_chunk : List octet :=
  code_chunk_header 1
    ++ externalMarker ++ [0]
    ++ functionDeclarationMarker ++ [0, 0, 0, 0]
    ++ booleanMarker ++ [255] ++ List.replicate 255 1
    ++ integerMarker ++ [0]
    ++ stringMarker ++ [255] ++ List.replicate 255 0
    ++ resourceNameMarker ++ [3, 0, 0, 0]
    ++ functionMarker ++ [0, 0, 0, 0, 0]

/-- What a returned `readCode` or load has left in the table: the returned `int`, the
value in the last slot (511) and the value that the store at slot 512, if one was made,
has put on the storage of `index`. -/
def observe_table (r : Except fault (Int × octet_stream × unpack_state)) :
    Option (Int × Option swamp_value × Option swamp_value) :=
  match r with
  | .ok v => some (v.1, v.2.2.repo.slot 511, v.2.2.repo.clobbered)
  | .error _ => none

/-- A declaration section on the wire with the count 3 and the entries "main" (type 1),
"f" (type 2) and "main" (type 3), followed by five more octets. -/
def two_mains_section : List octet :=
  [0, 0, 0, 3, 0, 4, 109, 97, 105, 110, 1, 0, 1, 102, 2, 0, 4, 109, 97, 105, 110, 3,
   0, 0, 0, 0, 0]

/-- What a decoder has returned (`d` when it faulted). -/
def result_of {α : Type} (r : Except fault α) (d : α) : α :=
  match r with
  | .ok v => v
  | .error _ => d

/-- The run of `read_function_declarations` on `two_mains_section` in a fresh
session. -/
def two_mains_run :
    Except fault (octet_stream × swamp_unpack × unpack_constants × List swamp_func) :=
  read_function_declarations fresh_state.self { octets := two_mains_section, position := 0 }
    fresh_state.repo []

/-! ## Properties of the primitive reads -/

theorem octet_at_lt (s : octet_stream) (k : Nat) : s.octet_at k < 256 :=
  (s.octets.getD k 0).isLt

theorem read_uint8_of_lt {s : octet_stream} (h : s.position < s.octet_count) :
    read_uint8 s = .ok (s.octet_at s.position, { s with position := s.position + 1 }) := by
  simp [read_uint8, Nat.not_le.mpr h]

theorem read_uint8_of_ge {s : octet_stream} (h : s.octet_count ≤ s.position) :
    read_uint8 s = .error .end_of_stream := by
  simp [read_uint8, h]

/-- What a successful `read_uint8` has done. -/
theorem read_uint8_ok {s s1 : octet_stream} {v : Nat} (h : read_uint8 s = .ok (v, s1)) :
    s.position < s.octet_count ∧ v = s.octet_at s.position ∧
      s1 = { s with position := s.position + 1 } := by
  by_cases hlt : s.position < s.octet_count
  · rw [read_uint8_of_lt hlt] at h
    simp only [Except.ok.injEq, Prod.mk.injEq] at h
    exact ⟨hlt, h.1.symm, h.2.symm⟩
  · rw [read_uint8_of_ge (Nat.le_of_not_lt hlt)] at h
    exact absurd h (by simp)

theorem read_uint8_fault {s : octet_stream} {e : fault} (h : read_uint8 s = .error e) :
    s.octet_count ≤ s.position ∧ e = .end_of_stream := by
  by_cases hlt : s.position < s.octet_count
  · rw [read_uint8_of_lt hlt] at h
    exact absurd h (by simp)
  · rw [read_uint8_of_ge (Nat.le_of_not_lt hlt)] at h
    simp only [Except.error.injEq] at h
    exact ⟨Nat.le_of_not_lt hlt, h.symm⟩

theorem be32_or (h0 h1 h2 h3 : Nat) (b1 : h1 < 256) (b2 : h2 < 256) (b3 : h3 < 256) :
    (h0 <<< 24) ||| (h1 <<< 16) ||| (h2 <<< 8) ||| h3
      = h0 * 2 ^ 24 + h1 * 2 ^ 16 + h2 * 2 ^ 8 + h3 := by
  have e3 : 2 ^ 8 * h2 + h3 = 2 ^ 8 * h2 ||| h3 := Nat.mul_add_lt_is_or (by omega) h2
  have e2 : 2 ^ 16 * h1 + (2 ^ 8 * h2 + h3) = 2 ^ 16 * h1 ||| (2 ^ 8 * h2 + h3) :=
    Nat.mul_add_lt_is_or (by omega) h1
  have e1 : 2 ^ 24 * h0 + (2 ^ 16 * h1 + (2 ^ 8 * h2 + h3))
      = 2 ^ 24 * h0 ||| (2 ^ 16 * h1 + (2 ^ 8 * h2 + h3)) :=
    Nat.mul_add_lt_is_or (by omega) h0
  rw [Nat.shiftLeft_eq, Nat.shiftLeft_eq, Nat.shiftLeft_eq, Nat.or_assoc, Nat.or_assoc,
    Nat.mul_comm h2, ← e3, Nat.mul_comm h1, ← e2, Nat.mul_comm h0, ← e1]
  omega

theorem be16_or (h2 h3 : Nat) (b3 : h3 < 256) : (h2 <<< 8) ||| h3 = h2 * 2 ^ 8 + h3 := by
  have e3 : 2 ^ 8 * h2 + h3 = 2 ^ 8 * h2 ||| h3 := Nat.mul_add_lt_is_or (by omega) h2
  rw [Nat.shiftLeft_eq, Nat.mul_comm h2, ← e3]

/-- The big-endian number of the four octets at position `p`. -/
theorem be32_lt (s : octet_stream) (p : Nat) :
    s.octet_at p * 2 ^ 24 + s.octet_at (p + 1) * 2 ^ 16 + s.octet_at (p + 2) * 2 ^ 8
      + s.octet_at (p + 3) < 2 ^ 32 := by
  have := octet_at_lt s p
  have := octet_at_lt s (p + 1)
  have := octet_at_lt s (p + 2)
  have := octet_at_lt s (p + 3)
  omega

theorem read_uint8_mk {o : List octet} {p : Nat} (h : p < o.length) :
    read_uint8 { octets := o, position := p }
      = .ok ((o.getD p 0).val, { octets := o, position := p + 1 }) :=
  @read_uint8_of_lt { octets := o, position := p } h

theorem read_uint32_of_lt {s : octet_stream} (h : s.position + 4 < s.octet_count) :
    read_uint32 s = .ok
      (to_int32 (s.octet_at s.position * 2 ^ 24 + s.octet_at (s.position + 1) * 2 ^ 16
          + s.octet_at (s.position + 2) * 2 ^ 8 + s.octet_at (s.position + 3)),
       { s with position := s.position + 4 }) := by
  obtain ⟨o, p⟩ := s
  simp only [octet_stream.octet_count] at h
  have h0 : p < o.length := by omega
  have h1 : p + 1 < o.length := by omega
  have h2 : p + 1 + 1 < o.length := by omega
  have h3 : p + 1 + 1 + 1 < o.length := by omega
  have hm := Nat.mod_eq_of_lt (be32_lt { octets := o, position := p } p)
  simp only [octet_stream.octet_at] at hm
  simp only [read_uint32, octet_stream.octet_count, Nat.not_le.mpr h, if_false, ge_iff_le,
    read_uint8_mk h0, read_uint8_mk h1, read_uint8_mk h2, read_uint8_mk h3,
    octet_stream.octet_at]
  rw [be32_or _ _ _ _ (Fin.isLt _) (Fin.isLt _) (Fin.isLt _), hm]

theorem read_uint32_of_ge {s : octet_stream} (h : s.octet_count ≤ s.position + 4) :
    read_uint32 s = .error .end_of_stream := by
  simp [read_uint32, h]

theorem read_int32_eq_read_uint32 (s : octet_stream) : read_int32 s = read_uint32 s := rfl

theorem read_uint16_of_lt {s : octet_stream} (h : s.position + 4 < s.octet_count) :
    read_uint16 s = .ok
      (((s.octet_at s.position * 2 ^ 8 + s.octet_at (s.position + 1) : Nat) : Int),
       { s with position := s.position + 2 }) := by
  obtain ⟨o, p⟩ := s
  simp only [octet_stream.octet_count] at h
  have h0 : p < o.length := by omega
  have h1 : p + 1 < o.length := by omega
  have b0 : (o.getD p 0).val < 256 := Fin.isLt _
  have b1 : (o.getD (p + 1) 0).val < 256 := Fin.isLt _
  simp only [read_uint16, octet_stream.octet_count, Nat.not_le.mpr h, if_false, ge_iff_le,
    read_uint8_mk h0, read_uint8_mk h1, octet_stream.octet_at]
  rw [be16_or _ _ (Fin.isLt _)]
  have hm : ((o.getD p 0).val * 2 ^ 8 + (o.getD (p + 1) 0).val) % 2 ^ 32
      = (o.getD p 0).val * 2 ^ 8 + (o.getD (p + 1) 0).val :=
    Nat.mod_eq_of_lt (by omega)
  have hlt : ((o.getD p 0).val * 2 ^ 8 + (o.getD (p + 1) 0).val) < 2 ^ 31 := by omega
  simp only [to_int32, hm, hlt, if_true]

theorem read_uint16_of_ge {s : octet_stream} (h : s.octet_count ≤ s.position + 4) :
    read_uint16 s = .error .end_of_stream := by
  simp [read_uint16, h]

theorem to_int32_mod (x : Nat) (h : x < 2 ^ 32) : (to_int32 x % 2 ^ 32).toNat = x := by
  unfold to_int32
  rw [Nat.mod_eq_of_lt h]
  split <;> omega

theorem read_uint32_ok {s s1 : octet_stream} {v : Int} (h : read_uint32 s = .ok (v, s1)) :
    s.position + 4 < s.octet_count ∧
      v = to_int32 (s.octet_at s.position * 2 ^ 24 + s.octet_at (s.position + 1) * 2 ^ 16
          + s.octet_at (s.position + 2) * 2 ^ 8 + s.octet_at (s.position + 3)) ∧
      s1 = { s with position := s.position + 4 } := by
  by_cases hlt : s.position + 4 < s.octet_count
  · rw [read_uint32_of_lt hlt] at h
    simp only [Except.ok.injEq, Prod.mk.injEq] at h
    exact ⟨hlt, h.1.symm, h.2.symm⟩
  · rw [read_uint32_of_ge (Nat.le_of_not_lt hlt)] at h
    exact absurd h (by simp)

theorem read_uint16_ok {s s1 : octet_stream} {v : Int} (h : read_uint16 s = .ok (v, s1)) :
    s.position + 4 < s.octet_count ∧
      v = ((s.octet_at s.position * 2 ^ 8 + s.octet_at (s.position + 1) : Nat) : Int) ∧
      s1 = { s with position := s.position + 2 } := by
  by_cases hlt : s.position + 4 < s.octet_count
  · rw [read_uint16_of_lt hlt] at h
    simp only [Except.ok.injEq, Prod.mk.injEq] at h
    exact ⟨hlt, h.1.symm, h.2.symm⟩
  · rw [read_uint16_of_ge (Nat.le_of_not_lt hlt)] at h
    exact absurd h (by simp)

theorem read_dword_count_of_lt {s : octet_stream} (h : s.position + 4 < s.octet_count) :
    read_dword_count s = .ok
      (s.octet_at s.position * 2 ^ 24 + s.octet_at (s.position + 1) * 2 ^ 16
          + s.octet_at (s.position + 2) * 2 ^ 8 + s.octet_at (s.position + 3),
       { s with position := s.position + 4 }) := by
  simp only [read_dword_count, read_uint32_of_lt h, to_int32_mod _ (be32_lt s s.position)]

theorem read_dword_count_of_ge {s : octet_stream} (h : s.octet_count ≤ s.position + 4) :
    read_dword_count s = .error .end_of_stream := by
  simp only [read_dword_count, read_uint32_of_ge h]

theorem read_dword_count_ok {s s1 : octet_stream} {v : Nat}
    (h : read_dword_count s = .ok (v, s1)) :
    s.position + 4 < s.octet_count ∧
      v = s.octet_at s.position * 2 ^ 24 + s.octet_at (s.position + 1) * 2 ^ 16
          + s.octet_at (s.position + 2) * 2 ^ 8 + s.octet_at (s.position + 3) ∧
      s1 = { s with position := s.position + 4 } := by
  by_cases hlt : s.position + 4 < s.octet_count
  · rw [read_dword_count_of_lt hlt] at h
    simp only [Except.ok.injEq, Prod.mk.injEq] at h
    exact ⟨hlt, h.1.symm, h.2.symm⟩
  · rw [read_dword_count_of_ge (Nat.le_of_not_lt hlt)] at h
    exact absurd h (by simp)

theorem read_string_of_lt {s : octet_stream} (h0 : s.position < s.octet_count)
    (h : s.position + 1 + s.octet_at s.position < s.octet_count) :
    read_string s = .ok
      (((s.octets.drop (s.position + 1)).take (s.octet_at s.position)).map Fin.val,
       { s with position := s.position + 1 + s.octet_at s.position }) := by
  simp only [read_string, read_uint8_of_lt h0, octet_stream.octet_count] at *
  simp [Nat.not_le.mpr h]

theorem read_string_of_ge {s : octet_stream} (h0 : s.position < s.octet_count)
    (h : s.octet_count ≤ s.position + 1 + s.octet_at s.position) :
    read_string s = .error .end_of_stream := by
  simp only [read_string, read_uint8_of_lt h0, octet_stream.octet_count] at *
  simp [h]

theorem read_string_of_empty {s : octet_stream} (h0 : s.octet_count ≤ s.position) :
    read_string s = .error .end_of_stream := by
  simp only [read_string, read_uint8_of_ge h0]

/-- What a successful `read_string` has done. -/
theorem read_string_ok {s s1 : octet_stream} {buf : List Nat}
    (h : read_string s = .ok (buf, s1)) :
    s.position + 1 + s.octet_at s.position < s.octet_count ∧
      buf = ((s.octets.drop (s.position + 1)).take (s.octet_at s.position)).map Fin.val ∧
      buf.length = s.octet_at s.position ∧
      s1 = { s with position := s.position + 1 + s.octet_at s.position } := by
  by_cases h0 : s.position < s.octet_count
  · by_cases hlt : s.position + 1 + s.octet_at s.position < s.octet_count
    · rw [read_string_of_lt h0 hlt] at h
      simp only [Except.ok.injEq, Prod.mk.injEq] at h
      refine ⟨hlt, h.1.symm, ?_, h.2.symm⟩
      rw [← h.1]
      simp only [List.length_map, List.length_take, List.length_drop,
        octet_stream.octet_count] at *
      omega
    · rw [read_string_of_ge h0 (Nat.le_of_not_lt hlt)] at h
      exact absurd h (by simp)
  · rw [read_string_of_empty (Nat.le_of_not_lt h0)] at h
    exact absurd h (by simp)

theorem read_string_fault {s : octet_stream} {e : fault} (h : read_string s = .error e) :
    e = .end_of_stream := by
  by_cases h0 : s.position < s.octet_count
  · by_cases hlt : s.position + 1 + s.octet_at s.position < s.octet_count
    · rw [read_string_of_lt h0 hlt] at h
      exact absurd h (by simp)
    · rw [read_string_of_ge h0 (Nat.le_of_not_lt hlt)] at h
      simp only [Except.error.injEq] at h
      exact h.symm
  · rw [read_string_of_empty (Nat.le_of_not_lt h0)] at h
    simp only [Except.error.injEq] at h
    exact h.symm

/-! ### The claims about the primitive reads -/

/-- C6: `read_uint8` returns exactly when at least one octet remains, but `read_uint16`,
`read_int32` and `read_uint32` return exactly when at least FIVE octets remain (their
test is `position + 4 >= octet_count`): with exactly four octets left the 32-bit reads
take the end-of-stream path, and so does `read_uint16` with two, three or four octets
left. -/
theorem primitive_reads_bounds :
    (∀ s : octet_stream, (∃ r, read_uint8 s = .ok r) ↔ s.position + 1 ≤ s.octet_count) ∧
    (∀ s : octet_stream, (∃ r, read_uint16 s = .ok r) ↔ s.position + 5 ≤ s.octet_count) ∧
    (∀ s : octet_stream, (∃ r, read_int32 s = .ok r) ↔ s.position + 5 ≤ s.octet_count) ∧
    (∀ s : octet_stream, (∃ r, read_uint32 s = .ok r) ↔ s.position + 5 ≤ s.octet_count) ∧
    read_uint32 { octets := [1, 2, 3, 4], position := 0 } = .error .end_of_stream ∧
    read_int32 { octets := [1, 2, 3, 4], position := 0 } = .error .end_of_stream ∧
    read_uint16 { octets := [1, 2], position := 0 } = .error .end_of_stream ∧
    read_uint16 { octets := [1, 2, 3, 4], position := 0 } = .error .end_of_stream := by
  refine ⟨fun s => ⟨?_, ?_⟩, fun s => ⟨?_, ?_⟩, fun s => ⟨?_, ?_⟩, fun s => ⟨?_, ?_⟩,
    rfl, rfl, rfl, rfl⟩
  · rintro ⟨⟨v, s1⟩, h⟩
    exact (read_uint8_ok h).1
  · intro h
    exact ⟨_, read_uint8_of_lt h⟩
  · rintro ⟨⟨v, s1⟩, h⟩
    exact (read_uint16_ok h).1
  · intro h
    exact ⟨_, read_uint16_of_lt h⟩
  · rintro ⟨⟨v, s1⟩, h⟩
    exact (read_uint32_ok h).1
  · intro h
    exact ⟨_, read_uint32_of_lt h⟩
  · rintro ⟨⟨v, s1⟩, h⟩
    exact (read_uint32_ok h).1
  · intro h
    exact ⟨_, read_uint32_of_lt h⟩

/-- C7: a primitive read that returns gives the big-endian number of the octets at the
cursor and advances by the octets taken: one for `read_uint8`, two for `read_uint16`,
four for `read_int32` (two's complement) and `1 + L` for `read_string`, which returns
the `L` octets after the length octet.  `read_uint32` has return type `int32_t` and
returns the same signed number as `read_int32`: on FF FF FF FF it returns -1, not
4294967295; the unsigned number is what `read_dword_count` makes of it. -/
theorem primitive_reads_values :
    (∀ (s s1 : octet_stream) (v : Nat), read_uint8 s = .ok (v, s1) →
      v = s.octet_at s.position ∧ s1 = { s with position := s.position + 1 }) ∧
    (∀ (s s1 : octet_stream) (v : Int), read_uint16 s = .ok (v, s1) →
      v = ((s.octet_at s.position * 256 + s.octet_at (s.position + 1) : Nat) : Int) ∧
      s1 = { s with position := s.position + 2 }) ∧
    (∀ (s s1 : octet_stream) (v : Int), read_int32 s = .ok (v, s1) →
      v = to_int32 (s.octet_at s.position * 2 ^ 24 + s.octet_at (s.position + 1) * 2 ^ 16
            + s.octet_at (s.position + 2) * 2 ^ 8 + s.octet_at (s.position + 3)) ∧
      s1 = { s with position := s.position + 4 }) ∧
    (∀ (s s1 : octet_stream) (v : Int), read_uint32 s = .ok (v, s1) →
      v = to_int32 (s.octet_at s.position * 2 ^ 24 + s.octet_at (s.position + 1) * 2 ^ 16
            + s.octet_at (s.position + 2) * 2 ^ 8 + s.octet_at (s.position + 3)) ∧
      s1 = { s with position := s.position + 4 }) ∧
    (∀ (s s1 : octet_stream) (v : Nat), read_dword_count s = .ok (v, s1) →
      v = s.octet_at s.position * 2 ^ 24 + s.octet_at (s.position + 1) * 2 ^ 16
            + s.octet_at (s.position + 2) * 2 ^ 8 + s.octet_at (s.position + 3) ∧
      s1 = { s with position := s.position + 4 }) ∧
    (∀ (s s1 : octet_stream) (buf : List Nat), read_string s = .ok (buf, s1) →
      buf = ((s.octets.drop (s.position + 1)).take (s.octet_at s.position)).map Fin.val ∧
      buf.length = s.octet_at s.position ∧
      s1 = { s with position := s.position + 1 + s.octet_at s.position }) ∧
    read_uint32 { octets := [255, 255, 255, 255, 0], position := 0 }
      = .ok (-1, { octets := [255, 255, 255, 255, 0], position := 4 }) ∧
    read_dword_count { octets := [255, 255, 255, 255, 0], position := 0 }
      = .ok (4294967295, { octets := [255, 255, 255, 255, 0], position := 4 }) := by
  refine ⟨fun s s1 v h => (read_uint8_ok h).2, fun s s1 v h => (read_uint16_ok h).2,
    fun s s1 v h => (read_uint32_ok h).2, fun s s1 v h => (read_uint32_ok h).2,
    fun s s1 v h => (read_dword_count_ok h).2, fun s s1 buf h => (read_string_ok h).2,
    rfl, rfl⟩

/-- C8: when the length octet that `read_string` reads claims more octets than remain
after it, `read_string` takes the end-of-stream path and returns no string; and whenever
`read_string` does return, every octet it has copied lies inside the buffer. -/
theorem read_string_overrun (s s1 : octet_stream) (len : Nat)
    (hlen : read_uint8 s = .ok (len, s1)) (hover : s1.octet_count - s1.position < len) :
    read_string s = .error .end_of_stream ∧
      (∀ r, read_string s ≠ .ok r) ∧
      (∀ (t t1 : octet_stream) (buf : List Nat), read_string t = .ok (buf, t1) →
        ∀ j, j < buf.length → t.position + 1 + j < t.octet_count) := by
  obtain ⟨h0, hv, hs1⟩ := read_uint8_ok hlen
  subst hv hs1
  simp only [octet_stream.octet_count] at hover h0
  have hfail : read_string s = .error .end_of_stream :=
    read_string_of_ge h0 (by simp only [octet_stream.octet_count]; omega)
  refine ⟨hfail, ?_, ?_⟩
  · intro r hr
    rw [hfail] at hr
    exact absurd hr (by simp)
  · intro t t1 buf h j hj
    obtain ⟨hlt, _, hl, _⟩ := read_string_ok h
    omega

theorem read_string_overrun_witness :
    read_string { octets := [5, 1, 2], position := 0 } = .error .end_of_stream :=
  (read_string_overrun { octets := [5, 1, 2], position := 0 }
    { octets := [5, 1, 2], position := 1 } 5 rfl (by decide)).1

/-! ## Properties of the section decoders -/


theorem table_appended_zero (P : Nat → swamp_value → Prop) (repo : unpack_constants) :
    table_appended P 0 repo repo :=
  ⟨rfl, fun _ _ => rfl, fun j hj => absurd hj (Nat.not_lt_zero j)⟩

theorem table_appended_step {P : Nat → swamp_value → Prop} {n : Nat}
    {repo repoA repo1 : unpack_constants} {v : swamp_value}
    (hidx : repoA.index = repo.index + 1)
    (hslot : repoA.slot repo.index = some v)
    (hframe : ∀ k, k ≠ repo.index → repoA.slot k = repo.slot k) (hv : P 0 v)
    (h : table_appended (fun j => P (j + 1)) n repoA repo1) :
    table_appended P (n + 1) repo repo1 := by
  obtain ⟨h1, h2, h3⟩ := h
  refine ⟨by omega, ?_, ?_⟩
  · intro k hk
    rw [h2 k (by omega), hframe k (by omega)]
  · intro j hj
    cases j with
    | zero =>
      refine ⟨v, ?_, hv⟩
      rw [Nat.add_zero, h2 _ (by omega), hslot]
    | succ j =>
      obtain ⟨w, hw, hP⟩ := h3 j (by omega)
      rw [hidx] at hw
      refine ⟨w, ?_, hP⟩
      rw [show repo.index + (j + 1) = repo.index + 1 + j by omega]
      exact hw

theorem table_appended_mono {P Q : Nat → swamp_value → Prop} {n : Nat}
    {repo repo1 : unpack_constants} (hPQ : ∀ j v, P j v → Q j v)
    (h : table_appended P n repo repo1) : table_appended Q n repo repo1 :=
  ⟨h.1, h.2.1, fun j hj => (h.2.2 j hj).imp fun _ hv => ⟨hv.1, hPQ _ _ hv.2⟩⟩

theorem table_extends_refl (a : unpack_constants) : table_extends a a :=
  ⟨Nat.le_refl _, fun _ _ => rfl⟩

theorem table_extends_trans {a b c : unpack_constants} (hab : table_extends a b)
    (hbc : table_extends b c) : table_extends a c :=
  ⟨Nat.le_trans hab.1 hbc.1, fun k hk =>
    (hbc.2 k (Nat.lt_of_lt_of_le hk hab.1)).trans (hab.2 k hk)⟩

theorem table_extends_of_appended {P : Nat → swamp_value → Prop} {n : Nat}
    {a b : unpack_constants} (h : table_appended P n a b) : table_extends a b :=
  ⟨by rw [h.1]; omega, h.2.1⟩

theorem slot_of_lt (repo : unpack_constants) {k : Nat} (h : k < 512) :
    repo.slot k = some (repo.table ⟨k, h⟩) := by
  unfold unpack_constants.slot
  rw [dif_pos h]

theorem slot_of_ge (repo : unpack_constants) {k : Nat} (h : 512 ≤ k) : repo.slot k = none := by
  unfold unpack_constants.slot
  rw [dif_neg (by omega)]

theorem slot_some_lt {repo : unpack_constants} {k : Nat} {v : swamp_value}
    (h : repo.slot k = some v) : k < 512 := by
  by_contra hk
  rw [slot_of_ge repo (by omega)] at h
  exact absurd h (by simp)

theorem constant_at_slot (repo : unpack_constants) {index : Nat} (h : index < 256) :
    repo.slot index = some (repo.constant_at index) := by
  rw [slot_of_lt repo (by omega)]
  unfold unpack_constants.constant_at
  simp only [Nat.mod_eq_of_lt h]

theorem push_ok {repo repoA : unpack_constants} {v : swamp_value}
    (h : repo.push v = .ok repoA) :
    table_store v repo repoA ∧ repoA.resource_names = repo.resource_names ∧
      repoA.resource_name_index = repo.resource_name_index := by
  unfold unpack_constants.push at h
  split at h
  · exact absurd h (by simp)
  rename_i hc
  split at h
  · rename_i hlt
    simp only [Except.ok.injEq] at h
    subst h
    refine ⟨⟨hc, Or.inl ⟨hlt, hc, rfl, ?_, ?_⟩⟩, rfl, rfl⟩
    · rw [slot_of_lt _ hlt]
      simp
    · intro k hk
      unfold unpack_constants.slot
      by_cases hk5 : k < 512
      · rw [dif_pos hk5, dif_pos hk5]
        simp only [Option.some.injEq]
        exact Function.update_noteq (fun e => hk (by simpa using congrArg Fin.val e)) _ _
      · rw [dif_neg hk5, dif_neg hk5]
  · split at h
    · rename_i hge heq
      simp only [Except.ok.injEq] at h
      subst h
      exact ⟨⟨hc, Or.inr ⟨heq, rfl, heq, fun _ => rfl⟩⟩, rfl, rfl⟩
    · exact absurd h (by simp)

theorem push_of_room {repo : unpack_constants} (v : swamp_value) (hc : repo.clobbered = none)
    (h : repo.index < 512) :
    repo.push v = .ok { repo with
      table := Function.update repo.table ⟨repo.index, h⟩ v
      index := repo.index + 1 } := by
  unfold unpack_constants.push
  rw [hc]
  simp only [dif_pos h]

theorem table_stored_zero (P : Nat → swamp_value → Prop) (repo : unpack_constants) :
    table_stored P 0 repo repo :=
  { keeps := table_extends_refl _
    index_le := Nat.le_refl _
    within := fun h => h
    appended := fun h => ⟨h, table_appended_zero _ _⟩
    room := fun h _ => h
    in_slot := fun j hj => absurd hj (Nat.not_lt_zero j)
    nothing := fun _ => ⟨rfl, rfl⟩ }

theorem table_stored_step {P : Nat → swamp_value → Prop} {n : Nat}
    {repo repoA repo1 : unpack_constants} {v : swamp_value}
    (hs : table_store v repo repoA) (hv : P 0 v)
    (h : table_stored (fun j => P (j + 1)) n repoA repo1) :
    table_stored P (n + 1) repo repo1 := by
  obtain ⟨hc, hs⟩ := hs
  rcases hs with ⟨hlt, hcA, hidx, hslot, hframe⟩ | ⟨h512, hcA, hidx, hframe⟩
  · have h0 : table_extends repo repoA := ⟨by omega, fun k hk => hframe k (by omega)⟩
    refine ⟨table_extends_trans h0 h.keeps, ?_, fun _ => h.within (by omega), ?_, ?_, ?_,
      fun hne => absurd hc hne⟩
    · have := h.index_le
      omega
    · intro h1
      exact ⟨hc, table_appended_step hidx hslot hframe hv (h.appended h1).2⟩
    · intro _ hroom
      exact h.room hcA (by omega)
    · intro j hj hj5
      cases j with
      | zero =>
        refine ⟨v, ?_, hv⟩
        rw [Nat.add_zero, h.keeps.2 _ (by omega), hslot]
      | succ j =>
        obtain ⟨w, hw, hP⟩ := h.in_slot j (by omega) (by omega)
        rw [hidx] at hw
        refine ⟨w, ?_, hP⟩
        rw [show repo.index + (j + 1) = repo.index + 1 + j by omega]
        exact hw
  · have h0 : table_extends repo repoA := ⟨by omega, fun k _ => hframe k⟩
    refine ⟨table_extends_trans h0 h.keeps, ?_, fun _ => h.within (by omega), ?_, ?_,
      fun j _ hj5 => absurd hj5 (by omega), fun hne => absurd hc hne⟩
    · have := h.index_le
      omega
    · intro h1
      have := (h.appended h1).1
      rw [hcA] at this
      exact absurd this (by simp)
    · intro _ hroom
      omega

theorem table_stored_mono {P Q : Nat → swamp_value → Prop} {n : Nat}
    {repo repo1 : unpack_constants} (hPQ : ∀ j v, P j v → Q j v)
    (h : table_stored P n repo repo1) : table_stored Q n repo repo1 :=
  { keeps := h.keeps
    index_le := h.index_le
    within := h.within
    appended := fun h1 => ⟨(h.appended h1).1, table_appended_mono hPQ (h.appended h1).2⟩
    room := h.room
    in_slot := fun j hj hj5 => (h.in_slot j hj hj5).imp fun _ hv => ⟨hv.1, hPQ _ _ hv.2⟩
    nothing := h.nothing }

theorem read_booleans_loop_ok : ∀ (n : Nat) (s s1 : octet_stream) (repo repo1 : unpack_constants),
    read_booleans_loop n s repo = .ok (s1, repo1) →
      table_stored (fun _ v => v.kind = .boolean) n repo repo1 ∧
      repo1.resource_names = repo.resource_names ∧
      repo1.resource_name_index = repo.resource_name_index := by
  intro n
  induction n with
  | zero =>
    intro s s1 repo repo1 h
    simp only [read_booleans_loop, Except.ok.injEq, Prod.mk.injEq] at h
    rw [← h.2]
    exact ⟨table_stored_zero _ _, rfl, rfl⟩
  | succ n ih =>
    intro s s1 repo repo1 h
    simp only [read_booleans_loop] at h
    split at h
    · exact absurd h (by simp)
    split at h
    · exact absurd h (by simp)
    rename_i hp
    obtain ⟨ha, hb, hc⟩ := ih _ _ _ _ h
    obtain ⟨hs, hr1, hr2⟩ := push_ok hp
    exact ⟨table_stored_step hs rfl ha, hb.trans hr1, hc.trans hr2⟩

theorem verifyMarker_zero {c : collaborators} {s : octet_stream} {m : RaffTag}
    (h : ¬ (verifyMarker c s m).1 ≠ 0) : verifyMarker c s m = (0, (verifyMarker c s m).2) := by
  have h0 : (verifyMarker c s m).1 = 0 := not_not.mp h
  exact Prod.ext h0 rfl

theorem readCode_ok_cases {c : collaborators} {s s7 : octet_stream} {st st7 : unpack_state}
    (h : readCode c s st = .ok (0, s7, st7)) :
    code_chunk_empty c s st s7 st7 ∨
    ∃ t : code_trace, t.valid c s st s7 st7 := by
  unfold readCode at h
  simp only [] at h
  split at h
  · left
    simp only [Except.ok.injEq, Prod.mk.injEq] at h
    exact ⟨h.1, h.2.1.symm, h.2.2.symm⟩
  · right
    rename_i hpos
    split at h
    · rename_i hm
      simp only [Except.ok.injEq, Prod.mk.injEq] at h
      exact absurd h.1 hm
    rename_i hm1
    split at h
    · exact absurd h (by simp)
    rename_i s1 repo1 he1
    split at h
    · rename_i hm
      simp only [Except.ok.injEq, Prod.mk.injEq] at h
      exact absurd h.1 hm
    rename_i hm2
    split at h
    · exact absurd h (by simp)
    rename_i s2 self2 repo2 heap2 he2
    split at h
    · rename_i hm
      simp only [Except.ok.injEq, Prod.mk.injEq] at h
      exact absurd h.1 hm
    rename_i hm3
    split at h
    · exact absurd h (by simp)
    rename_i s3 repo3 he3
    split at h
    · rename_i hm
      simp only [Except.ok.injEq, Prod.mk.injEq] at h
      exact absurd h.1 hm
    rename_i hm4
    split at h
    · exact absurd h (by simp)
    rename_i s4 repo4 he4
    split at h
    · rename_i hm
      simp only [Except.ok.injEq, Prod.mk.injEq] at h
      exact absurd h.1 hm
    rename_i hm5
    split at h
    · exact absurd h (by simp)
    rename_i s5 repo5 he5
    split at h
    · rename_i hm
      simp only [Except.ok.injEq, Prod.mk.injEq] at h
      exact absurd h.1 hm
    rename_i hm6
    split at h
    · exact absurd h (by simp)
    rename_i s6 repo6 he6
    split at h
    · rename_i hm
      simp only [Except.ok.injEq, Prod.mk.injEq] at h
      exact absurd h.1 hm
    rename_i hm7
    split at h
    · exact absurd h (by simp)
    rename_i s7b heap7 he7
    simp only [Except.ok.injEq, Prod.mk.injEq, true_and] at h
    refine ⟨⟨_, s1, repo1, _, s2, self2, repo2, heap2, _, s3, repo3, _, s4, repo4, _, s5, repo5,
      _, s6, repo6, _⟩, Int.lt_of_not_ge hpos, verifyMarker_zero hm1, he1, verifyMarker_zero hm2, he2,
      verifyMarker_zero hm3, he3, verifyMarker_zero hm4, he4, verifyMarker_zero hm5, he5,
      verifyMarker_zero hm6, he6, verifyMarker_zero hm7, heap7, ?_, h.2.symm⟩
    rw [he7, h.1]

theorem read_integers_loop_ok : ∀ (n : Nat) (s s1 : octet_stream) (repo repo1 : unpack_constants),
    read_integers_loop n s repo = .ok (s1, repo1) →
      table_stored (fun _ v => v.kind = .integer) n repo repo1 ∧
      repo1.resource_names = repo.resource_names ∧
      repo1.resource_name_index = repo.resource_name_index := by
  intro n
  induction n with
  | zero =>
    intro s s1 repo repo1 h
    simp only [read_integers_loop, Except.ok.injEq, Prod.mk.injEq] at h
    rw [← h.2]
    exact ⟨table_stored_zero _ _, rfl, rfl⟩
  | succ n ih =>
    intro s s1 repo repo1 h
    simp only [read_integers_loop] at h
    split at h
    · exact absurd h (by simp)
    split at h
    · exact absurd h (by simp)
    rename_i hp
    obtain ⟨ha, hb, hc⟩ := ih _ _ _ _ h
    obtain ⟨hs, hr1, hr2⟩ := push_ok hp
    exact ⟨table_stored_step hs rfl ha, hb.trans hr1, hc.trans hr2⟩

theorem read_strings_loop_ok : ∀ (n : Nat) (s s1 : octet_stream) (repo repo1 : unpack_constants),
    read_strings_loop n s repo = .ok (s1, repo1) →
      table_stored (fun _ v => v.kind = .string) n repo repo1 ∧
      repo1.resource_names = repo.resource_names ∧
      repo1.resource_name_index = repo.resource_name_index := by
  intro n
  induction n with
  | zero =>
    intro s s1 repo repo1 h
    simp only [read_strings_loop, Except.ok.injEq, Prod.mk.injEq] at h
    rw [← h.2]
    exact ⟨table_stored_zero _ _, rfl, rfl⟩
  | succ n ih =>
    intro s s1 repo repo1 h
    simp only [read_strings_loop] at h
    split at h
    · exact absurd h (by simp)
    split at h
    · exact absurd h (by simp)
    rename_i hp
    obtain ⟨ha, hb, hc⟩ := ih _ _ _ _ h
    obtain ⟨hs, hr1, hr2⟩ := push_ok hp
    exact ⟨table_stored_step hs rfl ha, hb.trans hr1, hc.trans hr2⟩

theorem read_resource_names_loop_ok : ∀ (n i : Nat) (s s1 : octet_stream)
    (repo repo1 : unpack_constants),
    read_resource_names_loop n i s repo = .ok (s1, repo1) →
      table_stored (fun j v => v = .integer ((i + j : Nat) : Int)) n repo repo1 := by
  intro n
  induction n with
  | zero =>
    intro i s s1 repo repo1 h
    simp only [read_resource_names_loop, Except.ok.injEq, Prod.mk.injEq] at h
    rw [← h.2]
    exact table_stored_zero _ _
  | succ n ih =>
    intro i s s1 repo repo1 h
    simp only [read_resource_names_loop] at h
    split at h
    · exact absurd h (by simp)
    split at h
    · exact absurd h (by simp)
    rename_i hp
    have ha := ih _ _ _ _ _ h
    have hb : table_stored (fun j v => v = .integer ((i + (j + 1) : Nat) : Int)) n _ repo1 :=
      table_stored_mono (fun j v hv => by rw [hv, show i + 1 + j = i + (j + 1) by omega]) ha
    exact table_stored_step (push_ok hp).1 rfl hb

theorem read_external_functions_loop_ok (c : collaborators) (self : swamp_unpack) :
    ∀ (n : Nat) (s s1 : octet_stream) (repo repo1 : unpack_constants),
    read_external_functions_loop c self n s repo = .ok (s1, repo1) →
      table_stored (fun _ v => v.kind = .external_function) n repo repo1 ∧
      repo1.resource_names = repo.resource_names ∧
      repo1.resource_name_index = repo.resource_name_index := by
  intro n
  induction n with
  | zero =>
    intro s s1 repo repo1 h
    simp only [read_external_functions_loop, Except.ok.injEq, Prod.mk.injEq] at h
    rw [← h.2]
    exact ⟨table_stored_zero _ _, rfl, rfl⟩
  | succ n ih =>
    intro s s1 repo repo1 h
    simp only [read_external_functions_loop] at h
    split at h
    · exact absurd h (by simp)
    split at h
    · exact absurd h (by simp)
    split at h
    · exact absurd h (by simp)
    split at h
    · exact absurd h (by simp)
    split at h
    · exact absurd h (by simp)
    rename_i hp
    obtain ⟨ha, hb, hc⟩ := ih _ _ _ _ h
    obtain ⟨hs, hr1, hr2⟩ := push_ok hp
    exact ⟨table_stored_step hs rfl ha, hb.trans hr1, hc.trans hr2⟩

/-- What a `read_booleans` that returns has done. -/
theorem read_booleans_ok {s s1 : octet_stream} {repo repo1 : unpack_constants}
    (h : read_booleans s repo = .ok (s1, repo1)) :
    ∃ count sc, read_count s = .ok (count, sc) ∧
      table_stored (fun _ v => v.kind = .boolean) count repo repo1 := by
  unfold read_booleans at h
  split at h
  · exact absurd h (by simp)
  · rename_i count sc hc
    exact ⟨count, sc, hc, (read_booleans_loop_ok _ _ _ _ _ h).1⟩

/-- What a `read_integers` that returns has done. -/
theorem read_integers_ok {s s1 : octet_stream} {repo repo1 : unpack_constants}
    (h : read_integers s repo = .ok (s1, repo1)) :
    ∃ count sc, read_count s = .ok (count, sc) ∧
      table_stored (fun _ v => v.kind = .integer) count repo repo1 := by
  unfold read_integers at h
  split at h
  · exact absurd h (by simp)
  · rename_i count sc hc
    exact ⟨count, sc, hc, (read_integers_loop_ok _ _ _ _ _ h).1⟩

/-- What a `read_strings` that returns has done. -/
theorem read_strings_ok {s s1 : octet_stream} {repo repo1 : unpack_constants}
    (h : read_strings s repo = .ok (s1, repo1)) :
    ∃ count sc, read_count s = .ok (count, sc) ∧
      table_stored (fun _ v => v.kind = .string) count repo repo1 := by
  unfold read_strings at h
  split at h
  · exact absurd h (by simp)
  · rename_i count sc hc
    exact ⟨count, sc, hc, (read_strings_loop_ok _ _ _ _ _ h).1⟩

/-- What a `read_resource_names` that returns has done to the table. -/
theorem read_resource_names_ok {s s1 : octet_stream} {repo repo1 : unpack_constants}
    (h : read_resource_names s repo = .ok (s1, repo1)) :
    ∃ count sc, read_count s = .ok (count, sc) ∧
      table_stored (fun j v => v = .integer ((j : Nat) : Int)) count repo repo1 := by
  unfold read_resource_names at h
  split at h
  · exact absurd h (by simp)
  · rename_i count sc hc
    refine ⟨count, sc, hc, table_stored_mono ?_ (read_resource_names_loop_ok _ _ _ _ _ _ h)⟩
    intro j v hv
    rw [hv, Nat.zero_add]

/-- What a `read_external_functions` that returns has done. -/
theorem read_external_functions_ok {c : collaborators} {self : swamp_unpack}
    {s s1 : octet_stream} {repo repo1 : unpack_constants}
    (h : read_external_functions c self s repo = .ok (s1, repo1)) :
    ∃ count sc, read_count s = .ok (count, sc) ∧
      table_stored (fun _ v => v.kind = .external_function) count repo repo1 := by
  unfold read_external_functions at h
  split at h
  · exact absurd h (by simp)
  · rename_i count sc hc
    exact ⟨count, sc, hc, (read_external_functions_loop_ok c self _ _ _ _ _ h).1⟩

theorem read_count_lt {s s1 : octet_stream} {count : Nat} (h : read_count s = .ok (count, s1)) :
    count < 256 := by
  obtain ⟨_, hv, _⟩ := read_uint8_ok h
  rw [hv]
  exact octet_at_lt _ _

/-- The loop of `read_function_declarations` returns only for counts below 256. -/
theorem read_function_declarations_loop_count (count : Nat) :
    ∀ (fuel i : Nat) (s : octet_stream) (self : swamp_unpack) (repo : unpack_constants)
      (heap : List swamp_func)
      (r : octet_stream × swamp_unpack × unpack_constants × List swamp_func),
      i < 256 → read_function_declarations_loop count fuel i s self repo heap = .ok r →
      count ≤ 255 := by
  intro fuel
  induction fuel with
  | zero =>
    intro i s self repo heap r _ h
    simp [read_function_declarations_loop] at h
  | succ fuel ih =>
    intro i s self repo heap r hi h
    simp only [read_function_declarations_loop] at h
    split at h
    · split at h
      · exact absurd h (by simp)
      split at h
      · exact absurd h (by simp)
      split at h
      · exact absurd h (by simp)
      split at h
      · exact absurd h (by simp)
      exact ih _ _ _ _ _ _ (Nat.mod_lt _ (by omega)) h
    · omega

theorem entry_after_cons_main {entry : Option Nat} {base : Nat} {f0 : swamp_func}
    {news : List swamp_func} {entry1 : Option Nat} (hmain : f0.debug_name = main_name)
    (h : entry_after (some base) (base + 1) news entry1) :
    entry_after entry base (f0 :: news) entry1 := by
  rcases h with ⟨he, hn⟩ | ⟨k, f, hk, hf, he, hl⟩
  · refine Or.inr ⟨0, f0, List.getElem?_cons_zero, hmain, by rw [he]; rfl, ?_⟩
    intro j g hj hg
    cases j with
    | zero => omega
    | succ j =>
      simp only [List.getElem?_cons_succ] at hg
      exact hn g (List.getElem?_mem hg)
  · refine Or.inr ⟨k + 1, f, by simpa using hk, hf, by rw [he]; congr 1; omega, ?_⟩
    intro j g hj hg
    cases j with
    | zero => omega
    | succ j =>
      simp only [List.getElem?_cons_succ] at hg
      exact hl j g (by omega) hg

theorem entry_after_cons_other {entry : Option Nat} {base : Nat} {f0 : swamp_func}
    {news : List swamp_func} {entry1 : Option Nat} (hmain : f0.debug_name ≠ main_name)
    (h : entry_after entry (base + 1) news entry1) :
    entry_after entry base (f0 :: news) entry1 := by
  rcases h with ⟨he, hn⟩ | ⟨k, f, hk, hf, he, hl⟩
  · refine Or.inl ⟨he, ?_⟩
    intro f hf
    rcases List.mem_cons.mp hf with h1 | h1
    · rw [h1]; exact hmain
    · exact hn f h1
  · refine Or.inr ⟨k + 1, f, by simpa using hk, hf, by rw [he]; congr 1; omega, ?_⟩
    intro j g hj hg
    cases j with
    | zero => omega
    | succ j =>
      simp only [List.getElem?_cons_succ] at hg
      exact hl j g (by omega) hg

/-- What a loop of `read_function_declarations` that returns has done. -/
theorem read_function_declarations_loop_ok (count : Nat) (hcount : count ≤ 255) :
    ∀ (fuel i : Nat) (s s1 : octet_stream) (self self1 : swamp_unpack)
      (repo repo1 : unpack_constants) (heap heap1 : List swamp_func),
      i ≤ count →
      read_function_declarations_loop count fuel i s self repo heap
        = .ok (s1, self1, repo1, heap1) →
      ∃ news : List swamp_func, heap1 = heap ++ news ∧ news.length = count - i ∧
        table_stored (fun j v => v = .function (heap.length + j)) (count - i) repo repo1 ∧
        (∀ f, f ∈ news → f.body = none) ∧
        self1.offset_function_declarations = self.offset_function_declarations ∧
        self1.function_declaration_count = self.function_declaration_count ∧
        self1.ignore_external_function_bind_errors = self.ignore_external_function_bind_errors ∧
        repo1.resource_names = repo.resource_names ∧
        repo1.resource_name_index = repo.resource_name_index ∧
        entry_after self.entry heap.length news self1.entry := by
  intro fuel
  induction fuel with
  | zero =>
    intro i s s1 self self1 repo repo1 heap heap1 _ h
    simp [read_function_declarations_loop] at h
  | succ fuel ih =>
    intro i s s1 self self1 repo repo1 heap heap1 hi h
    simp only [read_function_declarations_loop] at h
    split at h
    · rename_i hlt
      split at h
      · exact absurd h (by simp)
      split at h
      · exact absurd h (by simp)
      split at h
      · exact absurd h (by simp)
      rename_i _ pc sa ha _ name sb hb _ typeRef sc hc
      split at h
      · exact absurd h (by simp)
      rename_i repoA hp
      rw [Nat.mod_eq_of_lt (by omega)] at h
      obtain ⟨news, h1, h2, h3, h4, h5, h6, h7, h8, h9, h10⟩ := ih _ _ _ _ _ _ _ _ _ (by omega) h
      obtain ⟨hs, hr1, hr2⟩ := push_ok hp
      refine ⟨{ debug_name := duplicate_string name, typeIndex := typeRef, body := none } :: news,
        ?_, ?_, ?_, ?_, ?_, ?_, ?_, h8.trans hr1, h9.trans hr2, ?_⟩
      · rw [h1, List.append_assoc, List.singleton_append]
      · simp only [List.length_cons, h2]; omega
      · have hb : table_stored (fun j v => v = .function (heap.length + (j + 1)))
            (count - (i + 1)) repoA repo1 :=
          table_stored_mono (fun j v hv => by
            rw [hv, List.length_append, List.length_singleton, Nat.add_assoc,
              Nat.add_comm 1 j]) h3
        rw [show count - i = (count - (i + 1)) + 1 by omega]
        exact table_stored_step hs rfl hb
      · intro f hf
        rcases List.mem_cons.mp hf with h0 | h0
        · rw [h0]
        · exact h4 f h0
      · rw [h5]; split <;> rfl
      · rw [h6]; split <;> rfl
      · rw [h7]; split <;> rfl
      · rw [List.length_append, List.length_singleton] at h10
        by_cases hm : c_string name = main_name
        · rw [if_pos hm] at h10
          exact entry_after_cons_main hm h10
        · rw [if_neg hm] at h10
          exact entry_after_cons_other hm h10
    · simp only [Except.ok.injEq, Prod.mk.injEq] at h
      obtain ⟨_, rfl, rfl, rfl⟩ := h
      have hz : count - i = 0 := by omega
      rw [hz]
      exact ⟨[], by simp, rfl, table_stored_zero _ _, by simp, rfl, rfl, rfl, rfl, rfl,
        Or.inl ⟨rfl, by simp⟩⟩

/-- What a `read_function_declarations` that returns has done. -/
theorem read_function_declarations_ok {self self1 : swamp_unpack} {s s1 : octet_stream}
    {repo repo1 : unpack_constants} {heap heap1 : List swamp_func}
    (h : read_function_declarations self s repo heap = .ok (s1, self1, repo1, heap1)) :
    ∃ (count : Nat) (sc : octet_stream) (news : List swamp_func),
      read_dword_count s = .ok (count, sc) ∧ count ≤ 255 ∧
      heap1 = heap ++ news ∧ news.length = count ∧
      table_stored (fun j v => v = .function (heap.length + j)) count repo repo1 ∧
      (∀ f, f ∈ news → f.body = none) ∧
      self1.offset_function_declarations = repo.index ∧
      self1.function_declaration_count = count ∧
      self1.ignore_external_function_bind_errors = self.ignore_external_function_bind_errors ∧
      repo1.resource_names = repo.resource_names ∧
      repo1.resource_name_index = repo.resource_name_index ∧
      entry_after self.entry heap.length news self1.entry := by
  unfold read_function_declarations at h
  split at h
  · exact absurd h (by simp)
  rename_i count sc hc
  split at h
  · exact absurd h (by simp)
  rename_i s2 self2 repo2 heap2 hl
  simp only [Except.ok.injEq, Prod.mk.injEq] at h
  obtain ⟨rfl, rfl, rfl, rfl⟩ := h
  have hcount := read_function_declarations_loop_count _ _ _ _ _ _ _ _ (by omega) hl
  obtain ⟨news, h1, h2, h3, h4, h5, h6, h7, h8, h9, h10⟩ :=
    read_function_declarations_loop_ok count hcount _ _ _ _ _ _ _ _ _ _ (Nat.zero_le _) hl
  exact ⟨count, sc, news, hc, hcount, h1, h2, h3, h4, h5, rfl, h7, h8, h9, h10⟩

theorem read_function_constants_ok (repo : unpack_constants) :
    ∀ (n : Nat) (s s1 : octet_stream) (acc cs : List swamp_value),
      read_function_constants repo n s acc = .ok (cs, s1) →
      s1 = { s with position := s.position + n } ∧
      cs = acc ++ (List.range n).map
        (fun j => repo.constant_at (s.octet_at (s.position + j))) := by
  intro n
  induction n with
  | zero =>
    intro s s1 acc cs h
    simp only [read_function_constants, Except.ok.injEq, Prod.mk.injEq] at h
    obtain ⟨rfl, rfl⟩ := h
    simp
  | succ n ih =>
    intro s s1 acc cs h
    simp only [read_function_constants] at h
    split at h
    · exact absurd h (by simp)
    rename_i _ index sa ha
    obtain ⟨h0, hv, hs⟩ := read_uint8_ok ha
    subst hv hs
    obtain ⟨h2, h3⟩ := ih _ _ _ _ h
    refine ⟨?_, ?_⟩
    · rw [h2]
      simp only [octet_stream.mk.injEq, true_and]
      omega
    · rw [h3, List.range_succ_eq_map, List.map_cons, List.map_map, List.append_assoc,
        List.singleton_append]
      congr 2
      apply List.map_congr_left
      intro j _
      simp only [Function.comp, octet_stream.octet_at, Nat.succ_eq_add_one]
      congr 3
      omega

theorem uint16_of_octets (a b : Nat) (ha : a < 256) (hb : b < 256) :
    (((a * 2 ^ 8 + b : Nat) : Int) % 65536).toNat = a * 256 + b := by
  omega

/-- What a body of the loop of `read_functions` that returns has done: the function
whose address is in the table at `offset_function_declarations + i` has been given the
body that the entry at the cursor describes, in place. -/
theorem read_functions_entry_ok {self : swamp_unpack} {repo : unpack_constants} {i : Nat}
    {s s1 : octet_stream} {heap heap1 : List swamp_func}
    (h : read_functions_entry self repo i s heap = .ok (s1, heap1)) :
    ∃ (address : Nat) (f : swamp_func),
      repo.slot ((self.offset_function_declarations + i) % 65536) = some (.function address) ∧
      heap[address]? = some f ∧
      heap1 = heap.set address { f with body := some (wire_body repo s) } ∧
      s1 = { s with position := wire_body_end s } ∧
      s.position + 9 + s.octet_at (s.position + 3) ≤ s.octet_count := by
  obtain ⟨o, p⟩ := s
  unfold read_functions_entry at h
  split at h
  · exact absurd h (by simp)
  rename_i _ param_count sa ha
  obtain ⟨b1, rfl, rfl⟩ := read_uint8_ok ha
  split at h
  · exact absurd h (by simp)
  rename_i _ variable_count sb hb
  obtain ⟨b2, rfl, rfl⟩ := read_uint8_ok hb
  split at h
  · exact absurd h (by simp)
  rename_i _ temp_count sc hc
  obtain ⟨b3, rfl, rfl⟩ := read_uint8_ok hc
  split at h
  · exact absurd h (by simp)
  rename_i _ constant_count sd hd
  obtain ⟨b4, rfl, rfl⟩ := read_uint8_ok hd
  split at h
  · exact absurd h (by simp)
  rename_i _ constants se he
  obtain ⟨rfl, rfl⟩ := read_function_constants_ok _ _ _ _ _ _ he
  split at h
  · exact absurd h (by simp)
  rename_i _ v sf hf
  obtain ⟨b6, rfl, rfl⟩ := read_uint16_ok hf
  split at h
  · rename_i address haddr
    split at h
    · rename_i f hget
      simp only [Except.ok.injEq, Prod.mk.injEq] at h
      obtain ⟨rfl, rfl⟩ := h
      refine ⟨address, f, haddr, hget, ?_, ?_, ?_⟩
      all_goals dsimp only [octet_stream.octet_at, octet_stream.octet_count, wire_body,
        wire_body_end, swamp_allocator_set_function] at *
      all_goals clear ha hb hc hd he hf
      all_goals rw [show p + 1 + 1 + 1 + 1 = p + 4 by omega, show p + 1 + 1 + 1 = p + 3 by omega] at *
      all_goals generalize (o.getD (p + 3) 0).val = k at *
      all_goals try rw [show p + 4 + k + 1 = p + 5 + k by omega, show p + 4 + k + 2 = p + 6 + k by omega,
        uint16_of_octets _ _ (Fin.isLt _) (Fin.isLt _)]
      · simp only [List.nil_append]
      · omega
    · exact absurd h (by simp)
  · exact absurd h (by simp)

theorem read_functions_loop_add (self : swamp_unpack) (repo : unpack_constants) :
    ∀ (a b i : Nat) (s : octet_stream) (heap : List swamp_func)
      (r : octet_stream × List swamp_func),
      read_functions_loop self repo (a + b) i s heap = .ok r ↔
        ∃ s1 heap1, read_functions_loop self repo a i s heap = .ok (s1, heap1) ∧
          read_functions_loop self repo b (i + a) s1 heap1 = .ok r := by
  intro a
  induction a with
  | zero =>
    intro b i s heap r
    simp only [Nat.zero_add, read_functions_loop, Except.ok.injEq, Prod.mk.injEq, Nat.add_zero]
    constructor
    · intro h
      exact ⟨s, heap, ⟨rfl, rfl⟩, h⟩
    · rintro ⟨s1, heap1, ⟨rfl, rfl⟩, h⟩
      exact h
  | succ a ih =>
    intro b i s heap r
    rw [show a + 1 + b = (a + b) + 1 by omega]
    simp only [read_functions_loop]
    cases he : read_functions_entry self repo i s heap with
    | error e => simp
    | ok v =>
      obtain ⟨s1, heap1⟩ := v
      simp only []
      rw [ih, show i + (a + 1) = i + 1 + a by omega]

theorem body_cursor_succ (k : Nat) (s : octet_stream) :
    body_cursor (k + 1) s
      = { body_cursor k s with position := wire_body_end (body_cursor k s) } := by
  induction k generalizing s with
  | zero => rfl
  | succ k ih =>
    rw [body_cursor, ih]
    rfl

/-- The effect of a run of the loop of `read_functions` over a window of the table that
holds the addresses `base + j`: it ends at the cursor after its last entry, and the
function at address `base + j` has exactly the body of the `j`-th entry; all other
function objects are as they were. -/
theorem read_functions_loop_ok (self : swamp_unpack) (repo : unpack_constants) (base : Nat) :
    ∀ (n i : Nat) (s s1 : octet_stream) (heap heap1 : List swamp_func),
      (∀ j, i ≤ j → j < i + n →
        repo.slot ((self.offset_function_declarations + j) % 65536)
          = some (.function (base + j))) →
      read_functions_loop self repo n i s heap = .ok (s1, heap1) →
      s1 = body_cursor n s ∧ heap1.length = heap.length ∧
      (0 < n → base + i + n ≤ heap.length) ∧
      ∀ a, heap1[a]? =
        if base + i ≤ a ∧ a < base + i + n then
          (heap[a]?).map
            (fun f => { f with body := some (wire_body repo (body_cursor (a - (base + i)) s)) })
        else heap[a]? := by
  intro n
  induction n with
  | zero =>
    intro i s s1 heap heap1 _ h
    simp only [read_functions_loop, Except.ok.injEq, Prod.mk.injEq] at h
    obtain ⟨rfl, rfl⟩ := h
    refine ⟨rfl, rfl, fun h => absurd h (by omega), fun a => ?_⟩
    rw [if_neg (by omega)]
  | succ n ih =>
    intro i s s1 heap heap1 hw h
    simp only [read_functions_loop] at h
    split at h
    · exact absurd h (by simp)
    rename_i _ sa heapa he
    obtain ⟨address, f, haddr, hget, rfl, rfl, _⟩ := read_functions_entry_ok he
    rw [hw i (Nat.le_refl _) (by omega)] at haddr
    injection haddr with haddr
    injection haddr with haddr
    subst haddr
    obtain ⟨h1, h2, h3, h4⟩ := ih (i + 1) _ _ _ _ (fun j hj1 hj2 => hw j (by omega) (by omega)) h
    have hlt : base + i < heap.length := (List.getElem?_eq_some.mp hget).1
    refine ⟨h1, by rw [h2, List.length_set], fun _ => ?_, fun a => ?_⟩
    · rw [List.length_set] at h3
      rcases Nat.eq_zero_or_pos n with hn | hn
      · omega
      · have := h3 hn
        omega
    · rw [h4 a]
      by_cases ha : a = base + i
      · subst ha
        rw [if_neg (by omega), if_pos (by omega), List.getElem?_set_self hlt, hget,
          Nat.sub_self]
        rfl
      · rw [List.getElem?_set_ne (Ne.symm ha)]
        by_cases hr : base + (i + 1) ≤ a ∧ a < base + (i + 1) + n
        · rw [if_pos hr, if_pos (by omega)]
          congr 1
          funext g
          rw [show a - (base + i) = (a - (base + (i + 1))) + 1 by omega]
          rfl
        · rw [if_neg hr, if_neg (by omega)]

theorem table_appended_range {P : Nat → swamp_value → Prop} {n : Nat}
    {a b : unpack_constants} (h : table_appended P n a b) :
    ∀ k, a.index ≤ k → k < a.index + n → ∃ v, b.slot k = some v ∧ P (k - a.index) v := by
  intro k h1 h2
  have := h.2.2 (k - a.index) (by omega)
  rwa [show a.index + (k - a.index) = k by omega] at this

theorem slot_kind {repo : unpack_constants} {k : Nat} {K : value_kind}
    (h : ∃ v, repo.slot k = some v ∧ v.kind = K) :
    (repo.slot k).map swamp_value.kind = some K := by
  obtain ⟨v, hv, hk⟩ := h
  rw [hv, Option.map_some', hk]

/-- The run of `readCode` through all seven sections returns 0. -/
theorem readCode_of_valid {c : collaborators} {s s7 : octet_stream} {st st7 : unpack_state}
    {t : code_trace} (h : t.valid c s st s7 st7) : readCode c s st = .ok (0, s7, st7) := by
  obtain ⟨h0, m1, e1, m2, e2, m3, e3, m4, e4, m5, e5, m6, e6, m7, heap7, e7, rfl⟩ := h
  unfold readCode
  simp only [Int.not_le.mpr h0, if_false, m1, e1, m2, e2, m3, e3, m4, e4, m5, e5, m6, e6, m7, e7,
    ne_eq, not_true_eq_false]

/-- What the six sections of a `readCode` that decodes all seven have stored in the
table, with the counts read at their heads. -/
theorem trace_stored {t : code_trace} {c : collaborators} {s s7 : octet_stream}
    {st st7 : unpack_state} (ht : t.valid c s st s7 st7) :
    ∃ (ne nd nb ni ns nr : Nat) (c1 c2 c3 c4 c5 c6 : octet_stream),
      read_count t.s_external = .ok (ne, c1) ∧
      read_dword_count t.s_declaration = .ok (nd, c2) ∧
      read_count t.s_boolean = .ok (nb, c3) ∧
      read_count t.s_integer = .ok (ni, c4) ∧
      read_count t.s_string = .ok (ns, c5) ∧
      read_count t.s_resource = .ok (nr, c6) ∧
      table_stored (fun _ v => v.kind = .external_function) ne st.repo t.repo1 ∧
      table_stored (fun _ v => v.kind = .function) nd t.repo1 t.repo2 ∧
      table_stored (fun _ v => v.kind = .boolean) nb t.repo2 t.repo3 ∧
      table_stored (fun _ v => v.kind = .integer) ni t.repo3 t.repo4 ∧
      table_stored (fun _ v => v.kind = .string) ns t.repo4 t.repo5 ∧
      table_stored (fun j v => v = .integer ((j : Nat) : Int)) nr t.repo5 t.repo6 ∧
      st7.repo = t.repo6 := by
  obtain ⟨h0, m1, e1, m2, e2, m3, e3, m4, e4, m5, e5, m6, e6, m7, heap7, e7, rfl⟩ := ht
  obtain ⟨ne, c1, hc1, a1⟩ := read_external_functions_ok e1
  obtain ⟨nd, c2, news, hc2, _, _, _, a2, _⟩ := read_function_declarations_ok e2
  obtain ⟨nb, c3, hc3, a3⟩ := read_booleans_ok e3
  obtain ⟨ni, c4, hc4, a4⟩ := read_integers_ok e4
  obtain ⟨ns, c5, hc5, a5⟩ := read_strings_ok e5
  obtain ⟨nr, c6, hc6, a6⟩ := read_resource_names_ok e6
  exact ⟨ne, nd, nb, ni, ns, nr, c1, c2, c3, c4, c5, c6, hc1, hc2, hc3, hc4, hc5, hc6, a1,
    table_stored_mono (fun j v hv => by rw [hv]; rfl) a2, a3, a4, a5, a6, rfl⟩

/-- Six runs of stores in a row, the first on an empty table whose index is not
overwritten: the index is not overwritten at the end exactly when the six counts sum to
at most the 512 slots of the table. -/
theorem stored_within_iff {P1 P2 P3 P4 P5 P6 : Nat → swamp_value → Prop}
    {n1 n2 n3 n4 n5 n6 : Nat} {r0 r1 r2 r3 r4 r5 r6 : unpack_constants}
    (hempty : r0.index = 0) (hintact : r0.clobbered = none)
    (a1 : table_stored P1 n1 r0 r1) (a2 : table_stored P2 n2 r1 r2)
    (a3 : table_stored P3 n3 r2 r3) (a4 : table_stored P4 n4 r3 r4)
    (a5 : table_stored P5 n5 r4 r5) (a6 : table_stored P6 n6 r5 r6) :
    r6.clobbered = none ↔ n1 + n2 + n3 + n4 + n5 + n6 ≤ 512 := by
  constructor
  · intro h6
    obtain ⟨h5, b6⟩ := a6.appended h6
    obtain ⟨h4, b5⟩ := a5.appended h5
    obtain ⟨h3, b4⟩ := a4.appended h4
    obtain ⟨h2, b3⟩ := a3.appended h3
    obtain ⟨h1, b2⟩ := a2.appended h2
    obtain ⟨_, b1⟩ := a1.appended h1
    have i1 := b1.1
    have i2 := b2.1
    have i3 := b3.1
    have i4 := b4.1
    have i5 := b5.1
    have i6 := b6.1
    have hle : r6.index ≤ 512 :=
      a6.within (a5.within (a4.within (a3.within (a2.within (a1.within (by omega))))))
    omega
  · intro hsum
    have h1 := a1.room hintact (by omega)
    have i1 := (a1.appended h1).2.1
    have h2 := a2.room h1 (by omega)
    have i2 := (a2.appended h2).2.1
    have h3 := a3.room h2 (by omega)
    have i3 := (a3.appended h3).2.1
    have h4 := a4.room h3 (by omega)
    have i4 := (a4.appended h4).2.1
    have h5 := a5.room h4 (by omega)
    have i5 := (a5.appended h5).2.1
    exact a6.room h5 (by omega)

/-- C1 (amended): when `readCode` returns 0 on an empty table (next index 0, as
`unpack_constants_init` leaves it), either the chunk header announced an empty chunk and
nothing was decoded, or all seven sections were decoded.  Then the decode has kept
within the 512 slots of the table (the storage of the index is not overwritten) exactly
when the six counts read at the head of the external, declaration, boolean, integer,
string and resource-name sections sum to at most 512; and in that case the next index
of the table is the sum of the six counts, the slots hold, in this order, that many
external functions, functions, booleans, integers, strings and resource-name handles
(the integers 0, 1, ...), and the function-body section has left the table as the
resource-name section left it. -/
theorem readCode_constant_table_layout (c : collaborators) (s s7 : octet_stream)
    (st st7 : unpack_state) (hempty : st.repo.index = 0) (hintact : st.repo.clobbered = none)
    (hok : readCode c s st = .ok (0, s7, st7)) :
    (code_chunk_empty c s st s7 st7 ∧ st7.repo.index = 0 ∧ st7.repo.clobbered = none) ∨
    ∃ (t : code_trace) (ne nd nb ni ns nr : Nat) (c1 c2 c3 c4 c5 c6 : octet_stream),
      t.valid c s st s7 st7 ∧
      read_count t.s_external = .ok (ne, c1) ∧
      read_dword_count t.s_declaration = .ok (nd, c2) ∧
      read_count t.s_boolean = .ok (nb, c3) ∧
      read_count t.s_integer = .ok (ni, c4) ∧
      read_count t.s_string = .ok (ns, c5) ∧
      read_count t.s_resource = .ok (nr, c6) ∧
      st7.repo = t.repo6 ∧
      (st7.repo.clobbered = none ↔ ne + nd + nb + ni + ns + nr ≤ 512) ∧
      (ne + nd + nb + ni + ns + nr ≤ 512 →
        st7.repo.index = ne + nd + nb + ni + ns + nr ∧
        (∀ k, k < ne → (st7.repo.slot k).map swamp_value.kind = some .external_function) ∧
        (∀ k, ne ≤ k → k < ne + nd →
          (st7.repo.slot k).map swamp_value.kind = some .function) ∧
        (∀ k, ne + nd ≤ k → k < ne + nd + nb →
          (st7.repo.slot k).map swamp_value.kind = some .boolean) ∧
        (∀ k, ne + nd + nb ≤ k → k < ne + nd + nb + ni →
          (st7.repo.slot k).map swamp_value.kind = some .integer) ∧
        (∀ k, ne + nd + nb + ni ≤ k → k < ne + nd + nb + ni + ns →
          (st7.repo.slot k).map swamp_value.kind = some .string) ∧
        (∀ k, ne + nd + nb + ni + ns ≤ k → k < ne + nd + nb + ni + ns + nr →
          st7.repo.slot k = some (.integer ((k - (ne + nd + nb + ni + ns) : Nat) : Int)))) := by
  rcases readCode_ok_cases hok with he | ⟨t, ht⟩
  · left
    refine ⟨he, ?_, ?_⟩
    · rw [he.2.2]
      exact hempty
    · rw [he.2.2]
      exact hintact
  · right
    obtain ⟨ne, nd, nb, ni, ns, nr, c1, c2, c3, c4, c5, c6, hc1, hc2, hc3, hc4, hc5, hc6,
      a1, a2, a3, a4, a5, a6, h7⟩ := trace_stored ht
    have hiff := stored_within_iff hempty hintact a1 a2 a3 a4 a5 a6
    refine ⟨t, ne, nd, nb, ni, ns, nr, c1, c2, c3, c4, c5, c6, ht, hc1, hc2, hc3, hc4, hc5, hc6,
      h7, by rw [h7]; exact hiff, ?_⟩
    intro hsum
    rw [h7]
    have h6 := hiff.mpr hsum
    obtain ⟨h5, b6⟩ := a6.appended h6
    obtain ⟨h4, b5⟩ := a5.appended h5
    obtain ⟨h3, b4⟩ := a4.appended h4
    obtain ⟨h2, b3⟩ := a3.appended h3
    obtain ⟨h1, b2⟩ := a2.appended h2
    obtain ⟨_, b1⟩ := a1.appended h1
    have i1 := b1.1
    have i2 := b2.1
    have i3 := b3.1
    have i4 := b4.1
    have i5 := b5.1
    have i6 := b6.1
    refine ⟨by omega, ?_, ?_, ?_, ?_, ?_, ?_⟩
    · intro k hk
      rw [b6.2.1 k (by omega), b5.2.1 k (by omega), b4.2.1 k (by omega), b3.2.1 k (by omega),
        b2.2.1 k (by omega)]
      exact slot_kind (table_appended_range b1 k (by omega) (by omega))
    · intro k hk1 hk2
      rw [b6.2.1 k (by omega), b5.2.1 k (by omega), b4.2.1 k (by omega), b3.2.1 k (by omega)]
      exact slot_kind (table_appended_range b2 k (by omega) (by omega))
    · intro k hk1 hk2
      rw [b6.2.1 k (by omega), b5.2.1 k (by omega), b4.2.1 k (by omega)]
      exact slot_kind (table_appended_range b3 k (by omega) (by omega))
    · intro k hk1 hk2
      rw [b6.2.1 k (by omega), b5.2.1 k (by omega)]
      exact slot_kind (table_appended_range b4 k (by omega) (by omega))
    · intro k hk1 hk2
      rw [b6.2.1 k (by omega)]
      exact slot_kind (table_appended_range b5 k (by omega) (by omega))
    · intro k hk1 hk2
      obtain ⟨v, hv, hP⟩ := table_appended_range b6 k (by omega) (by omega)
      rw [hv, hP]
      congr 3
      omega

theorem declaration_cursor_succ (k : Nat) (s : octet_stream) :
    declaration_cursor (k + 1) s
      = { declaration_cursor k s with position := wire_declaration_end (declaration_cursor k s) } := by
  induction k generalizing s with
  | zero => rfl
  | succ k ih =>
    rw [declaration_cursor, ih]
    rfl

/-- One declaration entry read by the three reads of the loop body. -/
theorem read_declaration_entry {s sa sb sc : octet_stream} {pc typeRef : Nat} {name : List Nat}
    (ha : read_uint8 s = .ok (pc, sa)) (hb : read_string sa = .ok (name, sb))
    (hc : read_type_ref sb = .ok (typeRef, sc)) :
    ({ debug_name := duplicate_string name, typeIndex := typeRef, body := none } : swamp_func)
        = wire_declaration s ∧
      sc = { s with position := wire_declaration_end s } ∧
      s.position + 3 ≤ sc.position ∧ sc.position ≤ s.octet_count ∧ sc.octets = s.octets := by
  obtain ⟨o, p⟩ := s
  obtain ⟨a1, rfl, rfl⟩ := read_uint8_ok ha
  obtain ⟨b1, rfl, _, rfl⟩ := read_string_ok hb
  obtain ⟨c1, rfl, rfl⟩ := read_uint8_ok hc
  dsimp only [octet_stream.octet_at, octet_stream.octet_count, wire_declaration,
    wire_declaration_end, duplicate_string] at *
  refine ⟨?_, ?_, by omega, by omega, rfl⟩
  · rw [show p + 1 + 1 = p + 2 by omega,
      show p + 2 + (o.getD (p + 1) 0).val = p + 1 + 1 + (o.getD (p + 1) 0).val by omega]
  · simp only [octet_stream.mk.injEq, true_and]
    omega

/-- The function objects a loop of `read_function_declarations` that returns has
allocated are those its entries describe, in wire order, and it ends after the last. -/
theorem read_function_declarations_loop_wire (count : Nat) (hcount : count ≤ 255) :
    ∀ (fuel i : Nat) (s s1 : octet_stream) (self self1 : swamp_unpack)
      (repo repo1 : unpack_constants) (heap heap1 : List swamp_func),
      i ≤ count →
      read_function_declarations_loop count fuel i s self repo heap
        = .ok (s1, self1, repo1, heap1) →
      heap1 = heap ++ (List.range (count - i)).map
          (fun k => wire_declaration (declaration_cursor k s)) ∧
        s1 = declaration_cursor (count - i) s := by
  intro fuel
  induction fuel with
  | zero =>
    intro i s s1 self self1 repo repo1 heap heap1 _ h
    simp [read_function_declarations_loop] at h
  | succ fuel ih =>
    intro i s s1 self self1 repo repo1 heap heap1 hi h
    simp only [read_function_declarations_loop] at h
    split at h
    · rename_i hlt
      split at h
      · exact absurd h (by simp)
      split at h
      · exact absurd h (by simp)
      split at h
      · exact absurd h (by simp)
      rename_i _ pc sa ha _ name sb hb _ typeRef sc hc
      split at h
      · exact absurd h (by simp)
      rw [Nat.mod_eq_of_lt (by omega)] at h
      obtain ⟨h1, h2⟩ := ih _ _ _ _ _ _ _ _ _ (by omega) h
      obtain ⟨e1, e2, _⟩ := read_declaration_entry ha hb hc
      rw [show count - i = (count - (i + 1)) + 1 by omega]
      refine ⟨?_, ?_⟩
      · rw [h1, List.range_succ_eq_map, List.map_cons, List.map_map, List.append_assoc,
          List.singleton_append, e1, e2]
        rfl
      · rw [h2, e2]
        rfl
    · simp only [Except.ok.injEq, Prod.mk.injEq] at h
      obtain ⟨rfl, rfl, rfl, rfl⟩ := h
      have hz : count - i = 0 := by omega
      rw [hz]
      simp [declaration_cursor]

theorem read_function_declarations_wire {self self1 : swamp_unpack} {s s1 sc : octet_stream}
    {repo repo1 : unpack_constants} {heap heap1 : List swamp_func} {count : Nat}
    (hc : read_dword_count s = .ok (count, sc))
    (h : read_function_declarations self s repo heap = .ok (s1, self1, repo1, heap1)) :
    heap1 = heap ++ (List.range count).map (fun k => wire_declaration (declaration_cursor k sc)) ∧
      s1 = declaration_cursor count sc := by
  unfold read_function_declarations at h
  rw [hc] at h
  simp only [] at h
  split at h
  · exact absurd h (by simp)
  rename_i s2 self2 repo2 heap2 hl
  simp only [Except.ok.injEq, Prod.mk.injEq] at h
  obtain ⟨rfl, rfl, rfl, rfl⟩ := h
  have hcount := read_function_declarations_loop_count _ _ _ _ _ _ _ _ (by omega) hl
  exact read_function_declarations_loop_wire count hcount _ _ _ _ _ _ _ _ _ _ (Nat.zero_le _) hl

/-- A value that a run of stores has put in a slot of the array: the later stores of the
decoders are at other slots. -/
theorem table_stored_written {P : Nat → swamp_value → Prop} {n : Nat}
    {r0 r1 : unpack_constants} (a : table_stored P n r0 r1) {j : Nat} (hj : j < n) :
    r0.index + j < r1.index ∨ r1.clobbered ≠ none := by
  by_cases hc : r1.clobbered = none
  · left
    have := (a.appended hc).2.1
    omega
  · exact Or.inr hc

theorem table_stored_settled {Q : Nat → swamp_value → Prop} {m : Nat}
    {r1 r2 : unpack_constants} (b : table_stored Q m r1 r2) {k : Nat}
    (hk : k < r1.index ∨ r1.clobbered ≠ none) :
    r2.slot k = r1.slot k ∧ (k < r2.index ∨ r2.clobbered ≠ none) := by
  rcases hk with hk | hk
  · exact ⟨b.keeps.2 k hk, Or.inl (Nat.lt_of_lt_of_le hk b.keeps.1)⟩
  · rw [(b.nothing hk).2]
    exact ⟨rfl, Or.inr hk⟩

/-- The declaration window of a run of `readCode` through all seven sections: the
function objects allocated are those the declaration entries describe, their addresses
are in the table at `offset_function_declarations + k` wherever that slot is inside the
array, also after the later data sections, and the entry point is the last of them named
"main". -/
theorem valid_window {t : code_trace} {c : collaborators} {s s7 : octet_stream}
    {st st7 : unpack_state} (ht : t.valid c s st s7 st7) :
    ∃ (n : Nat) (sc : octet_stream) (heap7 : List swamp_func),
      read_dword_count t.s_declaration = .ok (n, sc) ∧ n ≤ 255 ∧
      t.self2.function_declaration_count = n ∧
      t.heap2 = st.heap ++ (List.range n).map
        (fun k => wire_declaration (declaration_cursor k sc)) ∧
      (∀ k, k < n → t.self2.offset_function_declarations + k < 512 →
        t.repo6.slot (t.self2.offset_function_declarations + k)
          = some (.function (st.heap.length + k))) ∧
      t.self2.offset_function_declarations ≤ st.repo.index + 255 ∧
      entry_after st.self.entry st.heap.length
        ((List.range n).map (fun k => wire_declaration (declaration_cursor k sc))) t.self2.entry ∧
      read_functions t.self2 t.s_function t.repo6 t.heap2 = .ok (s7, heap7) ∧
      st7 = { self := t.self2, repo := t.repo6, heap := heap7 } := by
  obtain ⟨h0, m1, e1, m2, e2, m3, e3, m4, e4, m5, e5, m6, e6, m7, heap7, e7, rfl⟩ := ht
  obtain ⟨ne, c1, hc1, a1⟩ := read_external_functions_ok e1
  obtain ⟨nd, c2, news, hc2, hnd, hh, hlen, a2, _, hoff, hcnt, _, _, _, hent⟩ :=
    read_function_declarations_ok e2
  obtain ⟨nb, c3, hc3, a3⟩ := read_booleans_ok e3
  obtain ⟨ni, c4, hc4, a4⟩ := read_integers_ok e4
  obtain ⟨ns, c5, hc5, a5⟩ := read_strings_ok e5
  obtain ⟨nr, c6, hc6, a6⟩ := read_resource_names_ok e6
  obtain ⟨hw, _⟩ := read_function_declarations_wire hc2 e2
  have hnews : news = (List.range nd).map (fun k => wire_declaration (declaration_cursor k c2)) :=
    List.append_cancel_left (hh.symm.trans hw)
  have i1 := a1.index_le
  have hne := read_count_lt hc1
  refine ⟨nd, c2, heap7, hc2, hnd, hcnt, hw, ?_, by omega, hnews ▸ hent, e7, rfl⟩
  intro k hk h512
  rw [hoff] at h512 ⊢
  obtain ⟨v, hv, hP⟩ := a2.in_slot k hk h512
  obtain ⟨g3, w3⟩ := table_stored_settled a3 (table_stored_written a2 hk)
  obtain ⟨g4, w4⟩ := table_stored_settled a4 w3
  obtain ⟨g5, w5⟩ := table_stored_settled a5 w4
  obtain ⟨g6, _⟩ := table_stored_settled a6 w5
  rw [g6, g5, g4, g3, hv, hP]

theorem getElem?_range_map {α : Type} (f : Nat → α) (n k : Nat) (hk : k < n) :
    ((List.range n).map f)[k]? = some (f k) := by
  simp [List.getElem?_map, List.getElem?_range hk]

/-- The loop that `read_functions` runs when the count it reads is the declaration
count. -/
theorem read_functions_matching {self : swamp_unpack} {repo : unpack_constants}
    {s sb s1 : octet_stream} {heap heap1 : List swamp_func}
    (hb : read_dword_count s = .ok (self.function_declaration_count, sb))
    (h : read_functions self s repo heap = .ok (s1, heap1)) :
    read_functions_loop self repo self.function_declaration_count 0 sb heap = .ok (s1, heap1) := by
  unfold read_functions at h
  rw [hb] at h
  simpa using h

/-- The state of a run of the body loop before its `i`-th entry, that entry, and the
end of the run, over a window of declared functions. -/
theorem read_functions_loop_at (self : swamp_unpack) (repo : unpack_constants) (base n : Nat)
    (sb s7 : octet_stream) (heap heap7 : List swamp_func)
    (hw : ∀ j, j < n →
      repo.slot ((self.offset_function_declarations + j) % 65536) = some (.function (base + j)))
    (h : read_functions_loop self repo n 0 sb heap = .ok (s7, heap7)) (i : Nat) (hi : i < n) :
    ∃ (heap_i heap_i1 : List swamp_func) (f : swamp_func),
      read_functions_loop self repo i 0 sb heap = .ok (body_cursor i sb, heap_i) ∧
      read_functions_entry self repo i (body_cursor i sb) heap_i
        = .ok (body_cursor (i + 1) sb, heap_i1) ∧
      read_functions_loop self repo (n - (i + 1)) (i + 1) (body_cursor (i + 1) sb) heap_i1
        = .ok (s7, heap7) ∧
      heap[base + i]? = some f ∧ heap_i[base + i]? = some f ∧
      heap_i1 = heap_i.set (base + i) { f with body := some (wire_body repo (body_cursor i sb)) } ∧
      heap7[base + i]? = some { f with body := some (wire_body repo (body_cursor i sb)) } := by
  have hsplit : n = i + ((n - (i + 1)) + 1) := by omega
  rw [hsplit] at h
  obtain ⟨si, heap_i, h1, h2⟩ := (read_functions_loop_add self repo _ _ _ _ _ _).mp h
  obtain ⟨rfl, _, _, g1⟩ := read_functions_loop_ok self repo base i 0 sb si heap heap_i
    (fun j _ hj => hw j (by omega)) h1
  rw [Nat.zero_add] at h2
  simp only [read_functions_loop] at h2
  split at h2
  · exact absurd h2 (by simp)
  rename_i _ sa heapa he
  obtain ⟨address, f, haddr, hget, rfl, rfl, _⟩ := read_functions_entry_ok he
  rw [hw i hi] at haddr
  injection haddr with haddr
  injection haddr with haddr
  subst haddr
  have hgi := g1 (base + i)
  rw [if_neg (by omega)] at hgi
  rw [hsplit.symm] at h
  obtain ⟨_, _, _, g7⟩ := read_functions_loop_ok self repo base n 0 sb s7 heap heap7
    (fun j _ hj => hw j (by omega)) h
  have hg7 := g7 (base + i)
  rw [if_pos (by omega), ← hgi, hget, Nat.add_zero, Nat.add_sub_cancel_left] at hg7
  refine ⟨heap_i, _, f, h1, ?_, ?_, hgi ▸ hget, hget, rfl, hg7⟩
  · rw [he, body_cursor_succ]
  · rw [body_cursor_succ]
    exact h2

/-- Every entry of a run of the body loop that returns has found a function object in
the slot it looked up. -/
theorem read_functions_loop_slots (self : swamp_unpack) (repo : unpack_constants) :
    ∀ (n i : Nat) (s s1 : octet_stream) (heap heap1 : List swamp_func),
      read_functions_loop self repo n i s heap = .ok (s1, heap1) →
      ∀ j, i ≤ j → j < i + n →
        ∃ address, repo.slot ((self.offset_function_declarations + j) % 65536)
          = some (.function address) := by
  intro n
  induction n with
  | zero =>
    intro i s s1 heap heap1 _ j h1 h2
    omega
  | succ n ih =>
    intro i s s1 heap heap1 h j h1 h2
    simp only [read_functions_loop] at h
    split at h
    · exact absurd h (by simp)
    rename_i _ sa heapa he
    by_cases hj : j = i
    · subst hj
      obtain ⟨address, _, haddr, _⟩ := read_functions_entry_ok he
      exact ⟨address, haddr⟩
    · exact ih _ _ _ _ _ h j (by omega) (by omega)

/-- The window of a run of `readCode` through all seven sections whose body loop has
run over `n` entries, on a table whose next index was within the 512 slots: the slots
that the body entries look up are those of the window, without wrapping of the 16-bit
reference, and inside the array. -/
theorem window_no_wrap {t : code_trace} {c : collaborators} {s s7 : octet_stream}
    {st st7 : unpack_state} (ht : t.valid c s st s7 st7) (hcap : st.repo.index ≤ 512) :
    ∃ (n : Nat) (sd : octet_stream) (heap7 : List swamp_func),
      read_dword_count t.s_declaration = .ok (n, sd) ∧
      t.self2.function_declaration_count = n ∧
      t.heap2 = st.heap ++ (List.range n).map
        (fun k => wire_declaration (declaration_cursor k sd)) ∧
      read_functions t.self2 t.s_function t.repo6 t.heap2 = .ok (s7, heap7) ∧
      st7 = { self := t.self2, repo := t.repo6, heap := heap7 } ∧
      ∀ sb, read_functions_loop t.self2 t.repo6 n 0 sb t.heap2 = .ok (s7, heap7) →
        (∀ k, k < n → t.self2.offset_function_declarations + k < 512) ∧
        (∀ k, k < n →
          t.repo6.slot (t.self2.offset_function_declarations + k)
            = some (.function (st.heap.length + k))) ∧
        (∀ k, k < n →
          t.repo6.slot ((t.self2.offset_function_declarations + k) % 65536)
            = some (.function (st.heap.length + k))) := by
  obtain ⟨n, sd, heap7, hc, hn, hcnt, hheap, htab, hoff, _, hf, hst⟩ := valid_window ht
  refine ⟨n, sd, heap7, hc, hcnt, hheap, hf, hst, ?_⟩
  intro sb hloop
  have hin : ∀ k, k < n → t.self2.offset_function_declarations + k < 512 := by
    intro k hk
    obtain ⟨address, ha⟩ :=
      read_functions_loop_slots _ _ _ _ _ _ _ _ hloop k (Nat.zero_le _) (by omega)
    rw [Nat.mod_eq_of_lt (by omega)] at ha
    exact slot_some_lt ha
  refine ⟨hin, fun k hk => htab k hk (hin k hk), ?_⟩
  intro k hk
  rw [Nat.mod_eq_of_lt (by omega)]
  exact htab k hk (hin k hk)

theorem declared_at {heap : List swamp_func} {n : Nat} {sd : octet_stream} {i : Nat}
    (hi : i < n) :
    (heap ++ (List.range n).map (fun k => wire_declaration (declaration_cursor k sd)))[heap.length + i]?
      = some (wire_declaration (declaration_cursor i sd)) := by
  rw [List.getElem?_append_right (by omega), Nat.add_sub_cancel_left]
  exact getElem?_range_map _ n i hi

theorem body_cursor_octets (k : Nat) (s : octet_stream) : (body_cursor k s).octets = s.octets := by
  induction k generalizing s with
  | zero => rfl
  | succ k ih =>
    rw [body_cursor, ih]

/-- The opcode octets of a body entry that the buffer holds whole are `opcode_count`
many. -/
theorem wire_body_opcodes (repo : unpack_constants) (s : octet_stream)
    (h : wire_body_end s ≤ s.octet_count) :
    (wire_body repo s).opcodes.length = (wire_body repo s).opcode_count := by
  unfold wire_body_end octet_stream.octet_count at h
  simp only [wire_body, List.length_map, List.length_take, List.length_drop]
  omega

theorem read_functions_entry_position {self : swamp_unpack} {repo : unpack_constants} {i : Nat}
    {s s1 : octet_stream} {heap heap1 : List swamp_func}
    (h : read_functions_entry self repo i s heap = .ok (s1, heap1)) :
    s.position ≤ s.octet_count := by
  obtain ⟨_, _, _, _, _, _, hb⟩ := read_functions_entry_ok h
  omega

/-- What the body section defines.  In a run of `readCode` that returns 0 after decoding
its sections (on a table whose next index is within its 512 slots) and in which the count
at the head of the body section is the declaration count `n`, the `i`-th body entry, for
every `i < n`, is read at the cursor `body_cursor i` and defines exactly the function
object whose address is in the table at `offset_function_declarations + i`, a slot of
the array: before the entry the object is the Declared one of the `i`-th declaration,
the entry replaces it in place by the same name and type index with the body the entry
describes (`wire_body`: parameter count, variable count, the opcode octets after the
two-octet length that the buffer holds, the constants `table[index]` in the order read)
and leaves every other object alone; the object is still so at the end, and the table
is as the resource-name section left it.  The opcode octets are `opcode_count` many
for every entry that the buffer holds whole, which every entry but the last does. -/
theorem bodies_define_declared_functions (c : collaborators) (s s7 : octet_stream)
    (st st7 : unpack_state) (hcap : st.repo.index ≤ 512)
    (hok : readCode c s st = .ok (0, s7, st7)) :
    code_chunk_empty c s st s7 st7 ∨
    ∃ (t : code_trace) (n : Nat) (sd : octet_stream),
      t.valid c s st s7 st7 ∧
      read_dword_count t.s_declaration = .ok (n, sd) ∧
      st7.self.function_declaration_count = n ∧
      st7.repo = t.repo6 ∧
      ∀ sb, read_dword_count t.s_function = .ok (n, sb) →
        ∀ i, i < n →
          ∃ (heap_i heap_i1 : List swamp_func),
            read_functions_loop st7.self st7.repo i 0 sb t.heap2
              = .ok (body_cursor i sb, heap_i) ∧
            read_functions_entry st7.self st7.repo i (body_cursor i sb) heap_i
              = .ok (body_cursor (i + 1) sb, heap_i1) ∧
            st7.repo.slot (st7.self.offset_function_declarations + i)
              = some (.function (st.heap.length + i)) ∧
            heap_i[st.heap.length + i]? = some (wire_declaration (declaration_cursor i sd)) ∧
            heap_i1 = heap_i.set (st.heap.length + i)
              { wire_declaration (declaration_cursor i sd) with
                body := some (wire_body st7.repo (body_cursor i sb)) } ∧
            st7.heap[st.heap.length + i]?
              = some { wire_declaration (declaration_cursor i sd) with
                       body := some (wire_body st7.repo (body_cursor i sb)) } ∧
            (wire_body_end (body_cursor i sb) ≤ sb.octet_count →
              (wire_body st7.repo (body_cursor i sb)).opcodes.length
                = (wire_body st7.repo (body_cursor i sb)).opcode_count) ∧
            (i + 1 < n → wire_body_end (body_cursor i sb) ≤ sb.octet_count) := by
  rcases readCode_ok_cases hok with he | ⟨t, ht⟩
  · exact Or.inl he
  · right
    obtain ⟨n, sd, heap7, hc, hcnt, hheap, hf, rfl, hwin⟩ := window_no_wrap ht hcap
    refine ⟨t, n, sd, ht, hc, hcnt, rfl, ?_⟩
    intro sb hb i hi
    rw [← hcnt] at hb
    have hloop := read_functions_matching hb hf
    rw [hcnt] at hloop
    obtain ⟨_, htab, hw⟩ := hwin sb hloop
    obtain ⟨heap_i, heap_i1, f, h1, h2, h3, g0, g1, g2, g3⟩ :=
      read_functions_loop_at t.self2 t.repo6 st.heap.length n sb s7 t.heap2 heap7 hw hloop i hi
    rw [hheap, declared_at hi] at g0
    injection g0 with g0
    subst g0
    refine ⟨heap_i, heap_i1, h1, h2, htab i hi, g1, g2, g3, ?_, ?_⟩
    · intro hend
      apply wire_body_opcodes
      unfold octet_stream.octet_count at hend ⊢
      rw [body_cursor_octets]
      exact hend
    · intro hlt
      have hnext : n - (i + 1) = (n - (i + 2)) + 1 := by omega
      rw [hnext] at h3
      simp only [read_functions_loop] at h3
      split at h3
      · exact absurd h3 (by simp)
      rename_i _ sa heapa he
      have hpos := read_functions_entry_position he
      rw [body_cursor_succ] at hpos
      unfold octet_stream.octet_count at hpos ⊢
      rw [← body_cursor_octets i sb]
      exact hpos

set_option maxRecDepth 100000 in
theorem bodies_define_declared_functions_witness :
    code_chunk_empty spec_framing { octets := sample_chunk, position := 0 } fresh_state
        (result_cursor sample_decode { octets := [], position := 0 })
        (result_state sample_decode fresh_state) ∨
      ∃ t : code_trace, t.valid spec_framing { octets := sample_chunk, position := 0 } fresh_state
        (result_cursor sample_decode { octets := [], position := 0 })
        (result_state sample_decode fresh_state) :=
  (bodies_define_declared_functions spec_framing { octets := sample_chunk, position := 0 }
    (result_cursor sample_decode { octets := [], position := 0 }) fresh_state
    (result_state sample_decode fresh_state) (by decide) rfl).imp id
    (fun h => h.elim fun t h1 => h1.elim fun _ h2 => h2.elim fun _ h3 => ⟨t, h3.1⟩)

/-- The forward references of a run of `readCode` that decodes its sections and whose
body count is the declaration count `n`: a constant index of body `i` that is the table
index of a later declaration `k` gives function `i` the address of the object that body
`k` defines; and along the run of the body loop the `k`-th declared object is Declared
before the `k`-th entry and has the body of that entry from then on. -/
theorem forward_references_resolve (c : collaborators) (s s7 : octet_stream)
    (st st7 : unpack_state) (hcap : st.repo.index ≤ 512)
    (hok : readCode c s st = .ok (0, s7, st7)) :
    code_chunk_empty c s st s7 st7 ∨
    ∃ (t : code_trace) (n : Nat) (sd : octet_stream),
      t.valid c s st s7 st7 ∧
      read_dword_count t.s_declaration = .ok (n, sd) ∧
      ∀ sb, read_dword_count t.s_function = .ok (n, sb) →
        (∀ i k j, i < k → k < n →
          j < (body_cursor i sb).octet_at ((body_cursor i sb).position + 3) →
          (body_cursor i sb).octet_at ((body_cursor i sb).position + 4 + j)
            = st7.self.offset_function_declarations + k →
          ∃ (fi fk : swamp_func) (bi : func_body),
            st7.heap[st.heap.length + i]? = some fi ∧ fi.body = some bi ∧
            bi.constants[j]? = some (.function (st.heap.length + k)) ∧
            st7.heap[st.heap.length + k]? = some fk ∧
            fk = { wire_declaration (declaration_cursor k sd) with
                   body := some (wire_body st7.repo (body_cursor k sb)) }) ∧
        (∀ k m, k < n → m ≤ n →
          ∃ (heap_m : List swamp_func) (f : swamp_func),
            read_functions_loop st7.self st7.repo m 0 sb t.heap2
              = .ok (body_cursor m sb, heap_m) ∧
            heap_m[st.heap.length + k]? = some f ∧
            (m ≤ k → f.body = none) ∧
            (k < m → f.body = some (wire_body st7.repo (body_cursor k sb)))) := by
  rcases readCode_ok_cases hok with he | ⟨t, ht⟩
  · exact Or.inl he
  · right
    obtain ⟨n, sd, heap7, hc, hcnt, hheap, hf, rfl, hwin⟩ := window_no_wrap ht hcap
    refine ⟨t, n, sd, ht, hc, ?_⟩
    intro sb hb
    rw [← hcnt] at hb
    have hloop := read_functions_matching hb hf
    rw [hcnt] at hloop
    obtain ⟨_, htab, hw⟩ := hwin sb hloop
    constructor
    · intro i k j hik hk hj hidx
      obtain ⟨_, _, fi, _, _, _, gi0, _, _, gi3⟩ :=
        read_functions_loop_at t.self2 t.repo6 st.heap.length n sb s7 t.heap2 heap7 hw hloop i
          (by omega)
      obtain ⟨_, _, fk, _, _, _, gk0, _, _, gk3⟩ :=
        read_functions_loop_at t.self2 t.repo6 st.heap.length n sb s7 t.heap2 heap7 hw hloop k hk
      rw [hheap, declared_at hk] at gk0
      injection gk0 with gk0
      subst gk0
      refine ⟨_, _, _, gi3, rfl, ?_, gk3, rfl⟩
      show ((List.range _).map _)[j]? = _
      rw [getElem?_range_map _ _ j hj]
      have hlt := octet_at_lt (body_cursor i sb) ((body_cursor i sb).position + 4 + j)
      have hs := constant_at_slot t.repo6 hlt
      rw [hidx, htab k hk] at hs
      rw [hidx]
      exact hs.symm
    · intro k m hk hm
      have hsplit : n = m + (n - m) := by omega
      rw [hsplit] at hloop
      obtain ⟨sm, heap_m, h1, _⟩ := (read_functions_loop_add t.self2 t.repo6 _ _ _ _ _ _).mp hloop
      obtain ⟨rfl, _, _, g1⟩ := read_functions_loop_ok t.self2 t.repo6 st.heap.length m 0 sb sm
        t.heap2 heap_m (fun j _ hj => hw j (by omega)) h1
      have hg := g1 (st.heap.length + k)
      rw [hheap, declared_at hk, Nat.add_zero, Nat.add_sub_cancel_left] at hg
      by_cases hkm : k < m
      · rw [if_pos (by omega)] at hg
        exact ⟨heap_m, _, h1, hg, fun h => absurd h (by omega), fun _ => rfl⟩
      · rw [if_neg (by omega)] at hg
        exact ⟨heap_m, _, h1, hg, fun _ => rfl, fun h => absurd h hkm⟩


set_option maxRecDepth 100000 in
theorem readCode_constant_table_layout_witness :
    (code_chunk_empty spec_framing { octets := sample_chunk, position := 0 } fresh_state
        (result_cursor sample_decode { octets := [], position := 0 })
        (result_state sample_decode fresh_state) ∧
      (result_state sample_decode fresh_state).repo.index = 0 ∧
      (result_state sample_decode fresh_state).repo.clobbered = none) ∨
      ∃ t : code_trace, t.valid spec_framing { octets := sample_chunk, position := 0 } fresh_state
        (result_cursor sample_decode { octets := [], position := 0 })
        (result_state sample_decode fresh_state) :=
  (readCode_constant_table_layout spec_framing { octets := sample_chunk, position := 0 }
    (result_cursor sample_decode { octets := [], position := 0 }) fresh_state
    (result_state sample_decode fresh_state) rfl rfl rfl).imp id
    (fun h => h.elim fun t h1 => h1.elim fun _ h2 => h2.elim fun _ h3 => h3.elim fun _ h4 =>
      h4.elim fun _ h5 => h5.elim fun _ h6 => h6.elim fun _ h7 => h7.elim fun _ h8 =>
      h8.elim fun _ h9 => h9.elim fun _ h10 => h10.elim fun _ h11 => h11.elim fun _ h12 =>
      h12.elim fun _ h13 => ⟨t, h13.1⟩)
/-! ## The load on concrete buffers -/

/-- C3: on the buffer `mismatch_chunk`, whose declaration section records one function
and whose body section starts with the count 2, `read_functions` returns at its count
test and `readCode` and `swamp_unpack_octet_stream` return 0, not an error; the declared
function is left without a body. -/
theorem mismatch_load_returns_zero :
    read_dword_count { octets := mismatch_chunk, position := 56 }
      = .ok (2, { octets := mismatch_chunk, position := 60 }) ∧
    (result_state (readCode spec_framing { octets := mismatch_chunk, position := 0 } fresh_state)
      fresh_state).self.function_declaration_count = 1 ∧
    result_code (readCode spec_framing { octets := mismatch_chunk, position := 0 } fresh_state)
      = .ok 0 ∧
    result_code (swamp_unpack_octet_stream spec_framing
        { octets := package_head ++ mismatch_chunk, position := 0 } fresh_state) = .ok 0 ∧
    (result_cursor (readCode spec_framing { octets := mismatch_chunk, position := 0 } fresh_state)
      { octets := [], position := 0 }).position = 60 :=
  ⟨rfl, rfl, rfl, rfl, rfl⟩

/-- C4: on the literal scenario, with the buffer ending right after the two octets of
the opcode length, `read_uint16` takes the end-of-stream path (its test is
`position + 4 >= octet_count`), so `readCode` and the load do not return; with three more
octets after the opcode length the same chunk decodes to the Defined function "main". -/
theorem scenario_load_faults :
    scenario_chunk.length = 66 ∧
    read_uint16 { octets := scenario_chunk, position := 64 } = .error .end_of_stream ∧
    result_code (readCode spec_framing { octets := scenario_chunk, position := 0 } fresh_state)
      = .error .end_of_stream ∧
    result_code (swamp_unpack_octet_stream spec_framing
        { octets := package_head ++ scenario_chunk, position := 0 } fresh_state)
      = .error .end_of_stream ∧
    result_code (readCode spec_framing { octets := scenario_chunk ++ [0, 0, 0], position := 0 }
        fresh_state) = .ok 0 ∧
    (result_state (readCode spec_framing { octets := scenario_chunk ++ [0, 0, 0], position := 0 }
        fresh_state) fresh_state).self.entry = some 0 ∧
    (result_state (readCode spec_framing { octets := scenario_chunk ++ [0, 0, 0], position := 0 }
        fresh_state) fresh_state).heap
      = [{ debug_name := main_name, typeIndex := 0,
           body := some { parameter_count := 0, variable_count := 0, constant_parameter_count := 0,
                          opcodes := [], opcode_count := 0, constants := [],
                          constant_count := 0 } }] :=
  ⟨rfl, rfl, rfl, rfl, rfl, rfl, rfl⟩

/-- C5: the load of `package_head ++ opcode_chunk` returns 0, and so does the load of
that buffer without its last octet, a proper prefix that ends inside the opcode octets of
the function body: the cursor is moved over the four announced opcode octets without a
test and ends beyond the end of the buffer. -/
theorem truncated_opcodes_load_returns_zero :
    result_code (swamp_unpack_octet_stream spec_framing
        { octets := package_head ++ opcode_chunk, position := 0 } fresh_state) = .ok 0 ∧
    package_head ++ opcode_chunk = (package_head ++ opcode_chunk.dropLast) ++ [4] ∧
    result_code (swamp_unpack_octet_stream spec_framing
        { octets := package_head ++ opcode_chunk.dropLast, position := 0 } fresh_state) = .ok 0 ∧
    (result_cursor (swamp_unpack_octet_stream spec_framing
        { octets := package_head ++ opcode_chunk.dropLast, position := 0 } fresh_state)
        { octets := [], position := 0 }).position = 103 ∧
    (package_head ++ opcode_chunk.dropLast).length = 102 ∧
    (result_state (swamp_unpack_octet_stream spec_framing
        { octets := package_head ++ opcode_chunk.dropLast, position := 0 } fresh_state)
        fresh_state).heap
      = [{ debug_name := main_name, typeIndex := 0,
           body := some { parameter_count := 0, variable_count := 0, constant_parameter_count := 0,
                          opcodes := [1, 2, 3], opcode_count := 4, constants := [],
                          constant_count := 0 } }] :=
  ⟨rfl, rfl, rfl, rfl, rfl, rfl⟩

/-- C10: on the buffer `mismatch_chunk` the decode returns 0 with one declared function,
and that function is never defined: at the end it is still Declared.  (When the body
count is the declaration count, `forward_references_resolve` holds.) -/
theorem mismatch_decode_defines_nothing :
    result_code (readCode spec_framing { octets := mismatch_chunk, position := 0 } fresh_state)
      = .ok 0 ∧
    (result_state (readCode spec_framing { octets := mismatch_chunk, position := 0 } fresh_state)
      fresh_state).self.function_declaration_count = 1 ∧
    (result_state (readCode spec_framing { octets := mismatch_chunk, position := 0 } fresh_state)
      fresh_state).heap = [{ debug_name := main_name, typeIndex := 0, body := none }] :=
  ⟨rfl, rfl, rfl⟩


/-- C9: on `opcode_chunk` without its last octet the decode returns 0, the count at the
head of the body section is the declaration count 1, and the body entry defines the
function whose address is in the table at the start of the window: it becomes Defined in
place with the opcode count 4 of the entry, but only three opcode octets follow the
two-octet length in the buffer of 69 octets; the fourth lies past its end.  (The skip
over the opcode octets is made without a test, as in C5.) -/
theorem truncated_body_defines_short :
    result_code (readCode spec_framing { octets := opcode_chunk.dropLast, position := 0 }
      fresh_state) = .ok 0 ∧
    (result_state (readCode spec_framing { octets := opcode_chunk.dropLast, position := 0 }
      fresh_state) fresh_state).self.function_declaration_count = 1 ∧
    read_dword_count { octets := opcode_chunk.dropLast, position := 56 }
      = .ok (1, { octets := opcode_chunk.dropLast, position := 60 }) ∧
    (result_state (readCode spec_framing { octets := opcode_chunk.dropLast, position := 0 }
      fresh_state) fresh_state).self.offset_function_declarations = 0 ∧
    (result_state (readCode spec_framing { octets := opcode_chunk.dropLast, position := 0 }
      fresh_state) fresh_state).repo.slot 0 = some (.function 0) ∧
    (result_state (readCode spec_framing { octets := opcode_chunk.dropLast, position := 0 }
      fresh_state) fresh_state).heap
      = [{ debug_name := main_name, typeIndex := 0,
           body := some { parameter_count := 0, variable_count := 0, constant_parameter_count := 0,
                          opcodes := [1, 2, 3], opcode_count := 4, constants := [],
                          constant_count := 0 } }] ∧
    read_uint16 { octets := opcode_chunk.dropLast, position := 64 }
      = .ok (4, { octets := opcode_chunk.dropLast, position := 66 }) ∧
    (opcode_chunk.dropLast.drop 66).map Fin.val = [1, 2, 3] ∧
    opcode_chunk.dropLast.length = 69 :=
  ⟨rfl, rfl, rfl, rfl, rfl, rfl, rfl, rfl, rfl⟩

theorem observe_table_ok {r : Except fault (Int × octet_stream × unpack_state)} {e : Int}
    {v w : Option swamp_value} (h : observe_table r = some (e, v, w)) :
    ∃ s7 st7, r = .ok (e, s7, st7) ∧ st7.repo.slot 511 = v ∧ st7.repo.clobbered = w := by
  cases r with
  | error x => exact absurd h (by simp [observe_table])
  | ok x =>
    obtain ⟨e1, s7, st7⟩ := x
    simp only [observe_table, Option.some.injEq, Prod.mk.injEq] at h
    obtain ⟨rfl, rfl, rfl⟩ := h
    exact ⟨s7, st7, rfl, rfl, rfl⟩

/-- C1, counterexample: the decode of `overflow_chunk` (255 booleans, 255 strings and 3
resource names) from the empty table of a fresh session succeeds, it returns 0 after
decoding all seven sections, and the six counts read at the heads of its sections sum to
more than the 512 slots of the table: the table does not hold that many entries, and the
last value stored, the third resource-name handle, lies on the storage of the index,
which no longer is a count. -/
theorem overflow_decode_loses_count :
    ∃ (s7 : octet_stream) (st7 : unpack_state) (t : code_trace) (ne nd nb ni ns nr : Nat)
      (c1 c2 c3 c4 c5 c6 : octet_stream),
      readCode spec_framing { octets := overflow_chunk, position := 0 } fresh_state
        = .ok (0, s7, st7) ∧
      t.valid spec_framing { octets := overflow_chunk, position := 0 } fresh_state s7 st7 ∧
      read_count t.s_external = .ok (ne, c1) ∧
      read_dword_count t.s_declaration = .ok (nd, c2) ∧
      read_count t.s_boolean = .ok (nb, c3) ∧
      read_count t.s_integer = .ok (ni, c4) ∧
      read_count t.s_string = .ok (ns, c5) ∧
      read_count t.s_resource = .ok (nr, c6) ∧
      512 < ne + nd + nb + ni + ns + nr ∧
      st7.repo.clobbered = some (.integer 2) := by
  have hobs : observe_table
      (readCode spec_framing { octets := overflow_chunk, position := 0 } fresh_state)
      = some (0, some (.integer 1), some (.integer 2)) := by decide!
  obtain ⟨s7, st7, hr, _, hcl⟩ := observe_table_ok hobs
  rcases readCode_ok_cases hr with he | ⟨t, ht⟩
  · rw [he.2.2] at hcl
    exact absurd hcl (by decide)
  · obtain ⟨ne, nd, nb, ni, ns, nr, c1, c2, c3, c4, c5, c6, hc1, hc2, hc3, hc4, hc5, hc6,
      a1, a2, a3, a4, a5, a6, h7⟩ := trace_stored ht
    have hiff := stored_within_iff (show fresh_state.repo.index = 0 from rfl)
      (show fresh_state.repo.clobbered = none from rfl) a1 a2 a3 a4 a5 a6
    refine ⟨s7, st7, t, ne, nd, nb, ni, ns, nr, c1, c2, c3, c4, c5, c6, hr, ht, hc1, hc2, hc3,
      hc4, hc5, hc6, ?_, hcl⟩
    rw [h7] at hcl
    by_contra hle
    have := hiff.mpr (by omega)
    rw [this] at hcl
    exact absurd hcl (by simp)
/-! ## Sections on the wire -/

theorem drop_cons_facts {o : List octet} {p : Nat} {a : octet} {t : List octet}
    (h : o.drop p = a :: t) :
    p < o.length ∧ o.getD p 0 = a ∧ o.drop (p + 1) = t ∧ o.length = p + 1 + t.length := by
  have hlen : (o.drop p).length = t.length + 1 := by rw [h]; rfl
  rw [List.length_drop] at hlen
  have hp : p < o.length := by omega
  refine ⟨hp, ?_, ?_, by omega⟩
  · have h0 : (o.drop p)[0]? = some a := by rw [h]; exact List.getElem?_cons_zero
    rw [List.getElem?_drop, Nat.add_zero] at h0
    rw [List.getD_eq_getElem?_getD, h0]
    rfl
  · have : o.drop (p + 1) = (o.drop p).drop 1 := by rw [List.drop_drop, Nat.add_comm]
    rw [this, h]
    rfl

theorem drop_append_facts {o : List octet} {p : Nat} {a b : List octet}
    (h : o.drop p = a ++ b) : o.drop (p + a.length) = b ∧ (o.drop p).take a.length = a := by
  constructor
  · have : o.drop (p + a.length) = (o.drop p).drop a.length := by
      rw [List.drop_drop, Nat.add_comm]
    rw [this, h, List.drop_left]
  · rw [h, List.take_left]

/-- A length-prefixed string on the wire that is followed by at least one octet is read
by `read_string`. -/
theorem read_string_wire {s : octet_stream} {name rest : List octet}
    (hlen : name.length < 256) (hrest : rest ≠ [])
    (hwire : s.octets.drop s.position = encode_name name ++ rest) :
    read_string s = .ok (name.map Fin.val,
      { s with position := s.position + 1 + name.length }) ∧
    s.octets.drop (s.position + 1 + name.length) = rest := by
  obtain ⟨o, p⟩ := s
  simp only [encode_name, List.cons_append] at hwire
  obtain ⟨hp, hget, hdrop, hl⟩ := drop_cons_facts hwire
  obtain ⟨hd2, htake⟩ := drop_append_facts hdrop
  have hval : (⟨o, p⟩ : octet_stream).octet_at p = name.length := by
    simp only [octet_stream.octet_at, hget]
    show name.length % 256 = name.length
    exact Nat.mod_eq_of_lt hlen
  have hr : 0 < rest.length := List.length_pos.mpr hrest
  simp only [List.length_append] at hl
  have h1 := @read_string_of_lt ⟨o, p⟩ hp (by
    simp only [octet_stream.octet_count, hval]; omega)
  simp only [hval] at h1
  dsimp only at h1 ⊢
  rw [h1, htake]
  exact ⟨rfl, hd2⟩

theorem encode_names_ne_nil {names : List (List octet)} (h : names ≠ []) :
    encode_names names ≠ [] := by
  cases names with
  | nil => exact absurd rfl h
  | cons a t => simp [encode_names, encode_name]

/-- The loop of `read_resource_names` on a run of names on the wire, on a table with
room for them. -/
theorem read_resource_names_loop_wire :
    ∀ (names : List (List octet)) (i : Nat) (s : octet_stream) (repo : unpack_constants)
      (rest : List octet),
      (∀ name, name ∈ names → name.length < 256) → (names ≠ [] → rest ≠ []) →
      repo.clobbered = none → repo.index + names.length ≤ 512 →
      i + names.length ≤ 256 →
      s.octets.drop s.position = encode_names names ++ rest →
      ∃ repo1 : unpack_constants,
        read_resource_names_loop names.length i s repo
          = .ok ({ s with position := s.position + (encode_names names).length }, repo1) ∧
        (∀ j name, names[j]? = some name →
          repo1.resource_name (i + j) = some (c_string (name.map Fin.val))) ∧
        (∀ k, k < i → repo1.resource_name k = repo.resource_name k) ∧
        (names ≠ [] → repo1.resource_name_index = i + names.length) ∧
        (names = [] → repo1 = repo) := by
  intro names
  induction names with
  | nil =>
    intro i s repo rest _ _ _ _ _ _
    refine ⟨repo, ?_, ?_, fun _ _ => rfl, fun h => absurd rfl h, fun _ => rfl⟩
    · simp [read_resource_names_loop, encode_names]
    · intro j name h
      simp at h
  | cons name names ih =>
    intro i s repo rest hlen hrest hintact hroom hi hwire
    simp only [encode_names, List.append_assoc] at hwire
    simp only [List.length_cons] at hroom hi
    have hr1 : encode_names names ++ rest ≠ [] := by
      by_cases hn : names = []
      · subst hn
        simpa [encode_names] using hrest (by simp)
      · intro h
        exact encode_names_ne_nil hn (List.append_eq_nil.mp h).1
    obtain ⟨hread, hdrop⟩ := read_string_wire (hlen name (List.mem_cons_self _ _)) hr1 hwire
    have hlt : repo.index < 512 := by omega
    have hpush := @push_of_room
      { repo with
        resource_names :=
          Function.update repo.resource_names ⟨i % 256, by omega⟩ (c_string (name.map Fin.val))
        resource_name_index := i + 1 }
      (swamp_allocator_alloc_integer i) hintact hlt
    obtain ⟨repo1, h1, h5, h6, h7, _⟩ :=
      ih (i + 1) { s with position := s.position + 1 + name.length }
        { repo with
          table := Function.update repo.table ⟨repo.index, hlt⟩ (swamp_allocator_alloc_integer i)
          index := repo.index + 1
          resource_names :=
            Function.update repo.resource_names ⟨i % 256, by omega⟩ (c_string (name.map Fin.val))
          resource_name_index := i + 1 }
        rest (fun nm hnm => hlen nm (List.mem_cons_of_mem _ hnm))
        (fun hn => hrest (by simp)) hintact (by show repo.index + 1 + names.length ≤ 512; omega)
        (by omega) hdrop
    refine ⟨repo1, ?_, ?_, ?_, ?_, fun h => absurd h (by simp)⟩
    · simp only [List.length_cons, read_resource_names_loop, hread, hpush]
      rw [h1]
      simp only [encode_names, encode_name, List.length_append, List.length_cons]
      congr 3
      omega
    · intro j nm hj
      cases j with
      | zero =>
        simp only [List.getElem?_cons_zero, Option.some.injEq] at hj
        subst hj
        rw [Nat.add_zero, h6 i (by omega)]
        have hi5 : i < 512 := by omega
        have hi2 : i < 256 := by omega
        unfold unpack_constants.resource_name
        rw [dif_pos hi5]
        simp only [Option.some.injEq]
        have hfin : (⟨i, hi5⟩ : Fin 512) = ⟨i % 256, by omega⟩ :=
          Fin.ext (show i = i % 256 from (Nat.mod_eq_of_lt hi2).symm)
        rw [hfin]
        exact Function.update_same _ _ _
      | succ j =>
        simp only [List.getElem?_cons_succ] at hj
        rw [show i + (j + 1) = i + 1 + j by omega]
        exact h5 j nm hj
    · intro k hk
      rw [h6 k (by omega)]
      unfold unpack_constants.resource_name
      by_cases hk5 : k < 512
      · rw [dif_pos hk5, dif_pos hk5]
        simp only [Option.some.injEq]
        refine Function.update_noteq (fun e => ?_) _ _
        have hi2 : i < 256 := by omega
        have hv : k = i % 256 := congrArg Fin.val e
        rw [Nat.mod_eq_of_lt hi2] at hv
        omega
      · rw [dif_neg hk5, dif_neg hk5]
    · intro _
      by_cases hn : names = []
      · subst hn
        simp only [read_resource_names_loop, List.length_nil, Except.ok.injEq, Prod.mk.injEq] at h1
        rw [← h1.2]
        rfl
      · rw [h7 hn]
        simp only [List.length_cons]
        omega

/-- C11 (amended): a resource-name section on the wire, the count octet `n` and `n`
length-prefixed names followed by at least one more octet (in a code chunk the marker
of the body section follows), read on a table whose index is not overwritten and that
has room for `n` more values in its 512 slots, is read by `read_resource_names`: it
appends the `n` integers 0, 1, ..., n-1 in order, stores the `i`-th name (as the C string
it is) in the side table at position `i`, and leaves `resource_name_index` equal to `n`
when `n > 0`. -/
theorem read_resource_names_section (s : octet_stream) (repo : unpack_constants)
    (names : List (List octet)) (rest : List octet)
    (hn : names.length < 256) (hlen : ∀ name, name ∈ names → name.length < 256)
    (hrest : rest ≠ [])
    (hintact : repo.clobbered = none) (hroom : repo.index + names.length ≤ 512)
    (hwire : s.octets.drop s.position
      = Fin.ofNat names.length :: (encode_names names ++ rest)) :
    ∃ repo1 : unpack_constants,
      read_resource_names s repo
        = .ok ({ s with position := s.position + 1 + (encode_names names).length }, repo1) ∧
      repo1.clobbered = none ∧
      repo1.index = repo.index + names.length ∧
      (∀ i, i < names.length →
        repo1.slot (repo.index + i) = some (.integer ((i : Nat) : Int))) ∧
      (∀ k, k < repo.index → repo1.slot k = repo.slot k) ∧
      (∀ i name, names[i]? = some name →
        repo1.resource_name i = some (c_string (name.map Fin.val))) ∧
      (0 < names.length → repo1.resource_name_index = names.length) := by
  obtain ⟨o, p⟩ := s
  obtain ⟨hp, hget, hdrop, _⟩ := drop_cons_facts hwire
  have hcount : read_count ⟨o, p⟩ = .ok (names.length, ⟨o, p + 1⟩) := by
    rw [read_count, read_uint8_mk hp, hget]
    show Except.ok (names.length % 256, _) = _
    rw [Nat.mod_eq_of_lt hn]
  obtain ⟨repo1, h1, h5, _, h7, _⟩ :=
    read_resource_names_loop_wire names 0 ⟨o, p + 1⟩ repo rest hlen (fun _ => hrest)
      hintact hroom (by omega) hdrop
  have hst := read_resource_names_loop_ok _ _ _ _ _ _ h1
  have hc1 := hst.room hintact hroom
  obtain ⟨_, hidx, hframe, hval⟩ := hst.appended hc1
  refine ⟨repo1, ?_, hc1, hidx, ?_, hframe, ?_, ?_⟩
  · simp only [read_resource_names, hcount, h1]
  · intro i hi
    obtain ⟨v, hv, hP⟩ := hval i hi
    rw [hv, hP, Nat.zero_add]
  · intro i name hi
    have := h5 i name hi
    rwa [Nat.zero_add] at this
  · intro hpos
    have := h7 (List.length_pos.mp hpos)
    rwa [Nat.zero_add] at this

theorem read_resource_names_section_witness :
    ∃ repo1 : unpack_constants,
      read_resource_names { octets := [2, 1, 97, 1, 98, 0xF0], position := 0 } fresh_state.repo
        = .ok ({ octets := [2, 1, 97, 1, 98, 0xF0], position := 5 }, repo1) ∧
      repo1.index = 2 ∧ repo1.slot 0 = some (.integer 0) ∧ repo1.slot 1 = some (.integer 1) ∧
      repo1.resource_name 0 = some [97] ∧ repo1.resource_name 1 = some [98] ∧
      repo1.resource_name_index = 2 :=
  (read_resource_names_section { octets := [2, 1, 97, 1, 98, 0xF0], position := 0 }
    fresh_state.repo [[97], [98]] [0xF0] (by decide) (by decide) (by decide) rfl (by decide)
    rfl).imp
    (fun _ h => ⟨h.1, h.2.2.1, h.2.2.2.1 0 (by decide), h.2.2.2.1 1 (by decide),
      h.2.2.2.2.2.1 0 [97] rfl, h.2.2.2.2.2.1 1 [98] rfl, h.2.2.2.2.2.2 (by decide)⟩)

/-- C11, counterexample.  The section of the scenario alone in the buffer, the count 2
and the names "a" and "b" with no octet after them, is not read: `read_string` takes the
end-of-stream path on the last name (its test is `position + len >= octet_count`).  And
on a table that holds 510 values, a section with three names appends only two integers,
in the slots 510 and 511: the store of the third falls on the storage of the index. -/
theorem resource_names_section_limits :
    fault_of (read_resource_names { octets := [2, 1, 97, 1, 98], position := 0 } fresh_state.repo)
      = some .end_of_stream ∧
    fault_of (read_resource_names { octets := [3, 0, 0, 0, 0xF0], position := 0 }
      { fresh_state.repo with index := 510 }) = none ∧
    (result_of (read_resource_names { octets := [3, 0, 0, 0, 0xF0], position := 0 }
        { fresh_state.repo with index := 510 })
      ({ octets := [], position := 0 }, fresh_state.repo)).2.slot 510 = some (.integer 0) ∧
    (result_of (read_resource_names { octets := [3, 0, 0, 0, 0xF0], position := 0 }
        { fresh_state.repo with index := 510 })
      ({ octets := [], position := 0 }, fresh_state.repo)).2.slot 511 = some (.integer 1) ∧
    (result_of (read_resource_names { octets := [3, 0, 0, 0, 0xF0], position := 0 }
        { fresh_state.repo with index := 510 })
      ({ octets := [], position := 0 }, fresh_state.repo)).2.clobbered = some (.integer 2) :=
  ⟨rfl, rfl, rfl, rfl, rfl⟩
/-! ## Markers, failures and the cursor -/

theorem verifyMarker_of_ne {c : collaborators} {s : octet_stream} {m : RaffTag}
    (h : (readRaffMarker c s).2.1 ≠ m) : verifyMarker c s m = (-1, (readRaffMarker c s).2.2) := by
  simp [verifyMarker, h]

theorem verifyMarker_of_eq {c : collaborators} {s : octet_stream} {m : RaffTag}
    (h : (readRaffMarker c s).2.1 = m) : verifyMarker c s m = (0, (readRaffMarker c s).2.2) := by
  simp [verifyMarker, h]

theorem verifyMarker_ok {c : collaborators} {s s1 : octet_stream} {m : RaffTag}
    (h : verifyMarker c s m = (0, s1)) :
    (readRaffMarker c s).2.1 = m ∧ s1 = (readRaffMarker c s).2.2 := by
  by_cases hm : (readRaffMarker c s).2.1 = m
  · rw [verifyMarker_of_eq hm] at h
    exact ⟨hm, (Prod.mk.inj h).2.symm⟩
  · rw [verifyMarker_of_ne hm] at h
    exact absurd (Prod.mk.inj h).1 (by decide)

/-- C12: at each of the seven section positions, when the tag read there is not the
marker expected there, `readCode` returns -1 right away: it returns the memory as it was
before that marker was read, so neither the decoder of that section nor a later one has
run.  The positions are given by the run so far: the chunk header is accepted and the
earlier markers and sections are passed.  On `wrong_first_marker_chunk`, where the
boolean marker stands in the place of the external marker, `readCode` returns -1 with the
memory of the fresh session. -/
theorem marker_mismatch_stops_readCode (c : collaborators) (s : octet_stream)
    (st : unpack_state) :
    (0 < (code_header c s).1 →
      (readRaffMarker c (code_header c s).2).2.1 ≠ externalMarker →
      readCode c s st = .ok (-1, (readRaffMarker c (code_header c s).2).2.2, st)) ∧
    (∀ s1 e1 repo1, 0 < (code_header c s).1 →
      verifyMarker c (code_header c s).2 externalMarker = (0, s1) →
      read_external_functions c st.self s1 st.repo = .ok (e1, repo1) →
      (readRaffMarker c e1).2.1 ≠ functionDeclarationMarker →
      readCode c s st = .ok (-1, (readRaffMarker c e1).2.2, { st with repo := repo1 })) ∧
    (∀ s1 e1 repo1 s2 e2 self2 repo2 heap2, 0 < (code_header c s).1 →
      verifyMarker c (code_header c s).2 externalMarker = (0, s1) →
      read_external_functions c st.self s1 st.repo = .ok (e1, repo1) →
      verifyMarker c e1 functionDeclarationMarker = (0, s2) →
      read_function_declarations st.self s2 repo1 st.heap = .ok (e2, self2, repo2, heap2) →
      ((readRaffMarker c e2).2.1 ≠ booleanMarker →
        readCode c s st = .ok (-1, (readRaffMarker c e2).2.2,
          { self := self2, repo := repo2, heap := heap2 })) ∧
      (∀ s3 e3 repo3, verifyMarker c e2 booleanMarker = (0, s3) →
        read_booleans s3 repo2 = .ok (e3, repo3) →
        ((readRaffMarker c e3).2.1 ≠ integerMarker →
          readCode c s st = .ok (-1, (readRaffMarker c e3).2.2,
            { self := self2, repo := repo3, heap := heap2 })) ∧
        (∀ s4 e4 repo4, verifyMarker c e3 integerMarker = (0, s4) →
          read_integers s4 repo3 = .ok (e4, repo4) →
          ((readRaffMarker c e4).2.1 ≠ stringMarker →
            readCode c s st = .ok (-1, (readRaffMarker c e4).2.2,
              { self := self2, repo := repo4, heap := heap2 })) ∧
          (∀ s5 e5 repo5, verifyMarker c e4 stringMarker = (0, s5) →
            read_strings s5 repo4 = .ok (e5, repo5) →
            ((readRaffMarker c e5).2.1 ≠ resourceNameMarker →
              readCode c s st = .ok (-1, (readRaffMarker c e5).2.2,
                { self := self2, repo := repo5, heap := heap2 })) ∧
            (∀ s6 e6 repo6, verifyMarker c e5 resourceNameMarker = (0, s6) →
              read_resource_names s6 repo5 = .ok (e6, repo6) →
              (readRaffMarker c e6).2.1 ≠ functionMarker →
              readCode c s st = .ok (-1, (readRaffMarker c e6).2.2,
                { self := self2, repo := repo6, heap := heap2 })))))) ∧
    result_code (readCode spec_framing { octets := wrong_first_marker_chunk, position := 0 }
      fresh_state) = .ok (-1) ∧
    (result_state (readCode spec_framing { octets := wrong_first_marker_chunk, position := 0 }
      fresh_state) fresh_state).repo.index = 0 ∧
    (result_state (readCode spec_framing { octets := wrong_first_marker_chunk, position := 0 }
      fresh_state) fresh_state).self = fresh_state.self ∧
    (result_state (readCode spec_framing { octets := wrong_first_marker_chunk, position := 0 }
      fresh_state) fresh_state).heap = [] := by
  refine ⟨?_, ?_, ?_, rfl, rfl, rfl, rfl⟩
  · intro h0 hm
    simp only [code_header] at h0 hm
    simp [readCode, code_header, Int.not_le.mpr h0, verifyMarker_of_ne hm]
  · intro s1 e1 repo1 h0 m1 x1 hm
    simp only [code_header] at h0 m1
    simp [readCode, code_header, Int.not_le.mpr h0, m1, x1, verifyMarker_of_ne hm]
  · intro s1 e1 repo1 s2 e2 self2 repo2 heap2 h0 m1 x1 m2 x2
    simp only [code_header] at h0 m1
    refine ⟨fun hm => ?_, ?_⟩
    · simp [readCode, code_header, Int.not_le.mpr h0, m1, x1, m2, x2, verifyMarker_of_ne hm]
    intro s3 e3 repo3 m3 x3
    refine ⟨fun hm => ?_, ?_⟩
    · simp [readCode, code_header, Int.not_le.mpr h0, m1, x1, m2, x2, m3, x3, verifyMarker_of_ne hm]
    intro s4 e4 repo4 m4 x4
    refine ⟨fun hm => ?_, ?_⟩
    · simp [readCode, code_header, Int.not_le.mpr h0, m1, x1, m2, x2, m3, x3, m4, x4, verifyMarker_of_ne hm]
    intro s5 e5 repo5 m5 x5
    refine ⟨fun hm => ?_, ?_⟩
    · simp [readCode, code_header, Int.not_le.mpr h0, m1, x1, m2, x2, m3, x3, m4, x4, m5, x5,
        verifyMarker_of_ne hm]
    intro s6 e6 repo6 m6 x6 hm
    simp [readCode, code_header, Int.not_le.mpr h0, m1, x1, m2, x2, m3, x3, m4, x4, m5, x5, m6, x6,
      verifyMarker_of_ne hm]


theorem marker_mismatch_stops_readCode_witness :
    readCode spec_framing { octets := wrong_first_marker_chunk, position := 0 } fresh_state
      = .ok (-1, (readRaffMarker spec_framing
          (code_header spec_framing { octets := wrong_first_marker_chunk, position := 0 }).2).2.2,
        fresh_state) :=
  (marker_mismatch_stops_readCode spec_framing
    { octets := wrong_first_marker_chunk, position := 0 } fresh_state).1 (by decide) (by decide)

/-- C13 as stated fails: on `empty_code_chunk`, whose header announces the size 0,
`readCode` returns 0 with the cursor right after the header (position 12) and the memory
of the fresh session: no marker has been read, and the tag at the cursor is not the
external marker. -/
theorem empty_chunk_skips_markers :
    result_code (readCode spec_framing { octets := empty_code_chunk, position := 0 } fresh_state)
      = .ok 0 ∧
    (result_cursor (readCode spec_framing { octets := empty_code_chunk, position := 0 }
      fresh_state) { octets := [], position := 0 }).position = 12 ∧
    (verifyMarker spec_framing { octets := empty_code_chunk, position := 12 } externalMarker).1
      = -1 ∧
    (result_state (readCode spec_framing { octets := empty_code_chunk, position := 0 }
      fresh_state) fresh_state).repo.index = 0 :=
  ⟨rfl, rfl, rfl, rfl⟩

/-- C13, amended: whenever `readCode` returns 0, either the chunk header announced the
size 0, and then no marker is read and nothing is decoded, or all seven section markers
were verified in the fixed order external, declarations, booleans, integers, strings,
resource names, bodies: the tag read where the previous section (or the chunk header)
ended is the expected marker, and the section's decoder starts where that marker read
ended. -/
theorem readCode_zero_markers (c : collaborators) (s s7 : octet_stream) (st st7 : unpack_state)
    (hok : readCode c s st = .ok (0, s7, st7)) :
    code_chunk_empty c s st s7 st7 ∨
    ∃ t : code_trace, t.valid c s st s7 st7 ∧
      (readRaffMarker c (code_header c s).2).2.1 = externalMarker ∧
      t.s_external = (readRaffMarker c (code_header c s).2).2.2 ∧
      (readRaffMarker c t.e_external).2.1 = functionDeclarationMarker ∧
      t.s_declaration = (readRaffMarker c t.e_external).2.2 ∧
      (readRaffMarker c t.e_declaration).2.1 = booleanMarker ∧
      t.s_boolean = (readRaffMarker c t.e_declaration).2.2 ∧
      (readRaffMarker c t.e_boolean).2.1 = integerMarker ∧
      t.s_integer = (readRaffMarker c t.e_boolean).2.2 ∧
      (readRaffMarker c t.e_integer).2.1 = stringMarker ∧
      t.s_string = (readRaffMarker c t.e_integer).2.2 ∧
      (readRaffMarker c t.e_string).2.1 = resourceNameMarker ∧
      t.s_resource = (readRaffMarker c t.e_string).2.2 ∧
      (readRaffMarker c t.e_resource).2.1 = functionMarker ∧
      t.s_function = (readRaffMarker c t.e_resource).2.2 := by
  rcases readCode_ok_cases hok with he | ⟨t, ht⟩
  · exact Or.inl he
  · right
    have hv := ht
    obtain ⟨_, m1, _, m2, _, m3, _, m4, _, m5, _, m6, _, m7, _⟩ := ht
    exact ⟨t, hv, (verifyMarker_ok m1).1, (verifyMarker_ok m1).2, (verifyMarker_ok m2).1,
      (verifyMarker_ok m2).2, (verifyMarker_ok m3).1, (verifyMarker_ok m3).2,
      (verifyMarker_ok m4).1, (verifyMarker_ok m4).2, (verifyMarker_ok m5).1,
      (verifyMarker_ok m5).2, (verifyMarker_ok m6).1, (verifyMarker_ok m6).2,
      (verifyMarker_ok m7).1, (verifyMarker_ok m7).2⟩

set_option maxRecDepth 100000 in
theorem readCode_zero_markers_witness :
    code_chunk_empty spec_framing { octets := sample_chunk, position := 0 } fresh_state
        (result_cursor sample_decode { octets := [], position := 0 })
        (result_state sample_decode fresh_state) ∨
      ∃ t : code_trace, t.valid spec_framing { octets := sample_chunk, position := 0 } fresh_state
        (result_cursor sample_decode { octets := [], position := 0 })
        (result_state sample_decode fresh_state) :=
  (readCode_zero_markers spec_framing { octets := sample_chunk, position := 0 }
    (result_cursor sample_decode { octets := [], position := 0 }) fresh_state
    (result_state sample_decode fresh_state) rfl).imp id (fun h => h.elim fun t h1 => ⟨t, h1.1⟩)

/-- The loop of lines 229-236 returns whenever the index octets are in the buffer,
whatever the indices and whatever the next index of the table. -/
theorem read_function_constants_returns (repo : unpack_constants) :
    ∀ (n : Nat) (s : octet_stream) (acc : List swamp_value),
      s.position + n ≤ s.octet_count →
      read_function_constants repo n s acc
        = .ok (acc ++ (List.range n).map
              (fun j => repo.constant_at (s.octet_at (s.position + j))),
            { s with position := s.position + n }) := by
  intro n
  induction n with
  | zero =>
    intro s acc _
    simp [read_function_constants]
  | succ n ih =>
    intro s acc h
    obtain ⟨o, p⟩ := s
    simp only [octet_stream.octet_count] at h
    have hp : p < o.length := by omega
    simp only [read_function_constants, read_uint8_mk hp]
    rw [ih _ _ (by simp only [octet_stream.octet_count]; omega), List.range_succ_eq_map,
      List.map_cons, List.map_map, List.append_assoc, List.singleton_append]
    simp only [octet_stream.octet_at, Nat.add_zero, Except.ok.injEq, Prod.mk.injEq,
      octet_stream.mk.injEq, true_and]
    refine ⟨?_, by omega⟩
    congr 2
    apply List.map_congr_left
    intro j _
    simp only [Function.comp, Nat.succ_eq_add_one]
    congr 3
    omega

/-- C14 as stated fails: on `wild_index_chunk` the table has one populated slot (next
index 1) and the body lists the constant index 200; the decode returns 0 and the function
holds as its constant whatever slot 200 held. -/
theorem wild_constant_index_accepted :
    result_code (readCode spec_framing { octets := wild_index_chunk, position := 0 } fresh_state)
      = .ok 0 ∧
    (result_state (readCode spec_framing { octets := wild_index_chunk, position := 0 }
      fresh_state) fresh_state).repo.index = 1 ∧
    (result_state (readCode spec_framing { octets := wild_index_chunk, position := 0 }
      fresh_state) fresh_state).heap
      = [{ debug_name := main_name, typeIndex := 0,
           body := some { parameter_count := 0, variable_count := 0, constant_parameter_count := 0,
                          opcodes := [1, 2, 3], opcode_count := 3,
                          constants := [fresh_state.repo.constant_at 200],
                          constant_count := 1 } }] :=
  ⟨rfl, rfl, rfl⟩

/-- C14, amended: for every function-body entry and every constant index it lists, the
value in the table slot of that index is collected, in the order read, whatever the index
and whatever the next index of the table: the loop makes no comparison with the next
index, and it returns whenever the index octets are in the buffer. -/
theorem constant_indices_unchecked (repo : unpack_constants) (n : Nat) (s : octet_stream)
    (hbuf : s.position + n ≤ s.octet_count) :
    read_function_constants repo n s []
      = .ok ((List.range n).map (fun j => repo.constant_at (s.octet_at (s.position + j))),
          { s with position := s.position + n }) ∧
    ∀ index : Nat,
      read_function_constants { repo with index := index } n s []
        = read_function_constants repo n s [] := by
  refine ⟨?_, fun index => ?_⟩
  · rw [read_function_constants_returns repo n s [] hbuf, List.nil_append]
  · rw [read_function_constants_returns repo n s [] hbuf,
      read_function_constants_returns _ n s [] hbuf]
    rfl

theorem constant_indices_unchecked_witness :
    read_function_constants fresh_state.repo 2 { octets := [200, 7, 0], position := 0 } []
      = .ok ([fresh_state.repo.constant_at 200, fresh_state.repo.constant_at 7],
          { octets := [200, 7, 0], position := 2 }) :=
  (constant_indices_unchecked fresh_state.repo 2 { octets := [200, 7, 0], position := 0 }
    (by decide)).1

/-- C15: for an external-function entry (parameter count, name, type reference, read at
the cursor `s`) whose name `bind_fn` does not resolve: with the leniency flag clear the
loop leaves through `SWAMP_ERROR` and nothing is appended; with the flag set the loop
goes on with the next entry after the store of one ExternalFunction value with a null
implementation, the parameter count and the name of the entry, exactly as it goes on
after the store of the bound value when the binding succeeds.  In a table with a free
slot (externals are the first section, so on an empty table there is one) the store puts
the value at the next index, which moves on by one, whether the implementation is null
or not. -/
theorem unresolved_external_binding (c : collaborators) (self : swamp_unpack) (n : Nat)
    (s s1 s2 s3 : octet_stream) (repo : unpack_constants) (param_count typeRef : Nat)
    (name : List Nat)
    (h1 : read_uint8 s = .ok (param_count, s1)) (h2 : read_string s1 = .ok (name, s2))
    (h3 : read_type_ref s2 = .ok (typeRef, s3)) (hbind : c.bind_fn (c_string name) = none) :
    (self.ignore_external_function_bind_errors = false →
      read_external_functions_loop c self (n + 1) s repo = .error .bind_error) ∧
    (self.ignore_external_function_bind_errors = true →
      (∀ repo1, repo.push (.external_function none param_count (c_string name)) = .ok repo1 →
        read_external_functions_loop c self (n + 1) s repo
          = read_external_functions_loop c self n s3 repo1) ∧
      (∀ e, repo.push (.external_function none param_count (c_string name)) = .error e →
        read_external_functions_loop c self (n + 1) s repo = .error e)) ∧
    (repo.clobbered = none → ∀ (hlt : repo.index < 512) (fn : Option Nat),
      repo.push (.external_function fn param_count (c_string name))
        = .ok { repo with
                table := Function.update repo.table ⟨repo.index, hlt⟩
                  (.external_function fn param_count (c_string name))
                index := repo.index + 1 }) ∧
    (∀ (c2 : collaborators) (fn : Nat), c2.bind_fn (c_string name) = some fn →
      (∀ repo1,
        repo.push (.external_function (some fn) param_count (c_string name)) = .ok repo1 →
        read_external_functions_loop c2 self (n + 1) s repo
          = read_external_functions_loop c2 self n s3 repo1) ∧
      (∀ e, repo.push (.external_function (some fn) param_count (c_string name)) = .error e →
        read_external_functions_loop c2 self (n + 1) s repo = .error e)) := by
  refine ⟨fun hf => ?_, fun ht => ⟨fun repo1 hp => ?_, fun e hp => ?_⟩,
    fun hc hlt fn => push_of_room _ hc hlt, fun c2 fn h => ⟨fun repo1 hp => ?_, fun e hp => ?_⟩⟩
  · simp [read_external_functions_loop, h1, h2, h3, hbind, hf]
  · simp [read_external_functions_loop, h1, h2, h3, hbind, ht,
      swamp_allocator_alloc_external_function, hp]
  · simp [read_external_functions_loop, h1, h2, h3, hbind, ht,
      swamp_allocator_alloc_external_function, hp]
  · simp [read_external_functions_loop, h1, h2, h3, h, swamp_allocator_alloc_external_function,
      hp]
  · simp [read_external_functions_loop, h1, h2, h3, h, swamp_allocator_alloc_external_function,
      hp]

theorem unresolved_external_binding_witness :
    read_external_functions_loop spec_framing fresh_state.self 1
      { octets := [2, 1, 120, 7, 0], position := 0 } fresh_state.repo = .error .bind_error :=
  (unresolved_external_binding spec_framing fresh_state.self 0
    { octets := [2, 1, 120, 7, 0], position := 0 } { octets := [2, 1, 120, 7, 0], position := 1 }
    { octets := [2, 1, 120, 7, 0], position := 3 } { octets := [2, 1, 120, 7, 0], position := 4 }
    fresh_state.repo 2 7 [120] rfl rfl rfl rfl).1 rfl

/-- C17: the primitive reads and `read_string` leave the position at most the octet
count, but the skip over the opcode octets of a body does not: on `opcode_chunk` without
its last octet `readCode` returns 0 with the cursor at position 70 in a buffer of 69
octets. -/
theorem cursor_leaves_buffer :
    (∀ (s s1 : octet_stream) (v : Nat), read_uint8 s = .ok (v, s1) →
      s1.position ≤ s1.octet_count) ∧
    (∀ (s s1 : octet_stream) (v : Int), read_uint16 s = .ok (v, s1) →
      s1.position ≤ s1.octet_count) ∧
    (∀ (s s1 : octet_stream) (v : Int), read_int32 s = .ok (v, s1) →
      s1.position ≤ s1.octet_count) ∧
    (∀ (s s1 : octet_stream) (v : Int), read_uint32 s = .ok (v, s1) →
      s1.position ≤ s1.octet_count) ∧
    (∀ (s s1 : octet_stream) (buf : List Nat), read_string s = .ok (buf, s1) →
      s1.position ≤ s1.octet_count) ∧
    result_code (readCode spec_framing { octets := opcode_chunk.dropLast, position := 0 }
      fresh_state) = .ok 0 ∧
    (result_cursor (readCode spec_framing { octets := opcode_chunk.dropLast, position := 0 }
      fresh_state) { octets := [], position := 0 }).position = 70 ∧
    (result_cursor (readCode spec_framing { octets := opcode_chunk.dropLast, position := 0 }
      fresh_state) { octets := [], position := 0 }).octet_count = 69 := by
  refine ⟨?_, ?_, ?_, ?_, ?_, rfl, rfl, rfl⟩
  · intro s s1 v h
    obtain ⟨h0, _, rfl⟩ := read_uint8_ok h
    simp only [octet_stream.octet_count] at h0 ⊢
    omega
  · intro s s1 v h
    obtain ⟨h0, _, rfl⟩ := read_uint16_ok h
    simp only [octet_stream.octet_count] at h0 ⊢
    omega
  · intro s s1 v h
    obtain ⟨h0, _, rfl⟩ := read_uint32_ok h
    simp only [octet_stream.octet_count] at h0 ⊢
    omega
  · intro s s1 v h
    obtain ⟨h0, _, rfl⟩ := read_uint32_ok h
    simp only [octet_stream.octet_count] at h0 ⊢
    omega
  · intro s s1 buf h
    obtain ⟨h0, _, _, rfl⟩ := read_string_ok h
    simp only [octet_stream.octet_count] at h0 ⊢
    omega

/-- C18: when the count at the head of the body section is not the recorded
declaration count, `read_functions` returns right after the four octets of the count: it
reads no body entry and leaves every function object as it was, so a Declared function
is still Declared; it has no access to write the table. -/
theorem count_mismatch_defines_nothing (self : swamp_unpack) (s sc : octet_stream)
    (repo : unpack_constants) (heap : List swamp_func) (count : Nat)
    (hc : read_dword_count s = .ok (count, sc)) (hne : count ≠ self.function_declaration_count) :
    read_functions self s repo heap = .ok (sc, heap) ∧
      sc = { s with position := s.position + 4 } ∧
      ∀ (s1 : octet_stream) (heap1 : List swamp_func),
        read_functions self s repo heap = .ok (s1, heap1) →
        ∀ (a : Nat) (f : swamp_func), heap[a]? = some f → f.body = none →
          ∃ g : swamp_func, heap1[a]? = some g ∧ g.body = none := by
  have h : read_functions self s repo heap = .ok (sc, heap) := by
    simp [read_functions, hc, hne]
  refine ⟨h, (read_dword_count_ok hc).2.2, ?_⟩
  intro s1 heap1 h1 a f ha hf
  rw [h] at h1
  simp only [Except.ok.injEq, Prod.mk.injEq] at h1
  rw [← h1.2]
  exact ⟨f, ha, hf⟩

theorem count_mismatch_defines_nothing_witness :
    read_functions
        { entry := some 0, ignore_external_function_bind_errors := false,
          offset_function_declarations := 0, function_declaration_count := 1 }
        { octets := mismatch_chunk, position := 56 } fresh_state.repo
        [{ debug_name := main_name, typeIndex := 0, body := none }]
      = .ok ({ octets := mismatch_chunk, position := 60 },
          [{ debug_name := main_name, typeIndex := 0, body := none }]) :=
  (count_mismatch_defines_nothing _ { octets := mismatch_chunk, position := 56 }
    { octets := mismatch_chunk, position := 60 } fresh_state.repo _ 2 rfl (by decide)).1

theorem push_ok_room {repo repoA : unpack_constants} {v : swamp_value}
    (h : repo.push v = .ok repoA) : repoA.room + 1 = repo.room := by
  obtain ⟨⟨hc, hs⟩, _⟩ := push_ok h
  rcases hs with ⟨hlt, hcA, hidx, _⟩ | ⟨h512, hcA, _⟩
  · simp only [unpack_constants.room, hc, hcA, hidx]
    omega
  · simp only [unpack_constants.room, hc, hcA, h512]

theorem push_fault {repo : unpack_constants} {v : swamp_value} {e : fault}
    (h : repo.push v = .error e) : e = .wild_store ∧ repo.room = 0 := by
  unfold unpack_constants.push at h
  split at h
  · rename_i w hw
    simp only [Except.error.injEq] at h
    exact ⟨h.symm, by simp only [unpack_constants.room, hw]⟩
  rename_i hc
  split at h
  · exact absurd h (by simp)
  split at h
  · exact absurd h (by simp)
  · simp only [Except.error.injEq] at h
    refine ⟨h.symm, ?_⟩
    simp only [unpack_constants.room, hc]
    omega

/-- A loop of `read_function_declarations` that starts with more iterations allowed
than octets are left does not use them up: a fault of it is the end-of-stream fault or a
wild store, and it is the end-of-stream fault when the octets left are fewer than three
for each store that the table has room for and three more. -/
theorem read_function_declarations_loop_fault (count : Nat) :
    ∀ (fuel i : Nat) (s : octet_stream) (self : swamp_unpack) (repo : unpack_constants)
      (heap : List swamp_func) (e : fault),
      s.octet_count - s.position < fuel →
      read_function_declarations_loop count fuel i s self repo heap = .error e →
      (e = .end_of_stream ∨ e = .wild_store) ∧
      (s.octet_count - s.position < 3 * (repo.room + 1) → e = .end_of_stream) := by
  intro fuel
  induction fuel with
  | zero =>
    intro i s self repo heap e hf _
    exact absurd hf (Nat.not_lt_zero _)
  | succ fuel ih =>
    intro i s self repo heap e hf h
    simp only [read_function_declarations_loop] at h
    split at h
    · split at h
      · rename_i e1 he1
        simp only [Except.error.injEq] at h
        rw [← h]
        exact ⟨Or.inl (read_uint8_fault he1).2, fun _ => (read_uint8_fault he1).2⟩
      split at h
      · rename_i e1 he1
        simp only [Except.error.injEq] at h
        rw [← h]
        exact ⟨Or.inl (read_string_fault he1), fun _ => read_string_fault he1⟩
      split at h
      · rename_i e1 he1
        simp only [Except.error.injEq] at h
        rw [← h]
        exact ⟨Or.inl (read_uint8_fault he1).2, fun _ => (read_uint8_fault he1).2⟩
      rename_i _ pc sa ha _ name sb hb _ typeRef sc hc
      obtain ⟨_, _, h3, h4, h5⟩ := read_declaration_entry ha hb hc
      simp only [octet_stream.octet_count] at hf h4 ⊢
      split at h
      · rename_i e1 he1
        simp only [Except.error.injEq] at h
        rw [← h]
        obtain ⟨hw, hroom⟩ := push_fault he1
        refine ⟨Or.inr hw, fun hlt => ?_⟩
        rw [hroom] at hlt
        omega
      rename_i repoA hp
      have hr := push_ok_room hp
      obtain ⟨g1, g2⟩ := ih _ _ _ _ _ _ (by
        simp only [octet_stream.octet_count]
        rw [h5]
        omega) h
      refine ⟨g1, fun hlt => g2 ?_⟩
      simp only [octet_stream.octet_count]
      rw [h5]
      omega
    · exact absurd h (by simp)

/-- C19 fails for the counts from 256 on: whatever the buffer holds after a declaration
count `n ≥ 256`, `read_function_declarations` does not return; its `uint8_t` counter
never reaches the count, and it reads on until a read takes the end-of-stream path or,
in a buffer long enough to fill the table first, a store is a wild store; it is the
end-of-stream path when the octets after the count are fewer than three for each store
that the table has room for and three more.  And whenever it returns, the count `n` is at
most 255, it has read exactly `n` entries (it ends at the cursor after the `n`-th),
appended exactly the `n` Declared functions the entries describe, in wire order, their
addresses in the slots from the next index on (every one that is a slot of the array;
the next index has grown by `n` when no store went past the array, which none does when
the table had room for `n` values), and recorded the window `[start, start + n)`. -/
theorem declarations_beyond_255 (self : swamp_unpack) (s sc : octet_stream)
    (repo : unpack_constants) (heap : List swamp_func) (n : Nat)
    (hc : read_dword_count s = .ok (n, sc)) :
    (256 ≤ n →
      (read_function_declarations self s repo heap = .error .end_of_stream ∨
        read_function_declarations self s repo heap = .error .wild_store) ∧
      (sc.octet_count - sc.position < 3 * (repo.room + 1) →
        read_function_declarations self s repo heap = .error .end_of_stream)) ∧
    ∀ (s1 : octet_stream) (self1 : swamp_unpack) (repo1 : unpack_constants)
      (heap1 : List swamp_func),
      read_function_declarations self s repo heap = .ok (s1, self1, repo1, heap1) →
      n ≤ 255 ∧ s1 = declaration_cursor n sc ∧
      heap1 = heap ++ (List.range n).map (fun k => wire_declaration (declaration_cursor k sc)) ∧
      (repo1.clobbered = none → repo1.index = repo.index + n) ∧
      (repo.clobbered = none → repo.index + n ≤ 512 → repo1.clobbered = none) ∧
      (∀ k, k < n → repo.index + k < 512 →
        repo1.slot (repo.index + k) = some (.function (heap.length + k))) ∧
      self1.offset_function_declarations = repo.index ∧
      self1.function_declaration_count = n := by
  constructor
  · intro hn
    cases hr : read_function_declarations self s repo heap with
    | ok r =>
      obtain ⟨s1, self1, repo1, heap1⟩ := r
      obtain ⟨count, sc2, _, hc2, hle, _⟩ := read_function_declarations_ok hr
      rw [hc] at hc2
      simp only [Except.ok.injEq, Prod.mk.injEq] at hc2
      omega
    | error e =>
      unfold read_function_declarations at hr
      rw [hc] at hr
      simp only [] at hr
      split at hr
      · rename_i e1 he1
        simp only [Except.error.injEq] at hr
        obtain ⟨g1, g2⟩ := read_function_declarations_loop_fault _ _ _ _ _ _ _ _ (by omega) he1
        rw [← hr]
        refine ⟨?_, fun hlt => ?_⟩
        · rcases g1 with g | g
          · exact Or.inl (by rw [g])
          · exact Or.inr (by rw [g])
        · rw [g2 hlt]
      · exact absurd hr (by simp)
  · intro s1 self1 repo1 heap1 hr
    obtain ⟨count, sc2, _, hc2, hle, _, _, a2, _, hoff, hcnt, _⟩ :=
      read_function_declarations_ok hr
    rw [hc] at hc2
    simp only [Except.ok.injEq, Prod.mk.injEq] at hc2
    obtain ⟨rfl, rfl⟩ := hc2
    obtain ⟨hw1, hw2⟩ := read_function_declarations_wire hc hr
    refine ⟨hle, hw2, hw1, fun h1 => (a2.appended h1).2.1, a2.room, ?_, hoff, hcnt⟩
    intro k hk h512
    obtain ⟨v, hv, hP⟩ := a2.in_slot k hk h512
    rw [hv, hP]

set_option maxRecDepth 100000 in
theorem declarations_beyond_255_witness :
    read_function_declarations fresh_state.self
      { octets := declaration_section 256, position := 0 } fresh_state.repo []
      = .error .end_of_stream :=
  ((declarations_beyond_255 fresh_state.self { octets := declaration_section 256, position := 0 }
    { octets := declaration_section 256, position := 4 } fresh_state.repo [] 256 rfl).1
    (by decide)).2 (by decide)

/-- C20: no decoder compares the next index with the 512 slots of the table.  The decode
of `overflow_chunk`, whose section counts 0, 0, 255, 0, 255 and 3 sum to 513, starts from
the empty table of a fresh session and returns 0, not an error: the slot 511, the last of
the array, holds the second resource-name handle, and the third handle has been stored
at index 512, which is the storage of the index of the table. -/
theorem table_capacity_unchecked :
    observe_table (readCode spec_framing { octets := overflow_chunk, position := 0 } fresh_state)
      = some (0, some (.integer 1), some (.integer 2)) ∧
    fresh_state.repo.index = 0 ∧ fresh_state.repo.clobbered = none := by
  refine ⟨?_, rfl, rfl⟩
  decide!
/-! ## Termination of the declaration loop and the entry point -/

/-- The result of the loop of `read_function_declarations` does not depend on the
bound on its iterations, once the bound exceeds the octets left. -/
theorem read_function_declarations_loop_bound (count : Nat) :
    ∀ (fuel1 fuel2 i : Nat) (s : octet_stream) (self : swamp_unpack) (repo : unpack_constants)
      (heap : List swamp_func),
      s.octet_count - s.position < fuel1 → s.octet_count - s.position < fuel2 →
      read_function_declarations_loop count fuel1 i s self repo heap
        = read_function_declarations_loop count fuel2 i s self repo heap := by
  intro fuel1
  induction fuel1 with
  | zero =>
    intro fuel2 i s self repo heap h1 _
    exact absurd h1 (Nat.not_lt_zero _)
  | succ fuel1 ih =>
    intro fuel2 i s self repo heap h1 h2
    cases fuel2 with
    | zero => exact absurd h2 (Nat.not_lt_zero _)
    | succ fuel2 =>
      simp only [read_function_declarations_loop]
      split
      · cases ha : read_uint8 s with
        | error e => rfl
        | ok va =>
          obtain ⟨pc, sa⟩ := va
          simp only []
          cases hb : read_string sa with
          | error e => rfl
          | ok vb =>
            obtain ⟨name, sb⟩ := vb
            simp only []
            cases hc : read_type_ref sb with
            | error e => rfl
            | ok vc =>
              obtain ⟨typeRef, sc⟩ := vc
              simp only []
              obtain ⟨_, _, h3, h4, h5⟩ := read_declaration_entry ha hb hc
              cases hp : repo.push (.function heap.length) with
              | error e => rfl
              | ok repoA =>
                simp only []
                apply ih
                · simp only [octet_stream.octet_count] at h1 h4 ⊢
                  rw [h5]
                  omega
                · simp only [octet_stream.octet_count] at h2 h4 ⊢
                  rw [h5]
                  omega
      · rfl

theorem read_dword_count_fault {s : octet_stream} {e : fault}
    (h : read_dword_count s = .error e) : e = .end_of_stream := by
  by_cases hlt : s.position + 4 < s.octet_count
  · rw [read_dword_count_of_lt hlt] at h
    exact absurd h (by simp)
  · rw [read_dword_count_of_ge (Nat.le_of_not_lt hlt)] at h
    simp only [Except.error.injEq] at h
    exact h.symm

theorem push_of_no_room {repo : unpack_constants} (v : swamp_value) (h : repo.room = 0) :
    repo.push v = .error .wild_store := by
  cases hp : repo.push v with
  | error e => rw [(push_fault hp).1]
  | ok repoA =>
    have := push_ok_room hp
    omega

theorem push_of_some_room {repo : unpack_constants} (v : swamp_value) (h : 0 < repo.room) :
    ∃ repoA, repo.push v = .ok repoA ∧ repoA.room + 1 = repo.room := by
  cases hp : repo.push v with
  | error e =>
    have := (push_fault hp).2
    omega
  | ok repoA => exact ⟨repoA, rfl, push_ok_room hp⟩

theorem read_uint8_zero {o : List octet} {p : Nat} (hp : p < o.length) (hz : o.getD p 0 = 0) :
    read_uint8 ⟨o, p⟩ = .ok (0, ⟨o, p + 1⟩) := by
  rw [read_uint8_mk hp, hz]
  rfl

/-- The loop of `read_function_declarations` on octets that are all 0 (entries with
param_count 0, an empty name and type_ref 0), with a counter that stays below the count:
when the buffer holds one entry more than the table has room for, the loop ends in a
wild store. -/
theorem read_function_declarations_loop_overrun (count : Nat) (hcount : 256 ≤ count)
    (o : List octet) :
    ∀ (r fuel i p : Nat) (self : swamp_unpack) (repo : unpack_constants)
      (heap : List swamp_func),
      repo.room = r → r < fuel → i < 256 → p + 3 * (r + 1) ≤ o.length →
      (∀ q, p ≤ q → o.getD q 0 = 0) →
      read_function_declarations_loop count fuel i ⟨o, p⟩ self repo heap
        = .error .wild_store := by
  intro r
  induction r with
  | zero =>
    intro fuel i p self repo heap hr hf hi hlen hz
    obtain ⟨fuel, rfl⟩ : ∃ f, fuel = f + 1 := ⟨fuel - 1, by omega⟩
    have h1 := read_uint8_zero (show p < o.length by omega) (hz p (Nat.le_refl _))
    have h2 : read_string ⟨o, p + 1⟩ = .ok ([], ⟨o, p + 1 + 1 + 0⟩) := by
      have := @read_string_of_lt ⟨o, p + 1⟩ (by show p + 1 < o.length; omega) (by
        simp only [octet_stream.octet_count, octet_stream.octet_at, hz (p + 1) (by omega)]
        show p + 1 + 1 + 0 < o.length
        omega)
      simp only [octet_stream.octet_at, hz (p + 1) (by omega)] at this
      rw [this]
      rfl
    have h3 := read_uint8_zero (show p + 1 + 1 + 0 < o.length by omega)
      (hz (p + 1 + 1 + 0) (by omega))
    simp only [read_function_declarations_loop, if_pos (show i < count by omega), h1, h2,
      read_type_ref, h3, push_of_no_room _ hr]
  | succ r ih =>
    intro fuel i p self repo heap hr hf hi hlen hz
    obtain ⟨fuel, rfl⟩ : ∃ f, fuel = f + 1 := ⟨fuel - 1, by omega⟩
    have h1 := read_uint8_zero (show p < o.length by omega) (hz p (Nat.le_refl _))
    have h2 : read_string ⟨o, p + 1⟩ = .ok ([], ⟨o, p + 1 + 1 + 0⟩) := by
      have := @read_string_of_lt ⟨o, p + 1⟩ (by show p + 1 < o.length; omega) (by
        simp only [octet_stream.octet_count, octet_stream.octet_at, hz (p + 1) (by omega)]
        show p + 1 + 1 + 0 < o.length
        omega)
      simp only [octet_stream.octet_at, hz (p + 1) (by omega)] at this
      rw [this]
      rfl
    have h3 := read_uint8_zero (show p + 1 + 1 + 0 < o.length by omega)
      (hz (p + 1 + 1 + 0) (by omega))
    obtain ⟨repoA, hp, hrA⟩ := push_of_some_room (.function heap.length)
      (show 0 < repo.room by omega)
    simp only [read_function_declarations_loop, if_pos (show i < count by omega), h1, h2,
      read_type_ref, h3, hp]
    exact ih fuel _ _ _ repoA _ (by omega) (by omega) (Nat.mod_lt _ (by omega)) (by omega)
      (fun q hq => hz q (by omega))

/-- A fault of the loop of `read_function_declarations` is the fault of the function. -/
theorem read_function_declarations_of_loop_fault {self : swamp_unpack} {s s1 : octet_stream}
    {repo : unpack_constants} {heap : List swamp_func} {count : Nat} {e : fault}
    (hc : read_dword_count s = .ok (count, s1))
    (hl : read_function_declarations_loop count (s1.octet_count + 1) 0 s1
      { self with offset_function_declarations := repo.index } repo heap = .error e) :
    read_function_declarations self s repo heap = .error e := by
  unfold read_function_declarations
  rw [hc]
  simp only []
  rw [hl]

theorem long_declaration_section_length :
    long_declaration_section.length = 4 + 3 * 516 + 2 := by
  unfold long_declaration_section
  rw [List.length_append, List.length_replicate]
  rfl

theorem long_declaration_section_count :
    read_dword_count { octets := long_declaration_section, position := 0 }
      = .ok (256, { octets := long_declaration_section, position := 4 }) := by
  rw [@read_dword_count_of_lt { octets := long_declaration_section, position := 0 } (by
    simp only [octet_stream.octet_count, long_declaration_section_length]
    omega)]
  rfl

theorem long_declaration_section_zero :
    ∀ q, 4 ≤ q → long_declaration_section.getD q 0 = 0 := by
  intro q hq
  unfold long_declaration_section
  rw [List.getD_append_right _ _ _ _ (by simpa using hq), List.getD_eq_getElem?_getD,
    List.getElem?_replicate]
  split <;> rfl

/-- The loop of `read_function_declarations` on `long_declaration_section`, from the
empty table of a fresh session. -/
theorem long_declaration_section_loop (self : swamp_unpack) :
    read_function_declarations_loop 256
      (({ octets := long_declaration_section, position := 4 } : octet_stream).octet_count + 1) 0
      { octets := long_declaration_section, position := 4 } self fresh_state.repo []
      = .error .wild_store :=
  read_function_declarations_loop_overrun 256 (Nat.le_refl _) long_declaration_section 513
    _ 0 4 self fresh_state.repo [] rfl
    (by simp only [octet_stream.octet_count, long_declaration_section_length]; omega) (by omega)
    (by rw [long_declaration_section_length]; omega) long_declaration_section_zero

/-- C21, counterexample: on `long_declaration_section`, the count 256 followed by 516
entries, `read_function_declarations` on the empty table of a fresh session does not end
on the end-of-stream path of a read: the table is full after 512 entries, the store of
the 513th falls on the storage of the index and the store of the 514th is a wild
store. -/
theorem long_declarations_wild_store :
    read_dword_count { octets := long_declaration_section, position := 0 }
      = .ok (256, { octets := long_declaration_section, position := 4 }) ∧
    long_declaration_section.length = 4 + 3 * 516 + 2 ∧
    read_function_declarations fresh_state.self
      { octets := long_declaration_section, position := 0 } fresh_state.repo []
      = .error .wild_store :=
  ⟨long_declaration_section_count, long_declaration_section_length,
    read_function_declarations_of_loop_fault long_declaration_section_count
      (long_declaration_section_loop _)⟩

/-- C21 (amended): `read_function_declarations` terminates on every buffer and every
count: it returns, or a read takes the end-of-stream path, or a store goes past the 512
slots of the table (a wild store), and the bound on the iterations of the embedding is
never what stops it (any bound above the octets left gives the same result).  An
iteration that does not fault moves the cursor on by at least three octets and keeps it
inside the buffer.  For a count of 256 or more the function does not return: it takes
the end-of-stream path or makes a wild store, and it is the end-of-stream path when the
octets after the count are fewer than three for each store that the table has room for
and three more.  Whenever it returns the recorded `function_declaration_count` is at
most 255. -/
theorem read_function_declarations_terminates (self : swamp_unpack) (s : octet_stream)
    (repo : unpack_constants) (heap : List swamp_func) :
    (read_function_declarations self s repo heap = .error .end_of_stream ∨
      read_function_declarations self s repo heap = .error .wild_store ∨
      ∃ r, read_function_declarations self s repo heap = .ok r) ∧
    (∀ (count fuel i : Nat) (s0 : octet_stream) (self0 : swamp_unpack)
      (repo0 : unpack_constants) (heap0 : List swamp_func),
      s0.octet_count - s0.position < fuel →
      read_function_declarations_loop count fuel i s0 self0 repo0 heap0
        = read_function_declarations_loop count (s0.octet_count + 1) i s0 self0 repo0 heap0) ∧
    (∀ (s0 sa sb sc : octet_stream) (pc typeRef : Nat) (name : List Nat),
      read_uint8 s0 = .ok (pc, sa) → read_string sa = .ok (name, sb) →
      read_type_ref sb = .ok (typeRef, sc) →
      s0.position + 3 ≤ sc.position ∧ sc.position ≤ sc.octet_count) ∧
    (∀ (count : Nat) (sc : octet_stream), read_dword_count s = .ok (count, sc) → 256 ≤ count →
      (read_function_declarations self s repo heap = .error .end_of_stream ∨
        read_function_declarations self s repo heap = .error .wild_store) ∧
      (sc.octet_count - sc.position < 3 * (repo.room + 1) →
        read_function_declarations self s repo heap = .error .end_of_stream)) ∧
    (∀ (s1 : octet_stream) (self1 : swamp_unpack) (repo1 : unpack_constants)
      (heap1 : List swamp_func),
      read_function_declarations self s repo heap = .ok (s1, self1, repo1, heap1) →
      self1.function_declaration_count ≤ 255) := by
  have hfault : ∀ e, read_function_declarations self s repo heap = .error e →
      (e = .end_of_stream ∨ e = .wild_store) ∧
      ∀ (count : Nat) (sc : octet_stream), read_dword_count s = .ok (count, sc) →
        sc.octet_count - sc.position < 3 * (repo.room + 1) → e = .end_of_stream := by
    intro e hr
    unfold read_function_declarations at hr
    split at hr
    · rename_i e1 he1
      simp only [Except.error.injEq] at hr
      rw [← hr]
      refine ⟨Or.inl (read_dword_count_fault he1), fun count sc hc _ => ?_⟩
      rw [hc] at he1
      exact absurd he1 (by simp)
    rename_i count1 sc1 hc1
    split at hr
    · rename_i e1 he1
      simp only [Except.error.injEq] at hr
      rw [← hr]
      obtain ⟨g1, g2⟩ := read_function_declarations_loop_fault _ _ _ _ _ _ _ _ (by omega) he1
      refine ⟨g1, fun count sc hc hlt => g2 ?_⟩
      rw [hc1] at hc
      simp only [Except.ok.injEq, Prod.mk.injEq] at hc
      rw [hc.2]
      exact hlt
    · exact absurd hr (by simp)
  refine ⟨?_, ?_, ?_, ?_, ?_⟩
  · cases hr : read_function_declarations self s repo heap with
    | ok r => exact Or.inr (Or.inr ⟨r, rfl⟩)
    | error e =>
      rcases (hfault e hr).1 with g | g
      · exact Or.inl (by rw [g])
      · exact Or.inr (Or.inl (by rw [g]))
  · intro count fuel i s0 self0 repo0 heap0 hf
    exact read_function_declarations_loop_bound count _ _ _ _ _ _ _ hf (by omega)
  · intro s0 sa sb sc pc typeRef name ha hb hc
    obtain ⟨_, _, h3, h4, h5⟩ := read_declaration_entry ha hb hc
    refine ⟨h3, ?_⟩
    simp only [octet_stream.octet_count] at h4 ⊢
    rw [h5]
    exact h4
  · intro count sc hc hn
    cases hr : read_function_declarations self s repo heap with
    | ok r =>
      obtain ⟨s1, self1, repo1, heap1⟩ := r
      obtain ⟨count2, sc2, _, hc2, hle, _⟩ := read_function_declarations_ok hr
      rw [hc] at hc2
      simp only [Except.ok.injEq, Prod.mk.injEq] at hc2
      omega
    | error e =>
      refine ⟨?_, fun hlt => ?_⟩
      · rcases (hfault e hr).1 with g | g
        · exact Or.inl (by rw [g])
        · exact Or.inr (by rw [g])
      · rw [(hfault e hr).2 count sc hc hlt]
  · intro s1 self1 repo1 heap1 hr
    obtain ⟨count, _, _, _, hle, _, _, _, _, _, hcnt, _⟩ := read_function_declarations_ok hr
    rw [hcnt]
    exact hle

/-- C22: after a declaration section that `read_function_declarations` has decoded,
with `n` entries, when the `k`-th entry is named "main" and no later entry is, the entry
point is the function object of the `k`-th entry, the one whose address is in the table
at `offset_function_declarations + k` (whenever that is one of the 512 slots of the
array): the last "main" in wire order wins, whatever earlier entries are named; and when
no entry is named "main" the entry point is what it was before the section. -/
theorem entry_point_is_last_main (self self1 : swamp_unpack) (s sc s1 : octet_stream)
    (repo repo1 : unpack_constants) (heap heap1 : List swamp_func) (n : Nat)
    (hc : read_dword_count s = .ok (n, sc))
    (hr : read_function_declarations self s repo heap = .ok (s1, self1, repo1, heap1)) :
    (∀ k, k < n → (wire_declaration (declaration_cursor k sc)).debug_name = main_name →
      (∀ j, k < j → j < n →
        (wire_declaration (declaration_cursor j sc)).debug_name ≠ main_name) →
      swamp_unpack_entry_point self1 = some (heap.length + k) ∧
      (self1.offset_function_declarations + k < 512 →
        repo1.slot (self1.offset_function_declarations + k)
          = some (.function (heap.length + k))) ∧
      heap1[heap.length + k]? = some (wire_declaration (declaration_cursor k sc))) ∧
    ((∀ k, k < n → (wire_declaration (declaration_cursor k sc)).debug_name ≠ main_name) →
      swamp_unpack_entry_point self1 = swamp_unpack_entry_point self) := by
  obtain ⟨count, sc2, news, hc2, _, hh, _, a2, _, hoff, _, _, _, _, hent⟩ :=
    read_function_declarations_ok hr
  rw [hc] at hc2
  simp only [Except.ok.injEq, Prod.mk.injEq] at hc2
  obtain ⟨rfl, rfl⟩ := hc2
  obtain ⟨hw, _⟩ := read_function_declarations_wire hc hr
  have hnews : news = (List.range n).map (fun k => wire_declaration (declaration_cursor k sc)) :=
    List.append_cancel_left (hh.symm.trans hw)
  subst hnews
  constructor
  · intro k hk hmain hlater
    refine ⟨?_, ?_, ?_⟩
    · rcases hent with ⟨_, hno⟩ | ⟨j, f, hj, hfm, hej, hjl⟩
      · exact absurd hmain (hno _ (List.getElem?_mem (getElem?_range_map _ n k hk)))
      · have hjn : j < n := by
          have := (List.getElem?_eq_some.mp hj).1
          simpa using this
        rw [getElem?_range_map _ n j hjn] at hj
        injection hj with hj
        subst hj
        have hjk : j = k := by
          rcases Nat.lt_trichotomy j k with h | h | h
          · exact absurd hmain (hjl k _ h (getElem?_range_map _ n k hk))
          · exact h
          · exact absurd hfm (hlater j h hjn)
        rw [← hjk]
        exact hej
    · rw [hoff]
      intro h512
      obtain ⟨v, hv, hP⟩ := a2.in_slot k hk h512
      rw [hv, hP]
    · rw [hw]
      exact declared_at hk
  · intro hno
    rcases hent with ⟨he, _⟩ | ⟨j, f, hj, hfm, _, _⟩
    · exact he
    · have hjn : j < n := by
        have := (List.getElem?_eq_some.mp hj).1
        simpa using this
      rw [getElem?_range_map _ n j hjn] at hj
      injection hj with hj
      exact absurd (hj ▸ hfm) (hno j hjn)

set_option maxRecDepth 100000 in
theorem entry_point_is_last_main_witness :
    swamp_unpack_entry_point
        (result_of two_mains_run
          ({ octets := [], position := 0 }, fresh_state.self, fresh_state.repo, [])).2.1
      = some 2 :=
  ((entry_point_is_last_main fresh_state.self
    (result_of two_mains_run
      ({ octets := [], position := 0 }, fresh_state.self, fresh_state.repo, [])).2.1
    { octets := two_mains_section, position := 0 } { octets := two_mains_section, position := 4 }
    (result_of two_mains_run
      ({ octets := [], position := 0 }, fresh_state.self, fresh_state.repo, [])).1
    fresh_state.repo
    (result_of two_mains_run
      ({ octets := [], position := 0 }, fresh_state.self, fresh_state.repo, [])).2.2.1
    []
    (result_of two_mains_run
      ({ octets := [], position := 0 }, fresh_state.self, fresh_state.repo, [])).2.2.2
    3 rfl rfl).1 2 (by decide) rfl (fun j h1 h2 => absurd h2 (by omega))).1

end SwampUnpack
